import Mathlib

/-!
Verification of the Pathfinder library (generic A*, cached A*, and the
8-direction tile cached variant) against its natural-language specification.

The C++ template classes are shallowly embedded as Lean functions over explicit
search-state records:

* raw `astarnode *` pointers become indices into the list of nodes allocated
  during the current search (the allocation arena); `m_parent` is an optional
  arena index;
* `std::map<NODETYPE, listelement>` (and the growable sliding-window arrays
  `m_helperlist` / `m_cache` of the cached variants, whose accessor `hl`
  default-initializes an entry on first touch) become total functions with
  default-constructed entries, which is exactly the observable behavior of
  `operator[]` / `hl`;
* `std::push_heap` / `std::pop_heap` / `std::make_heap` over
  `astarnodecompare` (a comparator making the smallest `m_f` the heap front)
  become an explicit binary min-heap on arena indices keyed by the node's
  `m_f` (sift-up insertion, swap-root-to-back-and-sift-down extraction,
  bottom-up Floyd heapify).  The C++ standard leaves the arrangement of
  equal-keyed elements unspecified; concrete runs below are designed so that
  every extraction has a unique minimal key, making the extraction order
  independent of that freedom;
* the `while(m_openlist.size()>0)` search loop becomes a fuel-indexed
  recursion; running out of fuel yields `PATH_SEARCHING`, a value the real
  blocking `FindPath` never returns, so conclusions about `PATH_FOUND` /
  `PATH_NOTFOUND` are exactly conclusions about the terminating C++ runs;
* costs (`COSTTYPE`) are instantiated at `Int`.

`FindPath` and `Step` of each class have textually identical loop bodies in
the source; the embedding factors that shared body into a single definition
(`stepBody`, `stepBodyCached`) used by both, mirroring the duplication.
-/

namespace PathfinderModel

/-- Result codes of the path-finding methods (`pathfinder.h`, `enum PathResult`). -/
inductive PathResult where
  | PATH_FOUND
  | PATH_NOTFOUND
  | PATH_SEARCHING
deriving DecidableEq

export PathResult (PATH_FOUND PATH_NOTFOUND PATH_SEARCHING)

/-- Search node (`pathfinderastargeneric.h`, `struct astarnode`): the state it
represents, the parent pointer (an optional arena index here), and the
`f = g + h` cost fields. -/
structure astarnode (S : Type) where
  m_node : S
  m_parent : Option Nat
  m_f : Int
  m_g : Int
  m_h : Int
deriving DecidableEq

/-- Entry of the open/closed membership helper (`struct listelement`):
default-constructed as `{NULL, false, false}`. -/
structure listelement where
  m_node : Option Nat := none
  m_onopen : Bool := false
  m_onclosed : Bool := false
deriving DecidableEq

instance : Inhabited listelement := ⟨{}⟩

/-- Default node used by total index lookups; live runs only access valid
indices (established by the invariants below). -/
def dfltNode {S : Type} [Inhabited S] : astarnode S :=
  { m_node := default, m_parent := none, m_f := 0, m_g := 0, m_h := 0 }

section Heap

/-! ### The `std::*_heap` model

The heap is a list of arena indices; `key` reads the node's current `m_f`
(the comparator `astarnodecompare` orders by `m_f`, smallest first). -/

/-- Swap the elements at positions `i` and `j` (identity when out of range). -/
def heapSwap (l : List Nat) (i j : Nat) : List Nat :=
  match l.get? i, l.get? j with
  | some a, some b => (l.set i b).set j a
  | _, _ => l

/-- Sift the element at position `pos` up toward the root while its key is
smaller than its parent's key (the effect of `std::push_heap`); `fuel` bounds
the recursion depth (`fuel ≥ pos` gives the unbounded behavior, since the
position strictly decreases). -/
def siftUp (key : Nat → Int) : Nat → List Nat → Nat → List Nat
  | 0, l, _ => l
  | fuel + 1, l, pos =>
    match pos with
    | 0 => l
    | pos' + 1 =>
      let par := pos' / 2
      match l.get? (pos' + 1), l.get? par with
      | some x, some p =>
        if key x < key p then siftUp key fuel (heapSwap l (pos' + 1) par) par else l
      | _, _ => l

/-- `push_back` followed by `std::push_heap`. -/
def pushHeap (key : Nat → Int) (l : List Nat) (x : Nat) : List Nat :=
  siftUp key (l.length + 1) (l ++ [x]) l.length

/-- The child of heap position `i` with the smaller key (the left child when
only it exists or on a tie). -/
def pickChild (key : Nat → Int) (l : List Nat) (i : Nat) : Nat :=
  match l.get? (2 * i + 2), l.get? (2 * i + 1) with
  | some r, some lft => if key r < key lft then 2 * i + 2 else 2 * i + 1
  | _, _ => 2 * i + 1

/-- Sift the element at index `i` down, swapping with its smallest-keyed child
while the heap property is violated; `fuel` bounds the recursion depth. -/
def siftDown (key : Nat → Int) : Nat → List Nat → Nat → List Nat
  | 0, l, _ => l
  | fuel + 1, l, i =>
    let c := pickChild key l i
    match l.get? c, l.get? i with
    | some xc, some xi =>
      if key xc < key xi then siftDown key fuel (heapSwap l i c) c else l
    | _, _ => l

/-- `front()` then `std::pop_heap` then `pop_back()`: the front element is
swapped to the back, removed, and the element brought to the root is sifted
down. -/
def popHeap (key : Nat → Int) (l : List Nat) : Option Nat × List Nat :=
  match l with
  | [] => (none, [])
  | [x] => (some x, [])
  | x :: y :: rest =>
    let l0 := x :: y :: rest
    let n := l0.length
    (some x, siftDown key n ((heapSwap l0 0 (n - 1)).dropLast) 0)

/-- Bottom-up heapify auxiliary: sift down at indexes `i-1, i-2, ..., 0`. -/
def makeHeapFrom (key : Nat → Int) : Nat → List Nat → List Nat
  | 0, l => l
  | i + 1, l => makeHeapFrom key i (siftDown key l.length l i)

/-- `std::make_heap` (Floyd's bottom-up heap construction). -/
def makeHeap (key : Nat → Int) (l : List Nat) : List Nat :=
  makeHeapFrom key (l.length / 2) l

end Heap

section Generic

/-! ### The generic engine `AStarGeneric` (`pathfinderastargeneric.h`)

`NODETYPE` is `S`, `DESTCOST` is a function `dc : S → S → Int`
(`IDestinationCost`), `GETNEIGHBORS` is a function `gn : S → List (S × Int)`
listing, in emission order, the `(neighbor, movecost)` pairs the user functor
passes to `AddNeighborFunctor`, and `COSTTYPE` is `Int`. -/

variable {S : Type} [DecidableEq S] [Inhabited S]

/-- Full mutable state of one `AStarGeneric` instance: the allocation arena,
`m_openlist` (a heap of arena indices), `m_closedlist`, the
`std::map<NODETYPE, listelement>` helper, and `m_currentnode`. -/
structure AStarState (S : Type) where
  nodes : List (astarnode S)
  m_openlist : List Nat
  m_closedlist : List Nat
  m_helperlist : S → listelement
  m_currentnode : Option Nat

/-- State of the node at arena index `j` (valid indices only in live runs). -/
def stAt [Inhabited S] (nodes : List (astarnode S)) (j : Nat) : S :=
  (nodes.getD j dfltNode).m_node

/-- `m_g` of the node at arena index `j`. -/
def gAt [Inhabited S] (nodes : List (astarnode S)) (j : Nat) : Int :=
  (nodes.getD j dfltNode).m_g

/-- `m_f` of the node at arena index `j`: the heap key used by
`astarnodecompare`. -/
def fAt [Inhabited S] (nodes : List (astarnode S)) (j : Nat) : Int :=
  (nodes.getD j dfltNode).m_f

/-- Pointwise update of the helper map (`m_helperlist[s] = e`). -/
def setHelper (h : S → listelement) (s : S) (e : listelement) : S → listelement :=
  fun t => if t = s then e else h t

/-- `AStarGeneric::AddNeighbor`: ignore closed neighbors; relax a neighbor
already known (strictly smaller tentative `g` updates `g`, `f`, parent and
rebuilds the heap); otherwise allocate a new node and push it. -/
def AddNeighbor (dc : S → S → Int) (goal : S) (st : AStarState S)
    (neighbor : S) (movecost : Int) : AStarState S :=
  if (st.m_helperlist neighbor).m_onclosed = false then
    match (st.m_helperlist neighbor).m_node, st.m_currentnode with
    | some j, some cur =>
      if gAt st.nodes cur + movecost < gAt st.nodes j then
        let nd := st.nodes.getD j dfltNode
        let nd' : astarnode S :=
          { nd with
            m_g := gAt st.nodes cur + movecost
            m_f := (gAt st.nodes cur + movecost) + nd.m_h
            m_parent := some cur }
        let nodes' := st.nodes.set j nd'
        { st with nodes := nodes', m_openlist := makeHeap (fAt nodes') st.m_openlist }
      else st
    | none, some cur =>
      let nd : astarnode S :=
        { m_node := neighbor
          m_parent := some cur
          m_g := gAt st.nodes cur + movecost
          m_h := dc neighbor goal
          m_f := (gAt st.nodes cur + movecost) + dc neighbor goal }
      let j := st.nodes.length
      let nodes' := st.nodes ++ [nd]
      { st with
        nodes := nodes'
        m_openlist := pushHeap (fAt nodes') st.m_openlist j
        m_helperlist :=
          setHelper st.m_helperlist neighbor
            { m_node := some j, m_onopen := true
              m_onclosed := (st.m_helperlist neighbor).m_onclosed } }
    | some _, none => st
    | none, none => st
  else st

/-- The state produced by the constructor-plus-initialization prologue shared
by `FindPath` and `InitializeStep`: lists cleared, and the start node pushed
with `g = destinationcost(start,goal)`, `h = 0`, `f = g + h`. -/
def initState (dc : S → S → Int) (start goal : S) : AStarState S :=
  let newnode : astarnode S :=
    { m_node := start
      m_parent := none
      m_g := dc start goal
      m_h := 0
      m_f := dc start goal + 0 }
  { nodes := [newnode]
    m_openlist := pushHeap (fAt [newnode]) [] 0
    m_closedlist := []
    m_helperlist :=
      setHelper (fun _ => default) start { m_node := some 0, m_onopen := true }
    m_currentnode := none }

/-- One iteration of the search loop — the body shared verbatim by
`AStarGeneric::FindPath`'s `while` loop and `AStarGeneric::Step`: pop the heap
front, mark it closed, and either report `PATH_FOUND` (the goal) or expand its
neighbors and report `PATH_SEARCHING`; an empty open list reports
`PATH_NOTFOUND`. -/
def stepBody (dc : S → S → Int) (gn : S → List (S × Int)) (goal : S)
    (st : AStarState S) : PathResult × AStarState S :=
  if st.m_openlist.length > 0 then
    match popHeap (fAt st.nodes) st.m_openlist with
    | (some cur, open2) =>
      let s := stAt st.nodes cur
      let h1 := setHelper st.m_helperlist s { st.m_helperlist s with m_onopen := false }
      let h2 := setHelper h1 s { h1 s with m_onclosed := true }
      let st1 : AStarState S :=
        { st with
          m_openlist := open2
          m_currentnode := some cur
          m_helperlist := h2
          m_closedlist := st.m_closedlist ++ [cur] }
      if s = goal then (PATH_FOUND, st1)
      else
        (PATH_SEARCHING,
          (gn s).foldl (fun acc nc => AddNeighbor dc goal acc nc.1 nc.2) st1)
    | (none, _) => (PATH_NOTFOUND, st)
  else (PATH_NOTFOUND, st)

/-- The path-reconstruction walk `while(m_currentnode){ finalpath.push_back(...);
m_currentnode=m_currentnode->m_parent; }`: returns the collected states and the
final value of the walking pointer (`none` when the walk reached the start
node's null parent within the given fuel). -/
def walkChain [Inhabited S] (nodes : List (astarnode S)) :
    Nat → Option Nat → List S × Option Nat
  | 0, c => ([], c)
  | _ + 1, none => ([], none)
  | fuel + 1, some j =>
    let nd := nodes.getD j dfltNode
    let r := walkChain nodes fuel nd.m_parent
    (nd.m_node :: r.1, r.2)

/-- The fuel-indexed `while(m_openlist.size()>0)` loop of
`AStarGeneric::FindPath`.  On `PATH_FOUND` the parent chain is walked into
`finalpath` (replacing its prior contents), mutating `m_currentnode` along the
way exactly as the C++ loop does; on `PATH_NOTFOUND` `finalpath` is returned
untouched.  Exhausted fuel yields `PATH_SEARCHING`. -/
def FindPathLoop (dc : S → S → Int) (gn : S → List (S × Int)) (goal : S) :
    Nat → AStarState S → List S → PathResult × List S × AStarState S
  | 0, st, finalpath => (PATH_SEARCHING, finalpath, st)
  | fuel + 1, st, finalpath =>
    match stepBody dc gn goal st with
    | (PATH_SEARCHING, st') => FindPathLoop dc gn goal fuel st' finalpath
    | (PATH_NOTFOUND, st') => (PATH_NOTFOUND, finalpath, st')
    | (PATH_FOUND, st') =>
      let w := walkChain st'.nodes st'.nodes.length st'.m_currentnode
      (PATH_FOUND, w.1, { st' with m_currentnode := w.2 })

/-- `AStarGeneric::FindPath(start, goal, finalpath, destinationcost,
getneighbors)`: reset all per-search state, seed the open list with the start
node, and run the loop to completion. -/
def FindPath (start goal : S) (finalpath : List S) (dc : S → S → Int)
    (gn : S → List (S × Int)) (fuel : Nat) : PathResult × List S × AStarState S :=
  FindPathLoop dc gn goal fuel (initState dc start goal) finalpath

/-- `AStarGeneric::InitializeStep`: identical per-search reset and seeding
(the callbacks are stored in members; here they are passed to `Step`). -/
def InitializeStep (dc : S → S → Int) (start goal : S) : AStarState S :=
  initState dc start goal

/-- `AStarGeneric::Step`: one pop-and-expand, returning `PATH_FOUND`,
`PATH_NOTFOUND`, or `PATH_SEARCHING` (its body is the loop body of
`FindPath`). -/
def Step (dc : S → S → Int) (gn : S → List (S × Int)) (goal : S)
    (st : AStarState S) : PathResult × AStarState S :=
  stepBody dc gn goal st

/-- `AStarGeneric::GetPath`: clear the output and walk the parent chain from
`m_currentnode`. -/
def GetPath (st : AStarState S) : List S :=
  (walkChain st.nodes st.nodes.length st.m_currentnode).1

/-- Driving the step interface to a terminal result: call `Step` repeatedly
while it returns `PATH_SEARCHING` (fuel-bounded; exhausted fuel reports
`PATH_SEARCHING`). -/
def runSteps (dc : S → S → Int) (gn : S → List (S × Int)) (goal : S) :
    Nat → AStarState S → PathResult × AStarState S
  | 0, st => (PATH_SEARCHING, st)
  | fuel + 1, st =>
    match Step dc gn goal st with
    | (PATH_SEARCHING, st') => runSteps dc gn goal fuel st'
    | (r, st') => (r, st')

end Generic

section GenericCached

/-! ### The cached engine `AStarGenericCached` (`pathfinderastargenericcached.h`)

Each state carries a caller-assigned integer index (`long` becomes `Int`).
`GETNEIGHBORS` is a function `gn : S → List (S × Int × Int)` listing the
`(neighbor, neighborindex, movecost)` triples emitted to
`AddNeighborFunctor`.  `m_helperlist` / `m_cache` are the growable
sliding-window arrays, modelled as total maps from `Int` with
default-constructed entries (`hl` default-initializes any entry on first
touch, and reads of `m_cache` are guarded by an in-window check that treats
missing entries exactly like default-constructed ones). -/

variable {S : Type} [DecidableEq S] [Inhabited S]

/-- Search node of the cached variant (`struct astarnode` with `long m_index`). -/
structure astarnodeCached (S : Type) where
  m_node : S
  m_parent : Option Nat
  m_f : Int
  m_g : Int
  m_h : Int
  m_index : Int
deriving DecidableEq

/-- Cache entry (`struct cacheelement`): the has-been-expanded flag and the
recorded `(neighbor, neighborindex, movecost)` triples. -/
structure cacheelement (S : Type) where
  m_hascache : Bool := false
  m_neighbors : List (S × Int × Int) := []
deriving DecidableEq

instance : Inhabited (cacheelement S) := ⟨{}⟩

/-- Default cached node for total index lookups. -/
def dfltNodeC [Inhabited S] : astarnodeCached S :=
  { m_node := default, m_parent := none, m_f := 0, m_g := 0, m_h := 0, m_index := 0 }

/-- Full mutable state of one `AStarGenericCached` instance. -/
structure AStarCachedState (S : Type) where
  nodes : List (astarnodeCached S)
  m_openlist : List Nat
  m_closedlist : List Nat
  m_helperlist : Int → listelement
  m_currentnode : Option Nat
  m_cache : Int → cacheelement S

/-- State of the cached node at arena index `j`. -/
def stAtC [Inhabited S] (nodes : List (astarnodeCached S)) (j : Nat) : S :=
  (nodes.getD j dfltNodeC).m_node

/-- Caller index of the cached node at arena index `j`. -/
def ixAtC [Inhabited S] (nodes : List (astarnodeCached S)) (j : Nat) : Int :=
  (nodes.getD j dfltNodeC).m_index

/-- `m_g` of the cached node at arena index `j`. -/
def gAtC [Inhabited S] (nodes : List (astarnodeCached S)) (j : Nat) : Int :=
  (nodes.getD j dfltNodeC).m_g

/-- `m_f` of the cached node at arena index `j`. -/
def fAtC [Inhabited S] (nodes : List (astarnodeCached S)) (j : Nat) : Int :=
  (nodes.getD j dfltNodeC).m_f

/-- Pointwise update of an `Int`-keyed map (helper-list / cache entry write). -/
def setIntMap {A : Type} (h : Int → A) (i : Int) (e : A) : Int → A :=
  fun k => if k = i then e else h k

/-- The relaxation half of `AStarGenericCached::AddNeighborCached` — also the
loop body replayed from the cache in `FindPath`/`Step` (the source duplicates
this block verbatim at the three sites): ignore a closed neighbor index;
relax an already-known node; otherwise allocate (recording `m_index`) and
push. -/
def relaxCached (dc : S → S → Int) (goal : S) (st : AStarCachedState S)
    (neighbor : S) (neighborindex : Int) (movecost : Int) : AStarCachedState S :=
  if (st.m_helperlist neighborindex).m_onclosed = false then
    match (st.m_helperlist neighborindex).m_node, st.m_currentnode with
    | some j, some cur =>
      if gAtC st.nodes cur + movecost < gAtC st.nodes j then
        let nd := st.nodes.getD j dfltNodeC
        let nd' : astarnodeCached S :=
          { nd with
            m_g := gAtC st.nodes cur + movecost
            m_f := (gAtC st.nodes cur + movecost) + nd.m_h
            m_parent := some cur }
        let nodes' := st.nodes.set j nd'
        { st with nodes := nodes', m_openlist := makeHeap (fAtC nodes') st.m_openlist }
      else st
    | none, some cur =>
      let nd : astarnodeCached S :=
        { m_node := neighbor
          m_parent := some cur
          m_g := gAtC st.nodes cur + movecost
          m_h := dc neighbor goal
          m_f := (gAtC st.nodes cur + movecost) + dc neighbor goal
          m_index := neighborindex }
      let j := st.nodes.length
      let nodes' := st.nodes ++ [nd]
      { st with
        nodes := nodes'
        m_openlist := pushHeap (fAtC nodes') st.m_openlist j
        m_helperlist :=
          setIntMap st.m_helperlist neighborindex
            { m_node := some j, m_onopen := true
              m_onclosed := (st.m_helperlist neighborindex).m_onclosed } }
    | some _, none => st
    | none, none => st
  else st

/-- The unconditional recording tail of `AddNeighborCached`: grow the cache
window to cover the current node's index, set its has-cache flag, and append
the emitted triple to its neighbor list. -/
def recordCache (st : AStarCachedState S) (curindex : Int)
    (neighbor : S) (neighborindex : Int) (movecost : Int) : AStarCachedState S :=
  let old := st.m_cache curindex
  { st with
    m_cache :=
      setIntMap st.m_cache curindex
        { m_hascache := true
          m_neighbors := old.m_neighbors ++ [(neighbor, neighborindex, movecost)] } }

/-- `AStarGenericCached::AddNeighborCached`: relaxation followed by the
unconditional cache recording (performed whether or not the neighbor was
closed or relaxed). -/
def AddNeighborCached (dc : S → S → Int) (goal : S) (st : AStarCachedState S)
    (neighbor : S) (neighborindex : Int) (movecost : Int) : AStarCachedState S :=
  let st1 := relaxCached dc goal st neighbor neighborindex movecost
  match st1.m_currentnode with
  | some cur => recordCache st1 (ixAtC st1.nodes cur) neighbor neighborindex movecost
  | none => st1

/-- `AStarGenericCached::ClearCache`. -/
def ClearCache (st : AStarCachedState S) : AStarCachedState S :=
  { st with m_cache := fun _ => {} }

/-- `AStarGenericCached::ClearCacheIndex`: reset one entry (its has-cache flag
and neighbor list); clearing an index outside the current window is a no-op in
the source, which coincides with resetting a default entry in this map model. -/
def ClearCacheIndex (st : AStarCachedState S) (index : Int) : AStarCachedState S :=
  { st with m_cache := setIntMap st.m_cache index {} }

/-- Per-search reset and seeding shared by the cached `FindPath` and
`InitializeStep` (the cache itself persists across searches). -/
def initCachedState (dc : S → S → Int) (start : S) (startindex : Int) (goal : S)
    (cache : Int → cacheelement S) : AStarCachedState S :=
  let newnode : astarnodeCached S :=
    { m_node := start
      m_parent := none
      m_g := dc start goal
      m_h := 0
      m_f := dc start goal + 0
      m_index := startindex }
  { nodes := [newnode]
    m_openlist := pushHeap (fAtC [newnode]) [] 0
    m_closedlist := []
    m_helperlist :=
      setIntMap (fun _ => default) startindex { m_node := some 0, m_onopen := true }
    m_currentnode := none
    m_cache := cache }

/-- Expansion of the current (non-goal) node in the cached engine: replay the
recorded triples when the current node's index has a valid cache entry,
otherwise enumerate live via `AddNeighborCached` (which also records). -/
def expandCached (dc : S → S → Int) (gn : S → List (S × Int × Int)) (goal : S)
    (st : AStarCachedState S) (cur : Nat) : AStarCachedState S :=
  if (st.m_cache (ixAtC st.nodes cur)).m_hascache then
    (st.m_cache (ixAtC st.nodes cur)).m_neighbors.foldl
      (fun acc t => relaxCached dc goal acc t.1 t.2.1 t.2.2) st
  else
    (gn (stAtC st.nodes cur)).foldl
      (fun acc t => AddNeighborCached dc goal acc t.1 t.2.1 t.2.2) st

/-- One iteration of the cached search loop — the body shared verbatim by
`AStarGenericCached::FindPath`'s `while` loop and
`AStarGenericCached::Step`. -/
def stepBodyCached (dc : S → S → Int) (gn : S → List (S × Int × Int)) (goal : S)
    (st : AStarCachedState S) : PathResult × AStarCachedState S :=
  if st.m_openlist.length > 0 then
    match popHeap (fAtC st.nodes) st.m_openlist with
    | (some cur, open2) =>
      let ci := ixAtC st.nodes cur
      let h1 := setIntMap st.m_helperlist ci { st.m_helperlist ci with m_onopen := false }
      let h2 := setIntMap h1 ci { h1 ci with m_onclosed := true }
      let st1 : AStarCachedState S :=
        { st with
          m_openlist := open2
          m_currentnode := some cur
          m_helperlist := h2
          m_closedlist := st.m_closedlist ++ [cur] }
      if stAtC st.nodes cur = goal then (PATH_FOUND, st1)
      else (PATH_SEARCHING, expandCached dc gn goal st1 cur)
    | (none, _) => (PATH_NOTFOUND, st)
  else (PATH_NOTFOUND, st)

/-- The parent-chain walk of the cached variant. -/
def walkChainC [Inhabited S] (nodes : List (astarnodeCached S)) :
    Nat → Option Nat → List S × Option Nat
  | 0, c => ([], c)
  | _ + 1, none => ([], none)
  | fuel + 1, some j =>
    let nd := nodes.getD j dfltNodeC
    let r := walkChainC nodes fuel nd.m_parent
    (nd.m_node :: r.1, r.2)

/-- The fuel-indexed search loop of `AStarGenericCached::FindPath`. -/
def FindPathCachedLoop (dc : S → S → Int) (gn : S → List (S × Int × Int)) (goal : S) :
    Nat → AStarCachedState S → List S → PathResult × List S × AStarCachedState S
  | 0, st, finalpath => (PATH_SEARCHING, finalpath, st)
  | fuel + 1, st, finalpath =>
    match stepBodyCached dc gn goal st with
    | (PATH_SEARCHING, st') => FindPathCachedLoop dc gn goal fuel st' finalpath
    | (PATH_NOTFOUND, st') => (PATH_NOTFOUND, finalpath, st')
    | (PATH_FOUND, st') =>
      let w := walkChainC st'.nodes st'.nodes.length st'.m_currentnode
      (PATH_FOUND, w.1, { st' with m_currentnode := w.2 })

/-- `AStarGenericCached::FindPath(start, startindex, goal, finalpath,
destinationcost, getneighbors)` run from a given persistent cache. -/
def FindPathCached (start : S) (startindex : Int) (goal : S) (finalpath : List S)
    (dc : S → S → Int) (gn : S → List (S × Int × Int))
    (cache : Int → cacheelement S) (fuel : Nat) :
    PathResult × List S × AStarCachedState S :=
  FindPathCachedLoop dc gn goal fuel (initCachedState dc start startindex goal cache) finalpath

end GenericCached

section Tile8Dir

/-! ### The grid engine `AStarTile8DirCached` (`pathfinderastartile8dircached.h`)

States are `(x, y)` positions (`std::pair<long,long>` becomes `Int × Int`),
indexed as `y * m_mapwidth + x`.  The embedded `FindPath` is the first
overload (all 8 surrounding tiles assumed reachable, no `MOVEBLOCKED`),
`MOVECOST` is `mc : Int × Int → Int × Int → Int` and `DESTCOST` is
`dc : Int × Int → Int × Int → Int`.  Note two source particularities modelled
faithfully: the cache replay recomputes `movecost` live and never reads the
stored cost, and a neighbor that is on the closed list during the first
(live) expansion of a tile is *not* recorded into that tile's cache entry. -/

/-- Cache entry of the grid engine: recorded `((x, y), movecost)` pairs. -/
structure cacheelement8 where
  m_hascache : Bool := false
  m_neighbors : List ((Int × Int) × Int) := []
deriving DecidableEq

instance : Inhabited cacheelement8 := ⟨{}⟩

/-- Full mutable state of one `AStarTile8DirCached` instance (the node record
of this variant has no `m_index` field, so `astarnode (Int × Int)` is reused). -/
structure Tile8State where
  nodes : List (astarnode (Int × Int))
  m_openlist : List Nat
  m_closedlist : List Nat
  m_helperlist : Int → listelement
  m_mapwidth : Int
  m_cache : Int → cacheelement8

/-- The grid index `(pos.second * m_mapwidth) + pos.first`. -/
def posIndex (w : Int) (p : Int × Int) : Int := p.2 * w + p.1

/-- A fresh engine instance (constructor: `m_mapwidth(0), m_cachestartindex(0),
m_helperliststartindex(0)`). -/
def tile8Init : Tile8State :=
  { nodes := []
    m_openlist := []
    m_closedlist := []
    m_helperlist := fun _ => default
    m_mapwidth := 0
    m_cache := fun _ => {} }

/-- `AStarTile8DirCached::SetMapWidth`: a changed width clears the cache. -/
def SetMapWidth (st : Tile8State) (width : Int) : Tile8State :=
  if width ≠ st.m_mapwidth then
    { st with m_mapwidth := width, m_cache := fun _ => {} }
  else st

/-- `AStarTile8DirCached::ClearCache`. -/
def ClearCache8 (st : Tile8State) : Tile8State :=
  { st with m_cache := fun _ => {} }

/-- `AStarTile8DirCached::ClearCachePosition`. -/
def ClearCachePosition (st : Tile8State) (pos : Int × Int) : Tile8State :=
  { st with m_cache := setIntMap st.m_cache (posIndex st.m_mapwidth pos) {} }

/-- The relax-or-create block shared by the cache-replay loop and the live
double loop of the first `FindPath` overload: process the geometric neighbor
`(xx, yy)` of the current node `cur`, calling `movecost` live. -/
def relax8 (mc dc : Int × Int → Int × Int → Int) (goal : Int × Int)
    (st : Tile8State) (cur : Nat) (xx yy : Int) : Tile8State :=
  let w := st.m_mapwidth
  let curpos := stAt st.nodes cur
  if (st.m_helperlist (posIndex w (xx, yy))).m_onclosed = false then
    match (st.m_helperlist (posIndex w (xx, yy))).m_node with
    | some j =>
      if gAt st.nodes cur + mc curpos (xx, yy) < gAt st.nodes j then
        let nd := st.nodes.getD j dfltNode
        let nd' : astarnode (Int × Int) :=
          { nd with
            m_g := gAt st.nodes cur + mc curpos (xx, yy)
            m_f := (gAt st.nodes cur + mc curpos (xx, yy)) + nd.m_h
            m_parent := some cur }
        let nodes' := st.nodes.set j nd'
        { st with nodes := nodes', m_openlist := makeHeap (fAt nodes') st.m_openlist }
      else st
    | none =>
      let nd : astarnode (Int × Int) :=
        { m_node := (xx, yy)
          m_parent := some cur
          m_g := gAt st.nodes cur + mc curpos (xx, yy)
          m_h := dc (xx, yy) goal
          m_f := (gAt st.nodes cur + mc curpos (xx, yy)) + dc (xx, yy) goal }
      let j := st.nodes.length
      let nodes' := st.nodes ++ [nd]
      { st with
        nodes := nodes'
        m_openlist := pushHeap (fAt nodes') st.m_openlist j
        m_helperlist :=
          setIntMap st.m_helperlist (posIndex w (xx, yy))
            { m_node := some j, m_onopen := true
              m_onclosed := (st.m_helperlist (posIndex w (xx, yy))).m_onclosed } }
  else st

/-- The geometric neighbor offsets in the order of the source's nested loops
(`yy` outer from `y-1` to `y+1`, `xx` inner from `x-1` to `x+1`, skipping the
center). -/
def neighborOffsets : List (Int × Int) :=
  [(-1, -1), (0, -1), (1, -1), (-1, 0), (1, 0), (-1, 1), (0, 1), (1, 1)]

/-- Live expansion of tile `cur` in the first `FindPath` overload: mark the
current tile's cache entry valid, then for each of the 8 surrounding tiles
that is not on the closed list, relax it and append it (with its live
`movecost`) to the cache entry — closed neighbors are skipped entirely and in
particular not recorded. -/
def expandLive8 (mc dc : Int × Int → Int × Int → Int) (goal : Int × Int)
    (st : Tile8State) (cur : Nat) : Tile8State :=
  let ci := posIndex st.m_mapwidth (stAt st.nodes cur)
  let st := { st with
    m_cache := setIntMap st.m_cache ci { st.m_cache ci with m_hascache := true } }
  neighborOffsets.foldl
    (fun acc off =>
      let xx := (stAt acc.nodes cur).1 + off.1
      let yy := (stAt acc.nodes cur).2 + off.2
      if (acc.m_helperlist (posIndex acc.m_mapwidth (xx, yy))).m_onclosed = false then
        let acc1 := relax8 mc dc goal acc cur xx yy
        let old := acc1.m_cache ci
        { acc1 with
          m_cache :=
            setIntMap acc1.m_cache ci
              { old with
                m_neighbors :=
                  old.m_neighbors ++ [((xx, yy), mc (stAt acc1.nodes cur) (xx, yy))] } }
      else acc)
    st

/-- Cache replay of tile `cur`: iterate the recorded positions (the recorded
cost is never read; `movecost` is recomputed live inside `relax8`). -/
def expandFromCache8 (mc dc : Int × Int → Int × Int → Int) (goal : Int × Int)
    (st : Tile8State) (cur : Nat) : Tile8State :=
  (st.m_cache (posIndex st.m_mapwidth (stAt st.nodes cur))).m_neighbors.foldl
    (fun acc t => relax8 mc dc goal acc cur t.1.1 t.1.2) st

/-- One iteration of the grid search loop (first `FindPath` overload). -/
def stepBody8 (mc dc : Int × Int → Int × Int → Int) (goal : Int × Int)
    (st : Tile8State) : PathResult × Tile8State :=
  if st.m_openlist.length > 0 then
    match popHeap (fAt st.nodes) st.m_openlist with
    | (some cur, open2) =>
      let ci := posIndex st.m_mapwidth (stAt st.nodes cur)
      let h1 := setIntMap st.m_helperlist ci { st.m_helperlist ci with m_onopen := false }
      let h2 := setIntMap h1 ci { h1 ci with m_onclosed := true }
      let st1 : Tile8State :=
        { st with
          m_openlist := open2
          m_helperlist := h2
          m_closedlist := st.m_closedlist ++ [cur] }
      if stAt st.nodes cur = goal then (PATH_FOUND, st1)
      else
        (PATH_SEARCHING,
          if (st1.m_cache ci).m_hascache then expandFromCache8 mc dc goal st1 cur
          else expandLive8 mc dc goal st1 cur)
    | (none, _) => (PATH_NOTFOUND, st)
  else (PATH_NOTFOUND, st)

/-- The fuel-indexed search loop of the grid `FindPath`; on `PATH_FOUND` the
parent chain of the current node `cur` is walked into `finalpath`. -/
def FindPath8Loop (mc dc : Int × Int → Int × Int → Int) (goal : Int × Int) :
    Nat → Tile8State → List (Int × Int) → PathResult × List (Int × Int) × Tile8State
  | 0, st, finalpath => (PATH_SEARCHING, finalpath, st)
  | fuel + 1, st, finalpath =>
    match stepBody8 mc dc goal st with
    | (PATH_SEARCHING, st') => FindPath8Loop mc dc goal fuel st' finalpath
    | (PATH_NOTFOUND, st') => (PATH_NOTFOUND, finalpath, st')
    | (PATH_FOUND, st') =>
      match st'.m_closedlist.getLast? with
      | some cur =>
        let w := walkChain st'.nodes st'.nodes.length (some cur)
        (PATH_FOUND, w.1, st')
      | none => (PATH_FOUND, finalpath, st')

/-- `AStarTile8DirCached::FindPath(start, goal, finalpath, movecost,
destinationcost)` (first overload): reset the per-search lists (the cache and
map width persist), seed the open list with the start node, and loop. -/
def FindPath8 (st : Tile8State) (start goal : Int × Int)
    (finalpath : List (Int × Int)) (mc dc : Int × Int → Int × Int → Int)
    (fuel : Nat) : PathResult × List (Int × Int) × Tile8State :=
  let newnode : astarnode (Int × Int) :=
    { m_node := start
      m_parent := none
      m_g := dc start goal
      m_h := 0
      m_f := dc start goal + 0 }
  let st0 : Tile8State :=
    { st with
      nodes := [newnode]
      m_openlist := pushHeap (fAt [newnode]) [] 0
      m_closedlist := []
      m_helperlist :=
        setIntMap (fun _ => default) (posIndex st.m_mapwidth start)
          { m_node := some 0, m_onopen := true } }
  FindPath8Loop mc dc goal fuel st0 finalpath

end Tile8Dir

section SpecPredicates

/-! ### Graph-level specification predicates

These formalize the spec's talk of paths, reachability, shortest-path cost,
and the parent-chain ancestry discipline of search nodes. -/

variable {S : Type} [DecidableEq S] [Inhabited S]

/-- `PathTo gn s t p c`: `p` lists the states of a walk from `s` to `t` whose
consecutive steps are emitted neighbor edges of `gn`, of accumulated move
cost `c`. -/
inductive PathTo (gn : S → List (S × Int)) : S → S → List S → Int → Prop where
  | refl (t : S) : PathTo gn t t [t] 0
  | cons (s n t : S) (c : Int) (p : List S) (k : Int) :
      (n, c) ∈ gn s → PathTo gn n t p k → PathTo gn s t (s :: p) (c + k)

/-- Goal `t` is reachable from `s` in the neighbor graph `gn`. -/
def ReachableG (gn : S → List (S × Int)) (s t : S) : Prop :=
  ∃ p c, PathTo gn s t p c

/-- `cmin` is the true shortest-path cost from `s` to `t`. -/
def IsShortestCost (gn : S → List (S × Int)) (s t : S) (cmin : Int) : Prop :=
  (∃ p, PathTo gn s t p cmin) ∧ ∀ p c, PathTo gn s t p c → cmin ≤ c

/-- `ChainL dc gn start goal nodes j l`: the parent chain of arena node `j` is
the index list `l` (from `j` down to the start node), each link being an
emitted edge of `gn` with the recorded `m_g` difference, and the chain root
being the heuristic-seeded start node. -/
inductive ChainL (dc : S → S → Int) (gn : S → List (S × Int)) (start goal : S)
    (nodes : List (astarnode S)) : Nat → List Nat → Prop where
  | root (j : Nat) :
      j < nodes.length →
      (nodes.getD j dfltNode).m_parent = none →
      stAt nodes j = start →
      gAt nodes j = dc start goal →
      ChainL dc gn start goal nodes j [j]
  | step (j k : Nat) (c : Int) (l : List Nat) :
      j < nodes.length →
      (nodes.getD j dfltNode).m_parent = some k →
      (stAt nodes j, c) ∈ gn (stAt nodes k) →
      gAt nodes j = gAt nodes k + c →
      ChainL dc gn start goal nodes k l →
      ChainL dc gn start goal nodes j (j :: l)

/-- Tri-state discipline for one state `s`: undiscovered, open (with its node
on the open list), or closed (with its node on the closed list and off the
open list) — exactly one of the three. -/
def TriState (st : AStarState S) (s : S) : Prop :=
  ((st.m_helperlist s).m_node = none ∧ (st.m_helperlist s).m_onopen = false ∧
    (st.m_helperlist s).m_onclosed = false) ∨
  (∃ j, (st.m_helperlist s).m_node = some j ∧ (st.m_helperlist s).m_onopen = true ∧
    (st.m_helperlist s).m_onclosed = false ∧ j ∈ st.m_openlist) ∨
  (∃ j, (st.m_helperlist s).m_node = some j ∧ (st.m_helperlist s).m_onopen = false ∧
    (st.m_helperlist s).m_onclosed = true ∧ j ∉ st.m_openlist ∧ j ∈ st.m_closedlist)

/-- The core search-loop invariant of the generic engine (everything except
the full-expansion property, which is momentarily broken while the freshly
closed node's neighbors are still being enumerated).  `hNode`/`hArena` make
the helper map and the arena mutually registered, `hTri` is the tri-state
discipline, and `hChain` gives every allocated node a duplicate-free,
closed-tail parent chain of genuine emitted edges. -/
structure InvCore (dc : S → S → Int) (gn : S → List (S × Int)) (start goal : S)
    (st : AStarState S) : Prop where
  hNode : ∀ s j, (st.m_helperlist s).m_node = some j →
    j < st.nodes.length ∧ stAt st.nodes j = s
  hArena : ∀ j, j < st.nodes.length → (st.m_helperlist (stAt st.nodes j)).m_node = some j
  hTri : ∀ s, TriState st s
  hOpenLt : ∀ j ∈ st.m_openlist, j < st.nodes.length
  hOpenNodup : st.m_openlist.Nodup
  hClosed : ∀ j ∈ st.m_closedlist, j < st.nodes.length ∧
    (st.m_helperlist (stAt st.nodes j)).m_onclosed = true
  hClosedNodup : (st.m_closedlist.map (stAt st.nodes)).Nodup
  hChain : ∀ j, j < st.nodes.length → ∃ l, ChainL dc gn start goal st.nodes j l ∧
    l.Nodup ∧ (∀ k ∈ l, k < st.nodes.length) ∧
    (∀ k ∈ l.tail, (st.m_helperlist (stAt st.nodes k)).m_onclosed = true)

/-- The full loop-boundary invariant: the core plus `hExp`, which says every
closed non-goal state has been fully expanded (all its emitted neighbors
discovered). -/
structure Inv (dc : S → S → Int) (gn : S → List (S × Int)) (start goal : S)
    (st : AStarState S) : Prop where
  core : InvCore dc gn start goal st
  hExp : ∀ s, (st.m_helperlist s).m_onclosed = true →
    s = goal ∨ ∀ nc ∈ gn s, (st.m_helperlist nc.1).m_node ≠ none

/-- The intermediate state of one loop iteration right after the popped node
`cur` has been removed from the open heap (leaving `open2`), recorded as the
current node, and moved to the closed list — the value of `st1` inside
`stepBody`. -/
def closeState (st : AStarState S) (cur : Nat) (open2 : List Nat) : AStarState S :=
  let s := stAt st.nodes cur
  let h1 := setHelper st.m_helperlist s { st.m_helperlist s with m_onopen := false }
  let h2 := setHelper h1 s { h1 s with m_onclosed := true }
  { st with
    m_openlist := open2
    m_currentnode := some cur
    m_helperlist := h2
    m_closedlist := st.m_closedlist ++ [cur] }

/-- Facts relating a search state to its image under one `AddNeighbor` call
(or a fold of such calls): invariant preservation, unchanged current node /
closed list / closed flags, monotone discovery, arena growth with stable
states, and complete freezing of closed states' records. -/
structure AddFacts (dc : S → S → Int) (gn : S → List (S × Int)) (start goal : S)
    (st st' : AStarState S) : Prop where
  inv : InvCore dc gn start goal st'
  cur_eq : st'.m_currentnode = st.m_currentnode
  closed_eq : st'.m_closedlist = st.m_closedlist
  flags_eq : ∀ s, (st'.m_helperlist s).m_onclosed = (st.m_helperlist s).m_onclosed
  disc_mono : ∀ s j, (st.m_helperlist s).m_node = some j →
    (st'.m_helperlist s).m_node = some j
  len_mono : st.nodes.length ≤ st'.nodes.length
  stAt_eq : ∀ j, j < st.nodes.length → stAt st'.nodes j = stAt st.nodes j
  frozen : ∀ s j, (st.m_helperlist s).m_onclosed = true →
    (st.m_helperlist s).m_node = some j →
    st'.m_helperlist s = st.m_helperlist s ∧
    st'.nodes.getD j dfltNode = st.nodes.getD j dfltNode ∧
    (j ∈ st'.m_openlist ↔ j ∈ st.m_openlist)

/-- Facts relating a search state to its image under one loop iteration
(`stepBody`), by result code. -/
structure StepFacts (dc : S → S → Int) (gn : S → List (S × Int)) (start goal : S)
    (st : AStarState S) (r : PathResult) (st' : AStarState S) : Prop where
  inv : Inv dc gn start goal st'
  disc_mono : ∀ s j, (st.m_helperlist s).m_node = some j →
    (st'.m_helperlist s).m_node = some j
  closed_mono : ∀ s, (st.m_helperlist s).m_onclosed = true →
    (st'.m_helperlist s).m_onclosed = true
  notfound : r = PATH_NOTFOUND → st' = st ∧ st.m_openlist = []
  searching : r = PATH_SEARCHING →
    st'.m_closedlist.length = st.m_closedlist.length + 1 ∧
    ((st.m_helperlist goal).m_onclosed = false →
      (st'.m_helperlist goal).m_onclosed = false)
  found : r = PATH_FOUND → ∃ cur, st'.m_currentnode = some cur ∧
    cur < st'.nodes.length ∧ stAt st'.nodes cur = goal
  frozen : ∀ s j, (st.m_helperlist s).m_onclosed = true →
    (st.m_helperlist s).m_node = some j →
    st'.m_helperlist s = st.m_helperlist s ∧
    st'.nodes.getD j dfltNode = st.nodes.getD j dfltNode ∧
    j ∉ st'.m_openlist

/-- The state evolution of a step-driven (or equivalently run-to-completion)
search after `k` iterations: apply the loop body while it reports
`PATH_SEARCHING` and stay at the terminal state afterwards. -/
def runState (dc : S → S → Int) (gn : S → List (S × Int)) (goal : S) :
    Nat → AStarState S → AStarState S
  | 0, st => st
  | k + 1, st =>
    match stepBody dc gn goal st with
    | (PATH_SEARCHING, st') => runState dc gn goal k st'
    | (_, st') => st'

/-- Replace the persistent cache of a cached-engine state (the cache is the
only member that survives across searches, so two searches from the same
inputs differ exactly by a `withCache`). -/
def withCache (st : AStarCachedState S) (X : Int → cacheelement S) :
    AStarCachedState S :=
  { st with m_cache := X }

/-- The intermediate state of one cached loop iteration right after the popped
node `cur` has been closed — the value of `st1` inside `stepBodyCached`. -/
def closeStateC (st : AStarCachedState S) (cur : Nat) (open2 : List Nat) :
    AStarCachedState S :=
  let ci := ixAtC st.nodes cur
  let h1 := setIntMap st.m_helperlist ci { st.m_helperlist ci with m_onopen := false }
  let h2 := setIntMap h1 ci { h1 ci with m_onclosed := true }
  { st with
    m_openlist := open2
    m_currentnode := some cur
    m_helperlist := h2
    m_closedlist := st.m_closedlist ++ [cur] }

/-- Every open-heap entry of a cached state is a valid arena index. -/
def OpenLtC (st : AStarCachedState S) : Prop :=
  ∀ j ∈ st.m_openlist, j < st.nodes.length

/-- Every arena node's recorded `m_index` is the caller's index (`ix`) of its
state. -/
def IxInvC (ix : S → Int) (st : AStarCachedState S) : Prop :=
  ∀ j, j < st.nodes.length → ixAtC st.nodes j = ix (stAtC st.nodes j)

/-- The node allocated by the create branch of `relaxCached` (named here to
state its branch equations compactly). -/
def createdNodeC (dc : S → S → Int) (goal : S) (st : AStarCachedState S)
    (n : S) (ni mc : Int) (cur : Nat) : astarnodeCached S :=
  { m_node := n
    m_parent := some cur
    m_g := gAtC st.nodes cur + mc
    m_h := dc n goal
    m_f := (gAtC st.nodes cur + mc) + dc n goal
    m_index := ni }

/-- The updated node written by the relax branch of `relaxCached`. -/
def relaxedNodeC (st : AStarCachedState S) (mc : Int) (j cur : Nat) :
    astarnodeCached S :=
  { st.nodes.getD j dfltNodeC with
    m_g := gAtC st.nodes cur + mc
    m_f := (gAtC st.nodes cur + mc) + (st.nodes.getD j dfltNodeC).m_h
    m_parent := some cur }

/-- A cache is faithful to the neighbor enumeration `gn` under the caller
indexing `ix`: a valid entry for a state's index holds exactly the triples
`gn` emits for that state, and an invalid entry holds no triples. -/
def CacheOk (gn : S → List (S × Int × Int)) (ix : S → Int)
    (X : Int → cacheelement S) : Prop :=
  ∀ s, ((X (ix s)).m_hascache = true → (X (ix s)).m_neighbors = gn s) ∧
    ((X (ix s)).m_hascache = false → (X (ix s)).m_neighbors = [])

/-- Claim C1 as stated: on every finite graph with non-negative edge costs and
an admissible heuristic, and enough fuel for the (always terminating) search,
`FindPath` reports `PATH_FOUND` exactly for reachable goals, and the returned
`finalpath` traces a path whose accumulated edge cost is the true
shortest-path cost. -/
def C1Statement : Prop :=
  ∀ (n : Nat) (gn : Fin (n + 1) → List (Fin (n + 1) × Int))
    (dc : Fin (n + 1) → Fin (n + 1) → Int) (start goal : Fin (n + 1))
    (p₀ : List (Fin (n + 1))) (fuel : Nat),
    (∀ s, ∀ nc ∈ gn s, 0 ≤ nc.2) →
    (∀ s p c, PathTo gn s goal p c → dc s goal ≤ c) →
    n + 2 ≤ fuel →
    ((FindPath start goal p₀ dc gn fuel).1 = PATH_FOUND ↔ ReachableG gn start goal) ∧
    ((FindPath start goal p₀ dc gn fuel).1 = PATH_FOUND →
      ∃ c, PathTo gn start goal ((FindPath start goal p₀ dc gn fuel).2.1).reverse c ∧
        IsShortestCost gn start goal c)

end SpecPredicates

section ConcreteInstances

/-! ### Concrete graphs used by counterexamples and witnesses -/

/-- The 3-state line graph A(0) – B(1) – C(2) with unit costs, in both
directions (spec §8's example). -/
def lineGn : Fin 3 → List (Fin 3 × Int)
  | 0 => [(1, 1)]
  | 1 => [(0, 1), (2, 1)]
  | 2 => [(1, 1)]

/-- The all-zero heuristic on the line graph. -/
def lineDc : Fin 3 → Fin 3 → Int := fun _ _ => 0

/-- The 4-state graph refuting optimality under a merely admissible heuristic:
states S(0), B(1), A(2), G(3) with edges S→A cost 4, S→B cost 1, B→A cost 1,
A→G cost 10.  The shortest S-to-G path is S,B,A,G of cost 12. -/
def cexGn : Fin 4 → List (Fin 4 × Int)
  | 0 => [(2, 4), (1, 1)]
  | 1 => [(2, 1)]
  | 2 => [(3, 10)]
  | 3 => []

/-- An admissible (but non-consistent) heuristic for `cexGn`: `h(B) = 11` is
exactly B's true remaining cost, every other value is `0`.  A is expanded via
the direct S→A edge (f = 4) before B (f = 12), is closed with g = 4, and the
cheaper route through B is discarded by the closed-list check. -/
def cexDc : Fin 4 → Fin 4 → Int := fun s _ =>
  match s with
  | 0 => 0
  | 1 => 11
  | 2 => 0
  | 3 => 0

/-- The true shortest distance to G(3) from each state of `cexGn` (used to
certify that `cexDc` is admissible). -/
def cexDmin : Fin 4 → Int
  | 0 => 12
  | 1 => 11
  | 2 => 10
  | 3 => 0

/-- Injective encoding of a directed cell pair of the 8-direction grid (used
to give every untuned edge a distinct default cost). -/
def encT (u v : Int × Int) : Int :=
  (((u.1 + 8) * 20 + (u.2 + 8)) * 20 + (v.1 + 8)) * 20 + (v.2 + 8)

/-- Grid move costs for the cache-transparency counterexample: a cheap chain
(0,0)→(1,0)→(2,0) for the first search, cheap edges (3,0)→(2,0)→(1,0)→(0,0)
plus a moderately-priced detour (2,0)→(1,1)→(0,0) for the second, and large
pairwise-distinct defaults everywhere else (so every heap extraction below
has a unique minimal `f`). -/
def mcT (u v : Int × Int) : Int :=
  if u = (0, 0) ∧ v = (1, 0) then 1
  else if u = (1, 0) ∧ v = (2, 0) then 1
  else if u = (3, 0) ∧ v = (2, 0) then 1
  else if u = (2, 0) ∧ v = (1, 0) then 1
  else if u = (1, 0) ∧ v = (0, 0) then 1
  else if u = (2, 0) ∧ v = (1, 1) then 4
  else if u = (1, 1) ∧ v = (0, 0) then 4
  else 100 + 10 * encT u v

/-- The all-zero heuristic on the grid. -/
def dcT : Int × Int → Int × Int → Int := fun _ _ => 0

/-- A grid engine with map width 10. -/
def engineT : Tile8State := SetMapWidth tile8Init 10

/-- First search (0,0) → (2,0): expands (0,0) and then (1,0); while (1,0) is
expanded, (0,0) is already closed, so (0,0) is missing from (1,0)'s recorded
cache entry. -/
def run1T : PathResult × List (Int × Int) × Tile8State :=
  FindPath8 engineT (0, 0) (2, 0) [] mcT dcT 20

/-- Second search (3,0) → (0,0) on the warm cache left by the first search. -/
def warmT : PathResult × List (Int × Int) × Tile8State :=
  FindPath8 run1T.2.2 (3, 0) (0, 0) [] mcT dcT 20

/-- The same second search run immediately after `ClearCache()`. -/
def coldT : PathResult × List (Int × Int) × Tile8State :=
  FindPath8 (ClearCache8 run1T.2.2) (3, 0) (0, 0) [] mcT dcT 20

/-- A small mid-search state for exercising `AddNeighbor`: node 0 (state `0`,
`g = 0`) is the closed current node and node 1 (state `1`, `g = 5`) is open. -/
def c7State : AStarState (Fin 4) :=
  { nodes :=
      [{ m_node := 0, m_parent := none, m_f := 0, m_g := 0, m_h := 0 },
       { m_node := 1, m_parent := some 0, m_f := 5, m_g := 5, m_h := 0 }]
    m_openlist := [1]
    m_closedlist := [0]
    m_helperlist := fun t =>
      if t = 0 then { m_node := some 0, m_onopen := false, m_onclosed := true }
      else if t = 1 then { m_node := some 1, m_onopen := true, m_onclosed := false }
      else default
    m_currentnode := some 0 }

/-- Caller indexing for the 2-state cached-engine examples. -/
def ixW : Fin 2 → Int := fun s => (s : Int)

/-- Neighbor enumeration for the 2-state cached-engine examples: one edge
`0 → 1` of cost 1, indices assigned by `ixW`. -/
def gnW : Fin 2 → List (Fin 2 × Int × Int) :=
  fun s => if s = 0 then [(1, 1, 1)] else []

/-- A warm cache holding a faithful entry for state `0`. -/
def cacheW : Int → cacheelement (Fin 2) :=
  fun i => if i = 0 then { m_hascache := true, m_neighbors := [(1, 1, 1)] } else {}

/-- Zero heuristic on the 2-state cached-engine examples. -/
def dcW : Fin 2 → Fin 2 → Int := fun _ _ => 0

/-- A small mid-search cached state: node 0 (state `0`, index `0`) has just
been closed and is current, and its cache entry is valid and faithful. -/
def c8State : AStarCachedState (Fin 2) :=
  { nodes :=
      [{ m_node := 0, m_parent := none, m_f := 0, m_g := 0, m_h := 0, m_index := 0 }]
    m_openlist := []
    m_closedlist := [0]
    m_helperlist := fun i =>
      if i = 0 then { m_node := some 0, m_onopen := false, m_onclosed := true }
      else default
    m_currentnode := some 0
    m_cache := cacheW }

end ConcreteInstances

section HeapTheorems

/-! Multiset-level facts about the heap operations: each is a permutation of
(or adds / removes exactly one element to / from) its input, which is all the
search-level invariants below need. -/

theorem cons_set_perm {α : Type} : ∀ (t : List α) (m : Nat) (a b : α),
    t.get? m = some b → (b :: t.set m a).Perm (a :: t)
  | c :: t', 0, a, b, h => by
    have hc : c = b := by simpa using h
    subst hc
    simpa [List.set] using List.Perm.swap a c t'
  | c :: t', m + 1, a, b, h => by
    have ih := cons_set_perm t' m a b (by simpa using h)
    have h1 : (b :: (c :: t').set (m + 1) a) = b :: c :: t'.set m a := by simp [List.set]
    rw [h1]
    exact (List.Perm.swap c b _).trans ((List.Perm.cons c ih).trans (List.Perm.swap a c t'))

theorem set_set_perm {α : Type} : ∀ (l : List α) (i j : Nat) (a b : α),
    l.get? i = some a → l.get? j = some b → ((l.set i b).set j a).Perm l
  | c :: t, 0, 0, a, _, h1, _ => by
    have hca : c = a := by simpa using h1
    subst hca
    simp [List.set]
  | c :: t, 0, j + 1, a, b, h1, h2 => by
    have hca : c = a := by simpa using h1
    subst hca
    have h3 : ((c :: t).set 0 b).set (j + 1) c = b :: t.set j c := by simp [List.set]
    rw [h3]
    exact cons_set_perm t j c b (by simpa using h2)
  | c :: t, i + 1, 0, a, b, h1, h2 => by
    have hcb : c = b := by simpa using h2
    subst hcb
    have h3 : ((c :: t).set (i + 1) c).set 0 a = a :: t.set i c := by simp [List.set]
    rw [h3]
    exact cons_set_perm t i c a (by simpa using h1)
  | c :: t, i + 1, j + 1, a, b, h1, h2 => by
    have ih := set_set_perm t i j a b (by simpa using h1) (by simpa using h2)
    have h3 : ((c :: t).set (i + 1) b).set (j + 1) a = c :: (t.set i b).set j a := by
      simp [List.set]
    rw [h3]
    exact List.Perm.cons c ih

theorem heapSwap_perm (l : List Nat) (i j : Nat) : (heapSwap l i j).Perm l := by
  unfold heapSwap
  rcases h1 : l.get? i with _ | a
  · exact List.Perm.refl l
  rcases h2 : l.get? j with _ | b
  · exact List.Perm.refl l
  exact set_set_perm l i j a b h1 h2

theorem siftUp_perm (key : Nat → Int) :
    ∀ (fuel : Nat) (l : List Nat) (pos : Nat), (siftUp key fuel l pos).Perm l := by
  intro fuel
  induction fuel with
  | zero => intro l pos; exact List.Perm.refl l
  | succ fuel ih =>
    intro l pos
    unfold siftUp
    rcases pos with _ | pos'
    · exact List.Perm.refl l
    rcases h1 : l.get? (pos' + 1) with _ | x
    · simp only [h1]; exact List.Perm.refl l
    rcases h2 : l.get? (pos' / 2) with _ | p
    · simp only [h1, h2]; exact List.Perm.refl l
    simp only [h1, h2]
    by_cases hlt : key x < key p
    · simp only [if_pos hlt]
      exact (ih _ _).trans (heapSwap_perm _ _ _)
    · simp only [if_neg hlt]; exact List.Perm.refl l

theorem pushHeap_perm (key : Nat → Int) (l : List Nat) (x : Nat) :
    (pushHeap key l x).Perm (x :: l) :=
  (siftUp_perm key _ _ _).trans (List.perm_append_singleton x l)

theorem siftDown_perm (key : Nat → Int) :
    ∀ (fuel : Nat) (l : List Nat) (i : Nat), (siftDown key fuel l i).Perm l := by
  intro fuel
  induction fuel with
  | zero => intro l i; exact List.Perm.refl l
  | succ fuel ih =>
    intro l i
    unfold siftDown
    rcases h1 : l.get? (pickChild key l i) with _ | xc
    · simp only [h1]; exact List.Perm.refl l
    rcases h2 : l.get? i with _ | xi
    · simp only [h1, h2]; exact List.Perm.refl l
    simp only [h1, h2]
    by_cases hlt : key xc < key xi
    · simp only [if_pos hlt]
      exact (ih _ _).trans (heapSwap_perm _ _ _)
    · simp only [if_neg hlt]; exact List.Perm.refl l

theorem makeHeapFrom_perm (key : Nat → Int) :
    ∀ (i : Nat) (l : List Nat), (makeHeapFrom key i l).Perm l := by
  intro i
  induction i with
  | zero => intro l; exact List.Perm.refl l
  | succ i ih =>
    intro l
    exact (ih _).trans (siftDown_perm key l.length l i)

theorem makeHeap_perm (key : Nat → Int) (l : List Nat) : (makeHeap key l).Perm l :=
  makeHeapFrom_perm key _ l

theorem heapSwap_dropLast_perm (x y : Nat) (rest : List Nat) :
    ((heapSwap (x :: y :: rest) 0 ((x :: y :: rest).length - 1)).dropLast).Perm
      (y :: rest) := by
  rcases rest.eq_nil_or_concat with rfl | ⟨rest', b, rfl⟩
  · simp [heapSwap]
  · rw [List.concat_eq_append]
    have hlen : (x :: y :: (rest' ++ [b])).length - 1 = rest'.length + 2 := by
      simp
    have hget0 : (x :: y :: (rest' ++ [b])).get? 0 = some x := rfl
    have hgetl : (x :: y :: (rest' ++ [b])).get? (rest'.length + 2) = some b := by
      rw [List.get?_eq_getElem?]
      have : x :: y :: (rest' ++ [b]) = (x :: y :: rest') ++ [b] := by simp
      rw [this]
      have hl : (x :: y :: rest').length = rest'.length + 2 := by simp
      rw [← hl]
      exact List.getElem?_concat_length _ _
    rw [hlen]
    unfold heapSwap
    rw [hget0, hgetl]
    show ((((x :: y :: (rest' ++ [b])).set 0 b).set (rest'.length + 2) x).dropLast).Perm
      (y :: (rest' ++ [b]))
    have hset1 : ((x :: y :: (rest' ++ [b])).set 0 b) = b :: y :: (rest' ++ [b]) := rfl
    rw [hset1]
    have hset2 : ((b :: y :: (rest' ++ [b])).set (rest'.length + 2) x) =
        b :: y :: (rest' ++ [x]) := by
      rw [List.set_cons_succ, List.set_cons_succ]
      congr 1
      congr 1
      rw [List.set_append]
      simp
    rw [hset2]
    have hdrop : (b :: y :: (rest' ++ [x])).dropLast = b :: y :: rest' := by
      have : b :: y :: (rest' ++ [x]) = (b :: y :: rest') ++ [x] := by simp
      rw [this, List.dropLast_concat]
    rw [hdrop]
    have : y :: (rest' ++ [b]) = (y :: rest') ++ [b] := by simp
    rw [this]
    exact (List.perm_append_singleton b (y :: rest')).symm

theorem popHeap_spec (key : Nat → Int) (l : List Nat) (h : l ≠ []) :
    ∃ j l2, popHeap key l = (some j, l2) ∧ l.Perm (j :: l2) := by
  match l with
  | [] => exact absurd rfl h
  | [x] => exact ⟨x, [], rfl, List.Perm.refl _⟩
  | x :: y :: rest =>
    refine ⟨x, _, rfl, ?_⟩
    refine List.Perm.cons x ?_
    exact ((siftDown_perm key _ _ _).trans (heapSwap_dropLast_perm x y rest)).symm

end HeapTheorems

section LoopBasics

variable {S : Type} [DecidableEq S] [Inhabited S]

theorem findPathLoop_notfound_path (dc : S → S → Int) (gn : S → List (S × Int))
    (goal : S) : ∀ (fuel : Nat) (st : AStarState S) (p : List S),
    (FindPathLoop dc gn goal fuel st p).1 = PATH_NOTFOUND →
    (FindPathLoop dc gn goal fuel st p).2.1 = p := by
  intro fuel
  induction fuel with
  | zero => intro st p h; exact absurd h (by simp [FindPathLoop])
  | succ fuel ih =>
    intro st p h
    rcases hs : stepBody dc gn goal st with ⟨r, st'⟩
    rw [FindPathLoop, hs] at h ⊢
    cases r with
    | PATH_SEARCHING => exact ih st' p h
    | PATH_NOTFOUND => rfl
    | PATH_FOUND => exact absurd h (by simp)

theorem findPathCachedLoop_notfound_path (dc : S → S → Int)
    (gn : S → List (S × Int × Int)) (goal : S) :
    ∀ (fuel : Nat) (st : AStarCachedState S) (p : List S),
    (FindPathCachedLoop dc gn goal fuel st p).1 = PATH_NOTFOUND →
    (FindPathCachedLoop dc gn goal fuel st p).2.1 = p := by
  intro fuel
  induction fuel with
  | zero => intro st p h; exact absurd h (by simp [FindPathCachedLoop])
  | succ fuel ih =>
    intro st p h
    rcases hs : stepBodyCached dc gn goal st with ⟨r, st'⟩
    rw [FindPathCachedLoop, hs] at h ⊢
    cases r with
    | PATH_SEARCHING => exact ih st' p h
    | PATH_NOTFOUND => rfl
    | PATH_FOUND => exact absurd h (by simp)

theorem runSteps_eq_findPathLoop (dc : S → S → Int) (gn : S → List (S × Int))
    (goal : S) : ∀ (fuel : Nat) (st : AStarState S) (p : List S),
    (runSteps dc gn goal fuel st).1 = (FindPathLoop dc gn goal fuel st p).1 ∧
    ((runSteps dc gn goal fuel st).1 = PATH_FOUND →
      GetPath (runSteps dc gn goal fuel st).2 = (FindPathLoop dc gn goal fuel st p).2.1) := by
  intro fuel
  induction fuel with
  | zero =>
    intro st p
    refine ⟨rfl, fun h => absurd h (by simp [runSteps])⟩
  | succ fuel ih =>
    intro st p
    rcases hs : stepBody dc gn goal st with ⟨r, st'⟩
    rw [runSteps, Step, hs, FindPathLoop, hs]
    cases r with
    | PATH_SEARCHING => exact ih st' p
    | PATH_NOTFOUND => exact ⟨rfl, fun h => absurd h (by simp)⟩
    | PATH_FOUND => exact ⟨rfl, fun _ => rfl⟩

end LoopBasics

section ClaimEasy

variable {S : Type} [DecidableEq S] [Inhabited S]

/-- C9: on every input on which `FindPath` returns `PATH_NOTFOUND`, the
caller-supplied `finalpath` vector is returned exactly as it was passed in —
it is cleared and filled only on the `PATH_FOUND` branch.  Stated for both
the generic engine and the cached engine. -/
theorem findpath_notfound_preserves_finalpath
    (start goal : S) (p₀ : List S) (dc : S → S → Int) (gn : S → List (S × Int))
    (startindex : Int) (gnC : S → List (S × Int × Int))
    (cache : Int → cacheelement S) (fuel : Nat) :
    ((FindPath start goal p₀ dc gn fuel).1 = PATH_NOTFOUND →
      (FindPath start goal p₀ dc gn fuel).2.1 = p₀) ∧
    ((FindPathCached start startindex goal p₀ dc gnC cache fuel).1 = PATH_NOTFOUND →
      (FindPathCached start startindex goal p₀ dc gnC cache fuel).2.1 = p₀) :=
  ⟨findPathLoop_notfound_path dc gn goal fuel _ p₀,
   findPathCachedLoop_notfound_path dc gnC goal fuel _ p₀⟩

/-- Witness for C9: a 2-state graph with no edges; the goal is unreachable,
both engines report `PATH_NOTFOUND`, and the pre-existing contents `[1, 0, 1]`
of `finalpath` are returned untouched. -/
theorem findpath_notfound_preserves_finalpath_witness :
    (FindPath (0 : Fin 2) 1 [1, 0, 1] (fun _ _ => 0) (fun _ => []) 5).1 =
        PATH_NOTFOUND ∧
      (FindPath (0 : Fin 2) 1 [1, 0, 1] (fun _ _ => 0) (fun _ => []) 5).2.1 = [1, 0, 1] ∧
    (FindPathCached (0 : Fin 2) 0 1 [1, 0, 1] (fun _ _ => 0) (fun _ => [])
        (fun _ => {}) 5).1 = PATH_NOTFOUND ∧
      (FindPathCached (0 : Fin 2) 0 1 [1, 0, 1] (fun _ _ => 0) (fun _ => [])
        (fun _ => {}) 5).2.1 = [1, 0, 1] :=
  ⟨by decide,
   (findpath_notfound_preserves_finalpath (0 : Fin 2) 1 [1, 0, 1] (fun _ _ => 0)
      (fun _ => []) 0 (fun _ => []) (fun _ => {}) 5).1 (by decide),
   by decide,
   (findpath_notfound_preserves_finalpath (0 : Fin 2) 1 [1, 0, 1] (fun _ _ => 0)
      (fun _ => []) 0 (fun _ => []) (fun _ => {}) 5).2 (by decide)⟩

/-- C3: in every variant the start node is seeded with
`g = destinationcost(start, goal)`, `h = 0`, `f = g + h`; consequently a
search with `start = goal` reports `PATH_FOUND` on its first iteration with
the single-state path `[start]`, and the goal node's accumulated `g` is
`destinationcost(start, goal)` rather than zero. -/
theorem start_seeding_and_start_eq_goal :
    (∀ (dc : S → S → Int) (start goal : S),
      (initState dc start goal).nodes =
        [{ m_node := start, m_parent := none, m_f := dc start goal + 0,
           m_g := dc start goal, m_h := 0 }] ∧
      (initState dc start goal).m_openlist = [0]) ∧
    (∀ (dc : S → S → Int) (gn : S → List (S × Int)) (start : S) (p₀ : List S)
      (fuel : Nat),
      (FindPath start start p₀ dc gn (fuel + 1)).1 = PATH_FOUND ∧
      (FindPath start start p₀ dc gn (fuel + 1)).2.1 = [start] ∧
      gAt (FindPath start start p₀ dc gn (fuel + 1)).2.2.nodes 0 = dc start start) ∧
    (∀ (dc : S → S → Int) (gnC : S → List (S × Int × Int)) (start : S)
      (startindex : Int) (p₀ : List S) (cache : Int → cacheelement S) (fuel : Nat),
      (FindPathCached start startindex start p₀ dc gnC cache (fuel + 1)).1 = PATH_FOUND ∧
      (FindPathCached start startindex start p₀ dc gnC cache (fuel + 1)).2.1 = [start] ∧
      gAtC (FindPathCached start startindex start p₀ dc gnC cache (fuel + 1)).2.2.nodes 0 =
        dc start start) ∧
    (∀ (st8 : Tile8State) (mc dc8 : Int × Int → Int × Int → Int)
      (start : Int × Int) (p₀ : List (Int × Int)) (fuel : Nat),
      (FindPath8 st8 start start p₀ mc dc8 (fuel + 1)).1 = PATH_FOUND ∧
      (FindPath8 st8 start start p₀ mc dc8 (fuel + 1)).2.1 = [start] ∧
      gAt (FindPath8 st8 start start p₀ mc dc8 (fuel + 1)).2.2.nodes 0 = dc8 start start) := by
  refine ⟨fun dc start goal => ⟨rfl, rfl⟩, ?_, ?_, ?_⟩
  · intro dc gn start p₀ fuel
    simp [FindPath, FindPathLoop, stepBody, initState, pushHeap, siftUp, popHeap,
      walkChain, stAt, gAt, setHelper]
  · intro dc gnC start startindex p₀ cache fuel
    simp [FindPathCached, FindPathCachedLoop, stepBodyCached, initCachedState,
      pushHeap, siftUp, popHeap, walkChainC, stAtC, gAtC, setIntMap]
  · intro st8 mc dc8 start p₀ fuel
    simp [FindPath8, FindPath8Loop, stepBody8, pushHeap, siftUp, popHeap,
      walkChain, stAt, gAt, setIntMap]

/-- C5: `InitializeStep` followed by repeated `Step` calls until a value other
than `PATH_SEARCHING` reaches the same terminal result as a single `FindPath`
call on the same inputs (any common iteration budget), and on `PATH_FOUND`
the path retrieved by `GetPath` equals the `finalpath` produced by
`FindPath`. -/
theorem step_driven_search_equals_findpath (dc : S → S → Int)
    (gn : S → List (S × Int)) (start goal : S) (p₀ : List S) (fuel : Nat) :
    (runSteps dc gn goal fuel (InitializeStep dc start goal)).1 =
      (FindPath start goal p₀ dc gn fuel).1 ∧
    ((runSteps dc gn goal fuel (InitializeStep dc start goal)).1 = PATH_FOUND →
      GetPath (runSteps dc gn goal fuel (InitializeStep dc start goal)).2 =
        (FindPath start goal p₀ dc gn fuel).2.1) :=
  runSteps_eq_findPathLoop dc gn goal fuel (initState dc start goal) p₀

/-- Witness for C5 on the 3-state line graph: both interfaces report
`PATH_FOUND` for A→C and `GetPath` returns the same `[C, B, A]` path that
`FindPath` wrote to `finalpath`. -/
theorem step_driven_search_equals_findpath_witness :
    (runSteps lineDc lineGn 2 10 (InitializeStep lineDc 0 2)).1 =
      (FindPath (0 : Fin 3) 2 [] lineDc lineGn 10).1 ∧
    GetPath (runSteps lineDc lineGn 2 10 (InitializeStep lineDc 0 2)).2 =
      (FindPath (0 : Fin 3) 2 [] lineDc lineGn 10).2.1 :=
  ⟨(step_driven_search_equals_findpath lineDc lineGn 0 2 [] 10).1,
   (step_driven_search_equals_findpath lineDc lineGn 0 2 [] 10).2 (by decide)⟩

/-- C7: when `AddNeighbor` relaxes a neighbor that is already on the open
list, its `g`, `f`, and parent are rewritten (and the open heap rebuilt in
full with `make_heap`) exactly when the candidate cost
`current.g + movecost` is strictly below the stored `g`; otherwise the whole
search state — node fields and heap included — is left unchanged. -/
theorem relaxation_updates_iff_strictly_cheaper (dc : S → S → Int) (goal : S)
    (st : AStarState S) (neighbor : S) (movecost : Int) (j cur : Nat)
    (hncl : (st.m_helperlist neighbor).m_onclosed = false)
    (hnode : (st.m_helperlist neighbor).m_node = some j)
    (hcur : st.m_currentnode = some cur) :
    (gAt st.nodes cur + movecost < gAt st.nodes j →
      AddNeighbor dc goal st neighbor movecost =
        (let nd := st.nodes.getD j dfltNode
         let nodes' := st.nodes.set j
           { nd with
             m_g := gAt st.nodes cur + movecost
             m_f := (gAt st.nodes cur + movecost) + nd.m_h
             m_parent := some cur }
         { st with nodes := nodes', m_openlist := makeHeap (fAt nodes') st.m_openlist })) ∧
    (¬ gAt st.nodes cur + movecost < gAt st.nodes j →
      AddNeighbor dc goal st neighbor movecost = st) := by
  constructor
  · intro hlt
    rw [AddNeighbor, if_pos hncl, hnode, hcur]
    simp only [if_pos hlt]
  · intro hge
    rw [AddNeighbor, if_pos hncl, hnode, hcur]
    simp only [if_neg hge]

/-- Witness for C7: a two-node state in which node 1 (state `1`, `g = 5`) is
open and the current node 0 has `g = 0`; a move cost of `2` relaxes it, and a
move cost of `7` leaves the state untouched. -/
theorem relaxation_updates_iff_strictly_cheaper_witness :
    (AddNeighbor (fun _ _ => 0) (3 : Fin 4) c7State 1 2 =
      (let nd := c7State.nodes.getD 1 dfltNode
       let nodes' := c7State.nodes.set 1
         { nd with
           m_g := gAt c7State.nodes 0 + 2
           m_f := (gAt c7State.nodes 0 + 2) + nd.m_h
           m_parent := some 0 }
       { c7State with nodes := nodes',
                      m_openlist := makeHeap (fAt nodes') c7State.m_openlist })) ∧
    AddNeighbor (fun _ _ => 0) (3 : Fin 4) c7State 1 7 = c7State :=
  ⟨(relaxation_updates_iff_strictly_cheaper (fun _ _ => 0) 3 c7State 1 2 1 0
      (by decide) (by decide) rfl).1 (by decide),
   (relaxation_updates_iff_strictly_cheaper (fun _ _ => 0) 3 c7State 1 7 1 0
      (by decide) (by decide) rfl).2 (by decide)⟩

end ClaimEasy

section Counterexamples

theorem cexDistLB : ∀ (s t : Fin 4) (p : List (Fin 4)) (c : Int),
    PathTo cexGn s t p c → t = (3 : Fin 4) → cexDmin s ≤ c := by
  intro s t p c h
  induction h with
  | refl t =>
    intro ht; subst ht
    norm_num [cexDmin]
  | cons s n t c₀ p k hmem _ ih =>
    intro ht
    subst ht
    have ih' := ih rfl
    fin_cases s
    · simp only [cexGn, List.mem_cons, List.mem_singleton, List.not_mem_nil,
        or_false, Prod.mk.injEq] at hmem
      rcases hmem with ⟨rfl, rfl⟩ | ⟨rfl, rfl⟩ <;>
        (norm_num [cexDmin] at ih' ⊢; omega)
    · simp only [cexGn, List.mem_cons, List.mem_singleton, List.not_mem_nil,
        or_false, Prod.mk.injEq] at hmem
      rcases hmem with ⟨rfl, rfl⟩
      norm_num [cexDmin] at ih' ⊢; omega
    · simp only [cexGn, List.mem_cons, List.mem_singleton, List.not_mem_nil,
        or_false, Prod.mk.injEq] at hmem
      rcases hmem with ⟨rfl, rfl⟩
      norm_num [cexDmin] at ih' ⊢; omega
    · simp [cexGn] at hmem

theorem cex_admissible (s : Fin 4) (p : List (Fin 4)) (c : Int)
    (h : PathTo cexGn s 3 p c) : cexDc s 3 ≤ c := by
  refine le_trans ?_ (cexDistLB s 3 p c h rfl)
  fin_cases s <;> norm_num [cexDc, cexDmin]

theorem cex_returned_cost : ∀ (c : Int), PathTo cexGn 0 3 [0, 2, 3] c → c = 14 := by
  intro c h
  cases h with
  | cons s n t c₀ p k hmem hrest =>
    cases hrest with
    | cons s' n' t' c₁ p' k' hmem' hrest' =>
      cases hrest' with
      | refl =>
        simp only [cexGn, List.mem_cons, List.mem_singleton, List.not_mem_nil,
          or_false, Prod.mk.injEq] at hmem hmem'
        rcases hmem' with ⟨-, rfl⟩
        rcases hmem with ⟨-, rfl⟩ | ⟨h1, -⟩
        · norm_num
        · exact absurd h1 (by decide)
      | cons s'' n'' t'' c₂ p'' k'' hmem'' hrest'' =>
        simp [cexGn] at hmem''

theorem cex_short_path : PathTo cexGn 0 3 [0, 1, 2, 3] 12 := by
  have h3 : PathTo cexGn 3 3 [3] 0 := PathTo.refl 3
  have h2 : PathTo cexGn 2 3 [2, 3] (10 + 0) :=
    PathTo.cons 2 3 3 10 [3] 0 (by decide) h3
  have h1 : PathTo cexGn 1 3 [1, 2, 3] (1 + (10 + 0)) :=
    PathTo.cons 1 2 3 1 [2, 3] (10 + 0) (by decide) h2
  have h0 : PathTo cexGn 0 3 [0, 1, 2, 3] (1 + (1 + (10 + 0))) :=
    PathTo.cons 0 1 3 1 [1, 2, 3] (1 + (10 + 0)) (by decide) h1
  have : (1 : Int) + (1 + (10 + 0)) = 12 := by norm_num
  rwa [this] at h0

/-- Counterexample to C1: on the finite graph `cexGn` with non-negative edge
costs and the admissible heuristic `cexDc`, `FindPath(S, G)` returns
`PATH_FOUND` with `finalpath = [G, A, S]` of accumulated cost 14, although
the true shortest path S,B,A,G costs 12 — an admissible but non-consistent
heuristic lets the never-reopened closed list discard the cheaper route, so
the claim's optimality clause fails. -/
theorem astar_admissible_not_optimal : ¬ C1Statement := by
  intro h
  obtain ⟨_, hopt⟩ :=
    h 3 cexGn cexDc 0 3 [] 10 (by decide)
      (fun s p c hp => cex_admissible s p c hp) (by norm_num)
  have hfound : (FindPath (0 : Fin 4) 3 [] cexDc cexGn 10).1 = PATH_FOUND := by decide
  obtain ⟨c, hpath, hshort⟩ := hopt hfound
  have hfp : ((FindPath (0 : Fin 4) 3 [] cexDc cexGn 10).2.1).reverse = [0, 2, 3] := by
    decide
  rw [hfp] at hpath
  have hc : c = 14 := cex_returned_cost c hpath
  have hle : c ≤ 12 := hshort.2 [0, 1, 2, 3] 12 cex_short_path
  omega

/-- Counterexample to C2: on the 8-direction grid engine with unchanged move
costs `mcT`, a first search (0,0)→(2,0) records a cache entry for tile (1,0)
that omits its neighbor (0,0) (closed at recording time); replaying that
entry in a second search (3,0)→(0,0) yields `finalpath`
`[(0,0),(1,1),(2,0),(3,0)]`, while the same search immediately after
`ClearCache()` yields `[(0,0),(1,0),(2,0),(3,0)]` — same result code but
different paths, refuting warm/cold observational equality for this
variant. -/
theorem tile8_warm_cache_not_transparent :
    run1T.1 = PATH_FOUND ∧
    run1T.2.1 = [(2, 0), (1, 0), (0, 0)] ∧
    (run1T.2.2.m_cache 1).m_neighbors.map Prod.fst =
      [(0, -1), (1, -1), (2, -1), (2, 0), (0, 1), (1, 1), (2, 1)] ∧
    warmT.1 = PATH_FOUND ∧
    warmT.2.1 = [(0, 0), (1, 1), (2, 0), (3, 0)] ∧
    coldT.1 = PATH_FOUND ∧
    coldT.2.1 = [(0, 0), (1, 0), (2, 0), (3, 0)] ∧
    ¬ (warmT.1 = coldT.1 ∧ warmT.2.1 = coldT.2.1) := by
  decide

end Counterexamples

section InvariantMachinery

variable {S : Type} [DecidableEq S] [Inhabited S]

theorem getD_append_lt {A : Type} (nodes : List A) (nd d : A) (j : Nat)
    (h : j < nodes.length) : (nodes ++ [nd]).getD j d = nodes.getD j d := by
  rw [List.getD_eq_getElem?_getD, List.getD_eq_getElem?_getD,
    List.getElem?_append, if_pos h]

theorem getD_append_self {A : Type} (nodes : List A) (nd d : A) :
    (nodes ++ [nd]).getD nodes.length d = nd := by
  rw [List.getD_eq_getElem?_getD, List.getElem?_concat_length]
  rfl

theorem getD_set_self {A : Type} (nodes : List A) (nd d : A) (j : Nat)
    (h : j < nodes.length) : (nodes.set j nd).getD j d = nd := by
  rw [List.getD_eq_getElem?_getD, List.getElem?_set_self (by simpa using h)]
  rfl

theorem getD_set_ne {A : Type} (nodes : List A) (nd d : A) (i k : Nat)
    (h : i ≠ k) : (nodes.set i nd).getD k d = nodes.getD k d := by
  rw [List.getD_eq_getElem?_getD, List.getD_eq_getElem?_getD,
    List.getElem?_set_ne h]

theorem stAt_append (nodes : List (astarnode S)) (nd : astarnode S) (j : Nat)
    (h : j < nodes.length) : stAt (nodes ++ [nd]) j = stAt nodes j := by
  rw [stAt, stAt, getD_append_lt _ _ _ _ h]

theorem gAt_append (nodes : List (astarnode S)) (nd : astarnode S) (j : Nat)
    (h : j < nodes.length) : gAt (nodes ++ [nd]) j = gAt nodes j := by
  rw [gAt, gAt, getD_append_lt _ _ _ _ h]

theorem stAt_set (nodes : List (astarnode S)) (nd : astarnode S) (i : Nat)
    (hpres : nd.m_node = (nodes.getD i dfltNode).m_node) (k : Nat) :
    stAt (nodes.set i nd) k = stAt nodes k := by
  rcases Nat.lt_or_ge i nodes.length with hi | hi
  · by_cases hik : i = k
    · subst hik
      rw [stAt, stAt, getD_set_self _ _ _ _ hi, hpres]
    · rw [stAt, stAt, getD_set_ne _ _ _ _ _ hik]
  · rw [List.set_eq_of_length_le hi]

theorem gAt_set_ne (nodes : List (astarnode S)) (nd : astarnode S) (i k : Nat)
    (h : i ≠ k) : gAt (nodes.set i nd) k = gAt nodes k := by
  rw [gAt, gAt, getD_set_ne _ _ _ _ _ h]

theorem chainL_lt (dc : S → S → Int) (gn : S → List (S × Int)) (start goal : S)
    (nodes : List (astarnode S)) (j : Nat) (l : List Nat)
    (h : ChainL dc gn start goal nodes j l) : j < nodes.length := by
  cases h with
  | root j hj _ _ _ => exact hj
  | step j _ _ _ hj _ _ _ _ => exact hj

theorem chainL_head_mem (dc : S → S → Int) (gn : S → List (S × Int)) (start goal : S)
    (nodes : List (astarnode S)) (j : Nat) (l : List Nat)
    (h : ChainL dc gn start goal nodes j l) : j ∈ l := by
  cases h with
  | root j _ _ _ _ => simp
  | step j k c l _ _ _ _ _ => simp

theorem chainL_append (dc : S → S → Int) (gn : S → List (S × Int)) (start goal : S)
    (nodes : List (astarnode S)) (nd : astarnode S) :
    ∀ (j : Nat) (l : List Nat), ChainL dc gn start goal nodes j l →
      ChainL dc gn start goal (nodes ++ [nd]) j l := by
  intro j l h
  induction h with
  | root j hj hpar hst hg =>
    refine ChainL.root j (by simp; omega) ?_ ?_ ?_
    · rw [getD_append_lt _ _ _ _ hj]; exact hpar
    · rw [stAt_append _ _ _ hj]; exact hst
    · rw [gAt_append _ _ _ hj]; exact hg
  | step j k c l hj hpar hedge hg hch ih =>
    have hk : k < nodes.length := chainL_lt dc gn start goal nodes k l hch
    refine ChainL.step j k c l (by simp; omega) ?_ ?_ ?_ ih
    · rw [getD_append_lt _ _ _ _ hj]; exact hpar
    · rw [stAt_append _ _ _ hj, stAt_append _ _ _ hk]; exact hedge
    · rw [gAt_append _ _ _ hj, gAt_append _ _ _ hk]; exact hg

theorem chainL_set_ne (dc : S → S → Int) (gn : S → List (S × Int)) (start goal : S)
    (nodes : List (astarnode S)) (nd : astarnode S) (i : Nat) :
    ∀ (j : Nat) (l : List Nat), ChainL dc gn start goal nodes j l →
      (∀ k ∈ l, k ≠ i) → ChainL dc gn start goal (nodes.set i nd) j l := by
  intro j l h
  induction h with
  | root j hj hpar hst hg =>
    intro hne
    have hji : i ≠ j := fun he => (hne j (by simp)) he.symm
    refine ChainL.root j (by simpa using hj) ?_ ?_ ?_
    · rw [getD_set_ne _ _ _ _ _ hji]; exact hpar
    · rw [stAt, getD_set_ne _ _ _ _ _ hji]; exact hst
    · rw [gAt, getD_set_ne _ _ _ _ _ hji]; exact hg
  | step j k c l hj hpar hedge hg hch ih =>
    intro hne
    have hji : i ≠ j := fun he => (hne j (by simp)) he.symm
    have hkl : k ∈ l := chainL_head_mem dc gn start goal nodes k l hch
    have hki : i ≠ k := fun he => (hne k (by simp [hkl])) he.symm
    refine ChainL.step j k c l (by simpa using hj) ?_ ?_ ?_
      (ih (fun x hx => hne x (by simp [hx])))
    · rw [getD_set_ne _ _ _ _ _ hji]; exact hpar
    · rw [stAt, stAt, getD_set_ne _ _ _ _ _ hji, getD_set_ne _ _ _ _ _ hki]
      exact hedge
    · rw [gAt, gAt, getD_set_ne _ _ _ _ _ hji, getD_set_ne _ _ _ _ _ hki]
      exact hg

theorem walkChain_none (nodes : List (astarnode S)) :
    ∀ (fuel : Nat), walkChain nodes fuel none = ([], none)
  | 0 => rfl
  | _ + 1 => rfl

theorem walkChain_of_chainL (dc : S → S → Int) (gn : S → List (S × Int))
    (start goal : S) (nodes : List (astarnode S)) :
    ∀ (j : Nat) (l : List Nat), ChainL dc gn start goal nodes j l →
      ∀ (fuel : Nat), l.length ≤ fuel →
      walkChain nodes fuel (some j) = (l.map (stAt nodes), none) := by
  intro j l h
  induction h with
  | root j hj hpar hst hg =>
    intro fuel hf
    match fuel, hf with
    | fuel + 1, _ =>
      rw [walkChain, hpar, walkChain_none]
      rfl
  | step j k c l hj hpar hedge hg hch ih =>
    intro fuel hf
    match fuel, hf with
    | fuel + 1, hf =>
      rw [walkChain, hpar, ih fuel (by simpa using Nat.lt_succ_iff.mp hf)]
      rfl

theorem pathTo_snoc (gn : S → List (S × Int)) (s t t' : S) (p : List S)
    (c c' : Int) (h : PathTo gn s t p c) :
    (t', c') ∈ gn t → PathTo gn s t' (p ++ [t']) (c + c') := by
  induction h with
  | refl t =>
    intro hedge
    have := PathTo.cons t t' t' c' [t'] 0 hedge (PathTo.refl t')
    simpa using this
  | cons s n t c₀ p k hmem hrest ih =>
    intro hedge
    have h2 := PathTo.cons s n t' c₀ (p ++ [t']) (k + c') hmem (ih hedge)
    have harith : c₀ + (k + c') = c₀ + k + c' := by ring
    rw [harith] at h2
    simpa using h2

theorem chainL_pathTo (dc : S → S → Int) (gn : S → List (S × Int))
    (start goal : S) (nodes : List (astarnode S)) :
    ∀ (j : Nat) (l : List Nat), ChainL dc gn start goal nodes j l →
      PathTo gn start (stAt nodes j) ((l.map (stAt nodes)).reverse)
        (gAt nodes j - dc start goal) := by
  intro j l h
  induction h with
  | root j hj hpar hst hg =>
    have hz : gAt nodes j - dc start goal = 0 := by rw [hg]; ring
    simp only [List.map_cons, List.map_nil, List.reverse_cons, List.reverse_nil,
      List.nil_append]
    rw [hz, hst]
    exact PathTo.refl start
  | step j k c l hj hpar hedge hg hch ih =>
    have hsnoc := pathTo_snoc gn start (stAt nodes k) (stAt nodes j)
      ((l.map (stAt nodes)).reverse) (gAt nodes k - dc start goal) c ih hedge
    have harith : gAt nodes k - dc start goal + c = gAt nodes j - dc start goal := by
      rw [hg]; ring
    rw [harith] at hsnoc
    have hrev : ((j :: l).map (stAt nodes)).reverse =
        (l.map (stAt nodes)).reverse ++ [stAt nodes j] := by simp
    rw [hrev]
    exact hsnoc

theorem chainL_getLast (dc : S → S → Int) (gn : S → List (S × Int))
    (start goal : S) (nodes : List (astarnode S)) :
    ∀ (j : Nat) (l : List Nat), ChainL dc gn start goal nodes j l →
      (l.map (stAt nodes)).getLast? = some start := by
  intro j l h
  induction h with
  | root j hj hpar hst hg => simp [hst]
  | step j k c l hj hpar hedge hg hch ih =>
    obtain ⟨lt, rfl⟩ : ∃ lt, l = k :: lt := by
      cases hch with
      | root _ _ _ _ _ => exact ⟨[], rfl⟩
      | step _ _ _ l' _ _ _ _ _ => exact ⟨l', rfl⟩
    rw [List.map_cons, List.map_cons, List.getLast?_cons_cons]
    rw [List.map_cons] at ih
    exact ih

theorem chainL_head (dc : S → S → Int) (gn : S → List (S × Int))
    (start goal : S) (nodes : List (astarnode S)) (j : Nat) (l : List Nat)
    (h : ChainL dc gn start goal nodes j l) :
    (l.map (stAt nodes)).head? = some (stAt nodes j) := by
  cases h with
  | root j _ _ _ _ => rfl
  | step j k c l _ _ _ _ _ => rfl

theorem nodup_lt_length_le (l : List Nat) (n : Nat)
    (hlt : ∀ k ∈ l, k < n) (hnd : l.Nodup) : l.length ≤ n := by
  have hsub : l.toFinset ⊆ Finset.range n := by
    intro x hx
    rw [List.mem_toFinset] at hx
    rw [Finset.mem_range]
    exact hlt x hx
  have := Finset.card_le_card hsub
  rw [List.toFinset_card_of_nodup hnd, Finset.card_range] at this
  exact this

theorem nodup_length_le_card {A : Type} [DecidableEq A] [Fintype A]
    (l : List A) (hnd : l.Nodup) : l.length ≤ Fintype.card A := by
  have hsub : l.toFinset ⊆ Finset.univ := Finset.subset_univ _
  have := Finset.card_le_card hsub
  rw [List.toFinset_card_of_nodup hnd, Finset.card_univ] at this
  exact this

theorem setHelper_self (h : S → listelement) (s : S) (e : listelement) :
    setHelper h s e s = e := by simp [setHelper]

theorem setHelper_ne (h : S → listelement) (s : S) (e : listelement) (t : S)
    (hts : t ≠ s) : setHelper h s e t = h t := by simp [setHelper, hts]

theorem pushHeap_mem (key : Nat → Int) (l : List Nat) (x j : Nat) :
    j ∈ pushHeap key l x ↔ j = x ∨ j ∈ l := by
  rw [(pushHeap_perm key l x).mem_iff]
  simp

theorem makeHeap_mem (key : Nat → Int) (l : List Nat) (j : Nat) :
    j ∈ makeHeap key l ↔ j ∈ l :=
  (makeHeap_perm key l).mem_iff

theorem addFacts_refl (dc : S → S → Int) (gn : S → List (S × Int))
    (start goal : S) (st : AStarState S) (hInv : InvCore dc gn start goal st) :
    AddFacts dc gn start goal st st :=
  { inv := hInv
    cur_eq := rfl
    closed_eq := rfl
    flags_eq := fun _ => rfl
    disc_mono := fun _ _ h => h
    len_mono := le_refl _
    stAt_eq := fun _ _ => rfl
    frozen := fun _ _ _ _ => ⟨rfl, rfl, Iff.rfl⟩ }

theorem addFacts_trans (dc : S → S → Int) (gn : S → List (S × Int))
    (start goal : S) (st st' st'' : AStarState S)
    (h1 : AddFacts dc gn start goal st st')
    (h2 : AddFacts dc gn start goal st' st'') :
    AddFacts dc gn start goal st st'' :=
  { inv := h2.inv
    cur_eq := h2.cur_eq.trans h1.cur_eq
    closed_eq := h2.closed_eq.trans h1.closed_eq
    flags_eq := fun s => (h2.flags_eq s).trans (h1.flags_eq s)
    disc_mono := fun s j h => h2.disc_mono s j (h1.disc_mono s j h)
    len_mono := le_trans h1.len_mono h2.len_mono
    stAt_eq := fun j hj =>
      ((h2.stAt_eq j (lt_of_lt_of_le hj h1.len_mono)).trans (h1.stAt_eq j hj))
    frozen := fun s j hcl hnd => by
      obtain ⟨e1, e2, e3⟩ := h1.frozen s j hcl hnd
      obtain ⟨f1, f2, f3⟩ := h2.frozen s j (by rw [e1]; exact hcl)
        (by rw [e1]; exact hnd)
      exact ⟨f1.trans e1, f2.trans e2, f3.trans e3⟩ }

theorem chainL_all_closed (dc : S → S → Int) (gn : S → List (S × Int))
    (start goal : S) (st : AStarState S) (cur : Nat) (l : List Nat)
    (hch : ChainL dc gn start goal st.nodes cur l)
    (hccl : (st.m_helperlist (stAt st.nodes cur)).m_onclosed = true)
    (htl : ∀ k ∈ l.tail, (st.m_helperlist (stAt st.nodes k)).m_onclosed = true) :
    ∀ k ∈ l, (st.m_helperlist (stAt st.nodes k)).m_onclosed = true := by
  obtain ⟨lt, rfl⟩ : ∃ lt, l = cur :: lt := by
    cases hch with
    | root _ _ _ _ _ => exact ⟨[], rfl⟩
    | step _ _ _ l' _ _ _ _ _ => exact ⟨l', rfl⟩
  intro k hk
  rcases List.mem_cons.mp hk with rfl | hk'
  · exact hccl
  · exact htl k hk'

theorem addNeighbor_relax_addFacts (dc : S → S → Int) (gn : S → List (S × Int))
    (start goal : S) (st : AStarState S) (nb : S) (mc : Int) (cur j0 : Nat)
    (hInv : InvCore dc gn start goal st)
    (hclen : cur < st.nodes.length)
    (hccl : (st.m_helperlist (stAt st.nodes cur)).m_onclosed = true)
    (hedge : (nb, mc) ∈ gn (stAt st.nodes cur))
    (hncl : (st.m_helperlist nb).m_onclosed = false)
    (hnode : (st.m_helperlist nb).m_node = some j0) :
    AddFacts dc gn start goal st
      (let nd := st.nodes.getD j0 dfltNode
       let nodes' := st.nodes.set j0
         { nd with
           m_g := gAt st.nodes cur + mc
           m_f := (gAt st.nodes cur + mc) + nd.m_h
           m_parent := some cur }
       { st with nodes := nodes', m_openlist := makeHeap (fAt nodes') st.m_openlist }) := by
  obtain ⟨hj0len, hj0st⟩ := hInv.hNode nb j0 hnode
  set nd := st.nodes.getD j0 dfltNode with hnd
  set nd' : astarnode S :=
    { nd with
      m_g := gAt st.nodes cur + mc
      m_f := (gAt st.nodes cur + mc) + nd.m_h
      m_parent := some cur } with hnd'
  set nodes' := st.nodes.set j0 nd' with hnodes'
  have hcurne : stAt st.nodes cur ≠ nb := by
    intro he
    rw [he, hncl] at hccl
    exact Bool.false_ne_true hccl
  have hcurj0 : cur ≠ j0 := fun he => hcurne (by rw [he, hj0st])
  have hstk : ∀ k, stAt nodes' k = stAt st.nodes k := stAt_set st.nodes nd' j0 rfl
  have hstfun : stAt nodes' = stAt st.nodes := funext hstk
  have hlen' : nodes'.length = st.nodes.length := List.length_set _ _ _
  have hclosed_ne_j0 : ∀ (s : S) (j : Nat),
      (st.m_helperlist s).m_onclosed = true →
      (st.m_helperlist s).m_node = some j → j ≠ j0 := by
    intro s j hcl hN he
    subst he
    obtain ⟨_, hjst⟩ := hInv.hNode s j hN
    have : s = nb := by rw [← hjst, hj0st]
    rw [this, hncl] at hcl
    exact Bool.false_ne_true hcl
  have hmem' : ∀ j, j ∈ makeHeap (fAt nodes') st.m_openlist ↔ j ∈ st.m_openlist :=
    fun j => makeHeap_mem (fAt nodes') st.m_openlist j
  refine
    { inv := ?_
      cur_eq := rfl
      closed_eq := rfl
      flags_eq := fun _ => rfl
      disc_mono := fun _ _ h => h
      len_mono := le_of_eq hlen'.symm
      stAt_eq := fun j _ => hstk j
      frozen := ?_ }
  · -- the invariant for the relaxed state
    refine
      { hNode := ?_
        hArena := ?_
        hTri := ?_
        hOpenLt := ?_
        hOpenNodup := ?_
        hClosed := ?_
        hClosedNodup := ?_
        hChain := ?_ }
    · intro s j h
      obtain ⟨h1, h2⟩ := hInv.hNode s j h
      exact ⟨by rw [hlen']; exact h1, by rw [hstk]; exact h2⟩
    · intro j hj
      rw [hlen'] at hj
      rw [hstk]
      exact hInv.hArena j hj
    · intro s
      rcases hInv.hTri s with ⟨h1, h2, h3⟩ | ⟨j, h1, h2, h3, h4⟩ |
        ⟨j, h1, h2, h3, h4, h5⟩
      · exact Or.inl ⟨h1, h2, h3⟩
      · exact Or.inr (Or.inl ⟨j, h1, h2, h3, (hmem' j).mpr h4⟩)
      · exact Or.inr (Or.inr ⟨j, h1, h2, h3, fun hm => h4 ((hmem' j).mp hm), h5⟩)
    · intro j hj
      rw [hlen']
      exact hInv.hOpenLt j ((hmem' j).mp hj)
    · exact hInv.hOpenNodup.perm (makeHeap_perm _ _).symm
    · intro j hj
      obtain ⟨h1, h2⟩ := hInv.hClosed j hj
      exact ⟨by rw [hlen']; exact h1, by rw [hstk]; exact h2⟩
    · have : st.m_closedlist.map (stAt nodes') = st.m_closedlist.map (stAt st.nodes) := by
        rw [hstfun]
      rw [this]
      exact hInv.hClosedNodup
    · intro j hj
      rw [hlen'] at hj
      by_cases hjj0 : j = j0
      · obtain ⟨lc, hchc, hndc, hbndc, htlc⟩ := hInv.hChain cur hclen
        have hallcl := chainL_all_closed dc gn start goal st cur lc hchc hccl htlc
        have hnotin : ∀ k ∈ lc, k ≠ j0 := by
          intro k hk he
          have hx := hallcl k hk
          rw [he, hj0st, hncl] at hx
          exact Bool.false_ne_true hx
        have hchc' : ChainL dc gn start goal nodes' cur lc :=
          chainL_set_ne dc gn start goal st.nodes nd' j0 cur lc hchc hnotin
        subst hjj0
        refine ⟨j :: lc, ?_, ?_, ?_, ?_⟩
        · refine ChainL.step j cur mc lc (by rw [hlen']; exact hj) ?_ ?_ ?_ hchc'
          · rw [getD_set_self _ _ _ _ hj]
          · rw [hstk j, hstk cur, hj0st]
            exact hedge
          · rw [gAt, getD_set_self _ _ _ _ hj]
            have hg2 : gAt nodes' cur = gAt st.nodes cur :=
              gAt_set_ne st.nodes nd' j cur (fun he => hcurj0 he.symm)
            rw [hg2]
        · exact List.nodup_cons.mpr ⟨fun hm => (hnotin j hm) rfl, hndc⟩
        · intro k hk
          rcases List.mem_cons.mp hk with rfl | hk'
          · rw [hlen']; exact hj
          · rw [hlen']; exact hbndc k hk'
        · intro k hk
          rw [List.tail_cons] at hk
          rw [hstk]
          exact hallcl k hk
      · obtain ⟨l, hch, hnd2, hbnd, htl⟩ := hInv.hChain j hj
        have hnotin : ∀ k ∈ l, k ≠ j0 := by
          intro k hk he
          obtain ⟨lt, hlt2⟩ : ∃ lt, l = j :: lt := by
            cases hch with
            | root _ _ _ _ _ => exact ⟨[], rfl⟩
            | step _ _ _ l' _ _ _ _ _ => exact ⟨l', rfl⟩
          subst hlt2
          rcases List.mem_cons.mp hk with he2 | hk'
          · exact hjj0 (he2 ▸ he)
          · have hx := htl k (by rw [List.tail_cons]; exact hk')
            rw [he, hj0st, hncl] at hx
            exact Bool.false_ne_true hx
        refine ⟨l, chainL_set_ne dc gn start goal st.nodes nd' j0 j l hch hnotin,
          hnd2, ?_, ?_⟩
        · intro k hk; rw [hlen']; exact hbnd k hk
        · intro k hk; rw [hstk]; exact htl k hk
  · -- frozen records of closed states
    intro s j hcl hN
    refine ⟨rfl, ?_, hmem' j⟩
    exact getD_set_ne st.nodes nd' dfltNode j0 j
      (fun he => (hclosed_ne_j0 s j hcl hN) he.symm)

theorem addNeighbor_create_addFacts (dc : S → S → Int) (gn : S → List (S × Int))
    (start goal : S) (st : AStarState S) (nb : S) (mc : Int) (cur : Nat)
    (hInv : InvCore dc gn start goal st)
    (hclen : cur < st.nodes.length)
    (hccl : (st.m_helperlist (stAt st.nodes cur)).m_onclosed = true)
    (hedge : (nb, mc) ∈ gn (stAt st.nodes cur))
    (hncl : (st.m_helperlist nb).m_onclosed = false)
    (hnone : (st.m_helperlist nb).m_node = none) :
    AddFacts dc gn start goal st
      (let nd : astarnode S :=
        { m_node := nb
          m_parent := some cur
          m_g := gAt st.nodes cur + mc
          m_h := dc nb goal
          m_f := (gAt st.nodes cur + mc) + dc nb goal }
       let nodes' := st.nodes ++ [nd]
       { st with
         nodes := nodes'
         m_openlist := pushHeap (fAt nodes') st.m_openlist st.nodes.length
         m_helperlist :=
           setHelper st.m_helperlist nb
             { m_node := some st.nodes.length, m_onopen := true
               m_onclosed := (st.m_helperlist nb).m_onclosed } }) := by
  set nd : astarnode S :=
    { m_node := nb
      m_parent := some cur
      m_g := gAt st.nodes cur + mc
      m_h := dc nb goal
      m_f := (gAt st.nodes cur + mc) + dc nb goal } with hnd
  set nodes' := st.nodes ++ [nd] with hnodes'
  set entry : listelement :=
    { m_node := some st.nodes.length, m_onopen := true
      m_onclosed := (st.m_helperlist nb).m_onclosed } with hentry
  set helper' := setHelper st.m_helperlist nb entry with hhelper'
  show AddFacts dc gn start goal st
    { nodes := nodes'
      m_openlist := pushHeap (fAt nodes') st.m_openlist st.nodes.length
      m_closedlist := st.m_closedlist
      m_helperlist := helper'
      m_currentnode := st.m_currentnode }
  have hlen' : nodes'.length = st.nodes.length + 1 := by simp [hnodes']
  have hstlt : ∀ j, j < st.nodes.length → stAt nodes' j = stAt st.nodes j :=
    fun j hj => stAt_append st.nodes nd j hj
  have hstnew : stAt nodes' st.nodes.length = nb := by
    rw [stAt, getD_append_self]
  have hcurne : stAt st.nodes cur ≠ nb := by
    intro he
    rw [he, hncl] at hccl
    exact Bool.false_ne_true hccl
  have hclosed_ne_nb : ∀ (s : S), (st.m_helperlist s).m_onclosed = true → s ≠ nb := by
    intro s hcl he
    rw [he, hncl] at hcl
    exact Bool.false_ne_true hcl
  have hdisc_ne_nb : ∀ (s : S) (j : Nat), (st.m_helperlist s).m_node = some j →
      s ≠ nb := by
    intro s j hN he
    rw [he, hnone] at hN
    exact Option.noConfusion hN
  have hmem' : ∀ j, j ∈ pushHeap (fAt nodes') st.m_openlist st.nodes.length ↔
      j = st.nodes.length ∨ j ∈ st.m_openlist :=
    fun j => pushHeap_mem (fAt nodes') st.m_openlist st.nodes.length j
  have hopenlt : ∀ j ∈ st.m_openlist, j < st.nodes.length := hInv.hOpenLt
  refine
    { inv := ?_
      cur_eq := rfl
      closed_eq := rfl
      flags_eq := ?_
      disc_mono := ?_
      len_mono := by rw [hlen']; omega
      stAt_eq := hstlt
      frozen := ?_ }
  · -- the invariant for the extended state
    refine
      { hNode := ?_
        hArena := ?_
        hTri := ?_
        hOpenLt := ?_
        hOpenNodup := ?_
        hClosed := ?_
        hClosedNodup := ?_
        hChain := ?_ }
    · intro s j h
      dsimp only at h ⊢
      by_cases hs : s = nb
      · subst hs
        rw [hhelper', setHelper_self, hentry] at h
        have hj : st.nodes.length = j := by
          simpa using h
        subst hj
        exact ⟨by rw [hlen']; omega, hstnew⟩
      · rw [hhelper', setHelper_ne _ _ _ _ hs] at h
        obtain ⟨h1, h2⟩ := hInv.hNode s j h
        exact ⟨by rw [hlen']; omega, by rw [hstlt j h1]; exact h2⟩
    · intro j hj
      dsimp only at hj ⊢
      rw [hlen'] at hj
      rcases Nat.lt_succ_iff_lt_or_eq.mp hj with hj' | rfl
      · rw [hstlt j hj']
        have hs := hInv.hArena j hj'
        have hne : stAt st.nodes j ≠ nb := hdisc_ne_nb _ j hs
        rw [hhelper', setHelper_ne _ _ _ _ hne]
        exact hs
      · rw [hstnew, hhelper', setHelper_self, hentry]
    · intro s
      dsimp only [TriState]
      by_cases hs : s = nb
      · subst hs
        refine Or.inr (Or.inl ⟨st.nodes.length, ?_, ?_, ?_, ?_⟩)
        · rw [hhelper', setHelper_self, hentry]
        · rw [hhelper', setHelper_self, hentry]
        · rw [hhelper', setHelper_self, hentry]
          exact hncl
        · exact (hmem' _).mpr (Or.inl rfl)
      · rw [hhelper', setHelper_ne _ _ _ _ hs]
        rcases hInv.hTri s with ⟨h1, h2, h3⟩ | ⟨j, h1, h2, h3, h4⟩ |
          ⟨j, h1, h2, h3, h4, h5⟩
        · exact Or.inl ⟨h1, h2, h3⟩
        · exact Or.inr (Or.inl ⟨j, h1, h2, h3, (hmem' j).mpr (Or.inr h4)⟩)
        · refine Or.inr (Or.inr ⟨j, h1, h2, h3, ?_, h5⟩)
          intro hm
          rcases (hmem' j).mp hm with he | hm2
          · obtain ⟨hjl, _⟩ := hInv.hNode s j h1
            omega
          · exact h4 hm2
    · intro j hj
      dsimp only at hj ⊢
      rcases (hmem' j).mp hj with rfl | hm
      · rw [hlen']; omega
      · have := hopenlt j hm
        rw [hlen']; omega
    · dsimp only
      refine List.Nodup.perm ?_ (pushHeap_perm (fAt nodes') st.m_openlist _).symm
      refine List.nodup_cons.mpr ⟨?_, hInv.hOpenNodup⟩
      intro hm
      have := hopenlt _ hm
      omega
    · intro j hj
      dsimp only at hj ⊢
      obtain ⟨h1, h2⟩ := hInv.hClosed j hj
      have hne : stAt st.nodes j ≠ nb := hclosed_ne_nb _ h2
      refine ⟨by rw [hlen']; omega, ?_⟩
      rw [hstlt j h1, hhelper', setHelper_ne _ _ _ _ hne]
      exact h2
    · dsimp only
      have hmap : st.m_closedlist.map (stAt nodes') =
          st.m_closedlist.map (stAt st.nodes) := by
        refine List.map_congr_left ?_
        intro j hj
        exact hstlt j (hInv.hClosed j hj).1
      rw [hmap]
      exact hInv.hClosedNodup
    · intro j hj
      dsimp only at hj ⊢
      rw [hlen'] at hj
      rcases Nat.lt_succ_iff_lt_or_eq.mp hj with hj' | rfl
      · obtain ⟨l, hch, hnd2, hbnd, htl⟩ := hInv.hChain j hj'
        refine ⟨l, chainL_append dc gn start goal st.nodes nd j l hch, hnd2, ?_, ?_⟩
        · intro k hk
          have := hbnd k hk
          rw [hlen']; omega
        · intro k hk
          have h2 := htl k hk
          have hklen := hbnd k (List.mem_of_mem_tail hk)
          have hne : stAt st.nodes k ≠ nb := hclosed_ne_nb _ h2
          rw [hstlt k hklen, hhelper', setHelper_ne _ _ _ _ hne]
          exact h2
      · obtain ⟨lc, hchc, hndc, hbndc, htlc⟩ := hInv.hChain cur hclen
        have hallcl := chainL_all_closed dc gn start goal st cur lc hchc hccl htlc
        refine ⟨st.nodes.length :: lc, ?_, ?_, ?_, ?_⟩
        · refine ChainL.step st.nodes.length cur mc lc (by rw [hlen']; omega)
            ?_ ?_ ?_ (chainL_append dc gn start goal st.nodes nd cur lc hchc)
          · rw [getD_append_self]
          · rw [hstnew, hstlt cur hclen]
            exact hedge
          · rw [gAt, gAt, getD_append_self, getD_append_lt _ _ _ _ hclen]
            rfl
        · refine List.nodup_cons.mpr ⟨?_, hndc⟩
          intro hm
          have := hbndc _ hm
          omega
        · intro k hk
          rcases List.mem_cons.mp hk with rfl | hk'
          · rw [hlen']; omega
          · have := hbndc k hk'
            rw [hlen']; omega
        · intro k hk
          rw [List.tail_cons] at hk
          have h2 := hallcl k hk
          have hklen := hbndc k hk
          have hne : stAt st.nodes k ≠ nb := hclosed_ne_nb _ h2
          rw [hstlt k hklen, hhelper', setHelper_ne _ _ _ _ hne]
          exact h2
  · -- flags unchanged
    intro s
    dsimp only
    by_cases hs : s = nb
    · subst hs
      rw [hhelper', setHelper_self, hentry]
    · rw [hhelper', setHelper_ne _ _ _ _ hs]
  · -- discovery monotone
    intro s j h
    dsimp only
    have hs : s ≠ nb := hdisc_ne_nb s j h
    rw [hhelper', setHelper_ne _ _ _ _ hs]
    exact h
  · -- frozen records of closed states
    intro s j hcl hN
    dsimp only
    have hs : s ≠ nb := hclosed_ne_nb s hcl
    obtain ⟨hjl, _⟩ := hInv.hNode s j hN
    refine ⟨by rw [hhelper', setHelper_ne _ _ _ _ hs], ?_, ?_⟩
    · exact getD_append_lt _ _ _ _ hjl
    · rw [hmem' j]
      constructor
      · intro h2
        rcases h2 with rfl | h3
        · omega
        · exact h3
      · intro h2
        exact Or.inr h2

theorem addNeighbor_spec (dc : S → S → Int) (gn : S → List (S × Int))
    (start goal : S) (st : AStarState S) (nb : S) (mc : Int) (cur : Nat)
    (hInv : InvCore dc gn start goal st)
    (hcur : st.m_currentnode = some cur)
    (hclen : cur < st.nodes.length)
    (hccl : (st.m_helperlist (stAt st.nodes cur)).m_onclosed = true)
    (hedge : (nb, mc) ∈ gn (stAt st.nodes cur)) :
    AddFacts dc gn start goal st (AddNeighbor dc goal st nb mc) ∧
    ((AddNeighbor dc goal st nb mc).m_helperlist nb).m_node ≠ none := by
  by_cases hncl : (st.m_helperlist nb).m_onclosed = false
  · rcases hnode : (st.m_helperlist nb).m_node with _ | j0
    · -- neighbor undiscovered: allocate and push
      have heq : AddNeighbor dc goal st nb mc =
          (let nd : astarnode S :=
            { m_node := nb
              m_parent := some cur
              m_g := gAt st.nodes cur + mc
              m_h := dc nb goal
              m_f := (gAt st.nodes cur + mc) + dc nb goal }
           let nodes' := st.nodes ++ [nd]
           { st with
             nodes := nodes'
             m_openlist := pushHeap (fAt nodes') st.m_openlist st.nodes.length
             m_helperlist :=
               setHelper st.m_helperlist nb
                 { m_node := some st.nodes.length, m_onopen := true
                   m_onclosed := (st.m_helperlist nb).m_onclosed } }) := by
        rw [AddNeighbor, if_pos hncl, hnode, hcur]
      rw [heq]
      refine ⟨addNeighbor_create_addFacts dc gn start goal st nb mc cur hInv hclen
        hccl hedge hncl hnode, ?_⟩
      dsimp only
      rw [setHelper_self]
      simp
    · -- neighbor already known
      by_cases hlt : gAt st.nodes cur + mc < gAt st.nodes j0
      · have heq : AddNeighbor dc goal st nb mc =
            (let nd := st.nodes.getD j0 dfltNode
             let nodes' := st.nodes.set j0
               { nd with
                 m_g := gAt st.nodes cur + mc
                 m_f := (gAt st.nodes cur + mc) + nd.m_h
                 m_parent := some cur }
             { st with nodes := nodes',
                       m_openlist := makeHeap (fAt nodes') st.m_openlist }) := by
          rw [AddNeighbor, if_pos hncl, hnode, hcur]
          simp only [if_pos hlt]
        rw [heq]
        refine ⟨addNeighbor_relax_addFacts dc gn start goal st nb mc cur j0 hInv
          hclen hccl hedge hncl hnode, ?_⟩
        dsimp only
        rw [hnode]
        simp
      · have heq : AddNeighbor dc goal st nb mc = st := by
          rw [AddNeighbor, if_pos hncl, hnode, hcur]
          simp only [if_neg hlt]
        rw [heq]
        refine ⟨addFacts_refl dc gn start goal st hInv, ?_⟩
        rw [hnode]
        simp
  · -- neighbor on the closed list: ignored
    have heq : AddNeighbor dc goal st nb mc = st := by
      rw [AddNeighbor, if_neg hncl]
    rw [heq]
    refine ⟨addFacts_refl dc gn start goal st hInv, ?_⟩
    have hncl' : (st.m_helperlist nb).m_onclosed = true := by
      rcases hb : (st.m_helperlist nb).m_onclosed with _ | _
      · exact absurd hb hncl
      · rfl
    rcases hInv.hTri nb with ⟨_, _, h3⟩ | ⟨j, h1, _, _, _⟩ | ⟨j, h1, _, _, _, _⟩
    · rw [h3] at hncl'
      exact absurd hncl' (by simp)
    · rw [h1]; simp
    · rw [h1]; simp

theorem foldAdd_spec (dc : S → S → Int) (gn : S → List (S × Int))
    (start goal : S) (cur : Nat) :
    ∀ (L : List (S × Int)) (st : AStarState S),
    InvCore dc gn start goal st →
    st.m_currentnode = some cur →
    cur < st.nodes.length →
    (st.m_helperlist (stAt st.nodes cur)).m_onclosed = true →
    (∀ nc ∈ L, nc ∈ gn (stAt st.nodes cur)) →
    AddFacts dc gn start goal st
      (L.foldl (fun acc nc => AddNeighbor dc goal acc nc.1 nc.2) st) ∧
    (∀ nc ∈ L,
      ((L.foldl (fun acc nc => AddNeighbor dc goal acc nc.1 nc.2)
        st).m_helperlist nc.1).m_node ≠ none) := by
  intro L
  induction L with
  | nil =>
    intro st hInv _ _ _ _
    exact ⟨addFacts_refl dc gn start goal st hInv, by intro nc hnc; cases hnc⟩
  | cons nc L' ih =>
    intro st hInv hcur hclen hccl hsub
    have hedge : nc ∈ gn (stAt st.nodes cur) := hsub nc (by simp)
    obtain ⟨f1, hdisc1⟩ := addNeighbor_spec dc gn start goal st nc.1 nc.2 cur hInv
      hcur hclen hccl hedge
    set st1 := AddNeighbor dc goal st nc.1 nc.2 with hst1
    have hclen1 : cur < st1.nodes.length := lt_of_lt_of_le hclen f1.len_mono
    have hstc1 : stAt st1.nodes cur = stAt st.nodes cur := f1.stAt_eq cur hclen
    have hccl1 : (st1.m_helperlist (stAt st1.nodes cur)).m_onclosed = true := by
      rw [hstc1, f1.flags_eq]
      exact hccl
    have hsub1 : ∀ x ∈ L', x ∈ gn (stAt st1.nodes cur) := by
      intro x hx
      rw [hstc1]
      exact hsub x (by simp [hx])
    obtain ⟨f2, hdisc2⟩ := ih st1 f1.inv (f1.cur_eq.trans hcur) hclen1 hccl1 hsub1
    have hfold : (nc :: L').foldl (fun acc x => AddNeighbor dc goal acc x.1 x.2) st =
        L'.foldl (fun acc x => AddNeighbor dc goal acc x.1 x.2) st1 := by
      rw [List.foldl_cons]
    rw [hfold]
    refine ⟨addFacts_trans dc gn start goal st st1 _ f1 f2, ?_⟩
    intro x hx
    rcases List.mem_cons.mp hx with rfl | hx'
    · rcases hj : (st1.m_helperlist x.1).m_node with _ | j
      · exact absurd hj hdisc1
      · rw [f2.disc_mono x.1 j hj]
        simp
    · exact hdisc2 x hx'

theorem closeState_nodes (st : AStarState S) (cur : Nat) (o2 : List Nat) :
    (closeState st cur o2).nodes = st.nodes := rfl

theorem closeState_open (st : AStarState S) (cur : Nat) (o2 : List Nat) :
    (closeState st cur o2).m_openlist = o2 := rfl

theorem closeState_closed (st : AStarState S) (cur : Nat) (o2 : List Nat) :
    (closeState st cur o2).m_closedlist = st.m_closedlist ++ [cur] := rfl

theorem closeState_cur (st : AStarState S) (cur : Nat) (o2 : List Nat) :
    (closeState st cur o2).m_currentnode = some cur := rfl

theorem closeState_helper_self (st : AStarState S) (cur : Nat) (o2 : List Nat) :
    (closeState st cur o2).m_helperlist (stAt st.nodes cur) =
      { m_node := (st.m_helperlist (stAt st.nodes cur)).m_node
        m_onopen := false, m_onclosed := true } := by
  simp [closeState, setHelper_self]

theorem closeState_helper_ne (st : AStarState S) (cur : Nat) (o2 : List Nat)
    (t : S) (hts : t ≠ stAt st.nodes cur) :
    (closeState st cur o2).m_helperlist t = st.m_helperlist t := by
  simp [closeState, setHelper_ne _ _ _ _ hts]

theorem stepBody_char (dc : S → S → Int) (gn : S → List (S × Int)) (goal : S)
    (st : AStarState S) (cur : Nat) (open2 : List Nat)
    (hlen : st.m_openlist.length > 0)
    (hpop : popHeap (fAt st.nodes) st.m_openlist = (some cur, open2)) :
    stepBody dc gn goal st =
      (if stAt st.nodes cur = goal then (PATH_FOUND, closeState st cur open2)
       else (PATH_SEARCHING,
         (gn (stAt st.nodes cur)).foldl
           (fun acc nc => AddNeighbor dc goal acc nc.1 nc.2)
           (closeState st cur open2))) := by
  rw [stepBody, if_pos hlen, hpop]
  rfl

theorem stepBody_spec (dc : S → S → Int) (gn : S → List (S × Int))
    (start goal : S) (st : AStarState S) (r : PathResult) (st' : AStarState S)
    (hInv : Inv dc gn start goal st)
    (heq : stepBody dc gn goal st = (r, st')) :
    StepFacts dc gn start goal st r st' := by
  by_cases hlen : st.m_openlist.length > 0
  case neg =>
    rw [stepBody, if_neg hlen] at heq
    injection heq with hr hst'
    subst hr
    subst hst'
    refine
      { inv := hInv
        disc_mono := fun _ _ h => h
        closed_mono := fun _ h => h
        notfound := fun _ => ⟨rfl, List.length_eq_zero.mp (by omega)⟩
        searching := fun h => nomatch h
        found := fun h => nomatch h
        frozen := ?_ }
    intro t j hcl hnd
    refine ⟨rfl, rfl, ?_⟩
    rcases hInv.core.hTri t with ⟨h1, _, _⟩ | ⟨j', _, _, h3, _⟩ | ⟨j', h1, _, _, h4, _⟩
    · rw [hnd] at h1; exact Option.noConfusion h1
    · rw [hcl] at h3; exact Bool.noConfusion h3
    · rw [hnd] at h1
      injection h1 with hj
      subst hj
      exact h4
  case pos =>
    have hne : st.m_openlist ≠ [] := by
      intro h0; rw [h0] at hlen; exact absurd hlen (by simp)
    obtain ⟨cur, open2, hpop, hperm⟩ := popHeap_spec (fAt st.nodes) st.m_openlist hne
    rw [stepBody_char dc gn goal st cur open2 hlen hpop] at heq
    have hcurmem : cur ∈ st.m_openlist :=
      hperm.mem_iff.mpr (List.mem_cons_self cur open2)
    have hcurlt : cur < st.nodes.length := hInv.core.hOpenLt cur hcurmem
    have hreg : (st.m_helperlist (stAt st.nodes cur)).m_node = some cur :=
      hInv.core.hArena cur hcurlt
    have hnd2 : (cur :: open2).Nodup := hperm.nodup_iff.mp hInv.core.hOpenNodup
    have hcurnotin : cur ∉ open2 := (List.nodup_cons.mp hnd2).1
    have hnd2' : open2.Nodup := (List.nodup_cons.mp hnd2).2
    have hsub2 : ∀ j ∈ open2, j ∈ st.m_openlist := fun j hj =>
      hperm.mem_iff.mpr (List.mem_cons_of_mem cur hj)
    have hsncl : (st.m_helperlist (stAt st.nodes cur)).m_onclosed = false := by
      rcases hInv.core.hTri (stAt st.nodes cur) with
        ⟨h1, _, _⟩ | ⟨j, _, _, h3, _⟩ | ⟨j, h1, _, _, h4, _⟩
      · rw [hreg] at h1; exact Option.noConfusion h1
      · exact h3
      · rw [hreg] at h1
        injection h1 with hj
        subst hj
        exact absurd hcurmem h4
    have hsnotclosed : stAt st.nodes cur ∉ st.m_closedlist.map (stAt st.nodes) := by
      intro hmem
      obtain ⟨j, hj, hjeq⟩ := List.mem_map.mp hmem
      have hf := (hInv.core.hClosed j hj).2
      rw [hjeq] at hf
      rw [hsncl] at hf
      exact Bool.noConfusion hf
    have hflagmono : ∀ t, (st.m_helperlist t).m_onclosed = true →
        ((closeState st cur open2).m_helperlist t).m_onclosed = true := by
      intro t ht
      by_cases hts : t = stAt st.nodes cur
      · subst hts; rw [closeState_helper_self]
      · rw [closeState_helper_ne st cur open2 t hts]; exact ht
    have hflaginv : ∀ t, ((closeState st cur open2).m_helperlist t).m_onclosed = true →
        t = stAt st.nodes cur ∨ (st.m_helperlist t).m_onclosed = true := by
      intro t ht
      by_cases hts : t = stAt st.nodes cur
      · exact Or.inl hts
      · right
        rw [closeState_helper_ne st cur open2 t hts] at ht
        exact ht
    have hnodeeq : ∀ t, ((closeState st cur open2).m_helperlist t).m_node =
        (st.m_helperlist t).m_node := by
      intro t
      by_cases hts : t = stAt st.nodes cur
      · subst hts; rw [closeState_helper_self]
      · rw [closeState_helper_ne st cur open2 t hts]
    have hcore1 : InvCore dc gn start goal (closeState st cur open2) := by
      refine ⟨?_, ?_, ?_, ?_, ?_, ?_, ?_, ?_⟩
      · intro t j h
        rw [hnodeeq t] at h
        rw [closeState_nodes]
        exact hInv.core.hNode t j h
      · intro j hj
        rw [closeState_nodes] at hj ⊢
        rw [hnodeeq]
        exact hInv.core.hArena j hj
      · intro t
        unfold TriState
        by_cases hts : t = stAt st.nodes cur
        · subst hts
          refine Or.inr (Or.inr ⟨cur, ?_, ?_, ?_, ?_, ?_⟩)
          · rw [closeState_helper_self]; exact hreg
          · rw [closeState_helper_self]
          · rw [closeState_helper_self]
          · rw [closeState_open]; exact hcurnotin
          · rw [closeState_closed]; exact List.mem_append_right _ (by simp)
        · rcases hInv.core.hTri t with
            ⟨h1, h2, h3⟩ | ⟨j, hn, ho, hc, hm⟩ | ⟨j, hn, ho, hc, hno, hcm⟩
          · refine Or.inl ⟨?_, ?_, ?_⟩
            · rw [closeState_helper_ne st cur open2 t hts]; exact h1
            · rw [closeState_helper_ne st cur open2 t hts]; exact h2
            · rw [closeState_helper_ne st cur open2 t hts]; exact h3
          · have hjne : j ≠ cur := by
              intro h0
              subst h0
              exact hts ((hInv.core.hNode t j hn).2.symm)
            have hj2 : j ∈ open2 := by
              rcases List.mem_cons.mp (hperm.mem_iff.mp hm) with h0 | h0
              · exact absurd h0 hjne
              · exact h0
            refine Or.inr (Or.inl ⟨j, ?_, ?_, ?_, ?_⟩)
            · rw [closeState_helper_ne st cur open2 t hts]; exact hn
            · rw [closeState_helper_ne st cur open2 t hts]; exact ho
            · rw [closeState_helper_ne st cur open2 t hts]; exact hc
            · rw [closeState_open]; exact hj2
          · refine Or.inr (Or.inr ⟨j, ?_, ?_, ?_, ?_, ?_⟩)
            · rw [closeState_helper_ne st cur open2 t hts]; exact hn
            · rw [closeState_helper_ne st cur open2 t hts]; exact ho
            · rw [closeState_helper_ne st cur open2 t hts]; exact hc
            · rw [closeState_open]; exact fun h0 => hno (hsub2 j h0)
            · rw [closeState_closed]; exact List.mem_append_left _ hcm
      · intro j hj
        rw [closeState_open] at hj
        rw [closeState_nodes]
        exact hInv.core.hOpenLt j (hsub2 j hj)
      · rw [closeState_open]; exact hnd2'
      · intro j hj
        rw [closeState_closed] at hj
        rw [closeState_nodes]
        rcases List.mem_append.mp hj with hjold | hjnew
        · obtain ⟨hlt, hfl⟩ := hInv.core.hClosed j hjold
          exact ⟨hlt, hflagmono _ hfl⟩
        · have hjc : j = cur := by simpa using hjnew
          subst hjc
          refine ⟨hcurlt, ?_⟩
          rw [closeState_helper_self]
      · rw [closeState_closed, closeState_nodes, List.map_append]
        rw [List.nodup_append]
        refine ⟨hInv.core.hClosedNodup, by simp, ?_⟩
        intro x hx hx2
        have hxe : x = stAt st.nodes cur := by simpa using hx2
        subst hxe
        exact hsnotclosed hx
      · intro j hj
        rw [closeState_nodes] at hj ⊢
        obtain ⟨l, hch, hndl, hltl, htl⟩ := hInv.core.hChain j hj
        exact ⟨l, hch, hndl, hltl, fun k hk => hflagmono _ (htl k hk)⟩
    by_cases hgoal : stAt st.nodes cur = goal
    · rw [if_pos hgoal] at heq
      injection heq with hr hst'
      subst hr
      subst hst'
      refine
        { inv := ⟨hcore1, ?_⟩
          disc_mono := fun t j h => by rw [hnodeeq t]; exact h
          closed_mono := hflagmono
          notfound := fun h => nomatch h
          searching := fun h => nomatch h
          found := ?_
          frozen := ?_ }
      · intro t ht
        rcases hflaginv t ht with rfl | hold
        · exact Or.inl hgoal
        · rcases hInv.hExp t hold with h | h
          · exact Or.inl h
          · refine Or.inr fun nc hnc => ?_
            rw [hnodeeq nc.1]
            exact h nc hnc
      · intro _
        refine ⟨cur, closeState_cur st cur open2, ?_, ?_⟩
        · rw [closeState_nodes]; exact hcurlt
        · rw [closeState_nodes]; exact hgoal
      · intro t j hcl hnd
        have hts : t ≠ stAt st.nodes cur := by
          intro h0
          rw [h0] at hcl
          rw [hcl] at hsncl
          exact Bool.noConfusion hsncl
        refine ⟨closeState_helper_ne st cur open2 t hts, rfl, ?_⟩
        rw [closeState_open]
        intro hj2
        rcases hInv.core.hTri t with
          ⟨h1, _, _⟩ | ⟨j', _, _, h3, _⟩ | ⟨j', h1, _, _, h4, _⟩
        · rw [hnd] at h1; exact Option.noConfusion h1
        · rw [hcl] at h3; exact Bool.noConfusion h3
        · rw [hnd] at h1
          injection h1 with hj
          subst hj
          exact h4 (hsub2 j hj2)
    · rw [if_neg hgoal] at heq
      injection heq with hr hst'
      subst hr
      have hcur1 : (closeState st cur open2).m_currentnode = some cur :=
        closeState_cur st cur open2
      have hclen1 : cur < (closeState st cur open2).nodes.length := by
        rw [closeState_nodes]; exact hcurlt
      have hstAt1 : stAt (closeState st cur open2).nodes cur = stAt st.nodes cur := by
        rw [closeState_nodes]
      have hccl1 : ((closeState st cur open2).m_helperlist
          (stAt (closeState st cur open2).nodes cur)).m_onclosed = true := by
        rw [hstAt1, closeState_helper_self]
      obtain ⟨f, hdisc⟩ := foldAdd_spec dc gn start goal cur
        (gn (stAt st.nodes cur)) (closeState st cur open2)
        hcore1 hcur1 hclen1 hccl1 (by rw [hstAt1]; exact fun nc h => h)
      subst hst'
      refine
        { inv := ⟨f.inv, ?_⟩
          disc_mono := fun t j h => f.disc_mono t j (by rw [hnodeeq t]; exact h)
          closed_mono := fun t ht => by rw [f.flags_eq t]; exact hflagmono t ht
          notfound := fun h => nomatch h
          searching := ?_
          found := fun h => nomatch h
          frozen := ?_ }
      · intro t ht
        rw [f.flags_eq t] at ht
        rcases hflaginv t ht with rfl | hold
        · exact Or.inr fun nc hnc => hdisc nc hnc
        · rcases hInv.hExp t hold with h | h
          · exact Or.inl h
          · refine Or.inr fun nc hnc => ?_
            rcases hn : (st.m_helperlist nc.1).m_node with _ | j
            · exact absurd hn (h nc hnc)
            · have hn1 : ((closeState st cur open2).m_helperlist nc.1).m_node = some j := by
                rw [hnodeeq nc.1]; exact hn
              rw [f.disc_mono nc.1 j hn1]
              simp
      · intro _
        refine ⟨?_, ?_⟩
        · rw [f.closed_eq, closeState_closed, List.length_append]
          rfl
        · intro hgf
          rw [f.flags_eq goal]
          have hgs : goal ≠ stAt st.nodes cur := fun h0 => hgoal h0.symm
          rw [closeState_helper_ne st cur open2 goal hgs]
          exact hgf
      · intro t j hcl hnd
        have hts : t ≠ stAt st.nodes cur := by
          intro h0
          rw [h0] at hcl
          rw [hcl] at hsncl
          exact Bool.noConfusion hsncl
        have hcl1 : ((closeState st cur open2).m_helperlist t).m_onclosed = true := by
          rw [closeState_helper_ne st cur open2 t hts]; exact hcl
        have hnd1 : ((closeState st cur open2).m_helperlist t).m_node = some j := by
          rw [hnodeeq t]; exact hnd
        obtain ⟨e1, e2, e3⟩ := f.frozen t j hcl1 hnd1
        refine ⟨e1.trans (closeState_helper_ne st cur open2 t hts), e2, ?_⟩
        intro hjf
        have hj2 : j ∈ open2 := e3.mp hjf
        rcases hInv.core.hTri t with
          ⟨h1, _, _⟩ | ⟨j', _, _, h3, _⟩ | ⟨j', h1, _, _, h4, _⟩
        · rw [hnd] at h1; exact Option.noConfusion h1
        · rw [hcl] at h3; exact Bool.noConfusion h3
        · rw [hnd] at h1
          injection h1 with hj
          subst hj
          exact h4 (hsub2 j hj2)

theorem initState_inv (dc : S → S → Int) (gn : S → List (S × Int))
    (start goal : S) : Inv dc gn start goal (initState dc start goal) := by
  have hnodes : (initState dc start goal).nodes =
      [{ m_node := start, m_parent := none, m_g := dc start goal, m_h := 0,
         m_f := dc start goal + 0 }] := rfl
  have hopen : (initState dc start goal).m_openlist = [0] := rfl
  have hclosed : (initState dc start goal).m_closedlist = [] := rfl
  have hst0 : stAt (initState dc start goal).nodes 0 = start := rfl
  have hg0 : gAt (initState dc start goal).nodes 0 = dc start goal := rfl
  have hhelp : ∀ t, (initState dc start goal).m_helperlist t =
      if t = start then { m_node := some 0, m_onopen := true, m_onclosed := false }
      else { m_node := none, m_onopen := false, m_onclosed := false } := by
    intro t
    by_cases hts : t = start
    · rw [if_pos hts, hts]
      exact setHelper_self (fun _ => default) start _
    · rw [if_neg hts]
      exact setHelper_ne (fun _ => default) start _ t hts
  refine ⟨⟨?_, ?_, ?_, ?_, ?_, ?_, ?_, ?_⟩, ?_⟩
  · intro t j h
    rw [hhelp t] at h
    split_ifs at h with hts
    · have hj : some (0 : Nat) = some j := h
      injection hj with hj0
      subst hj0
      exact ⟨by rw [hnodes]; simp, by rw [hst0, hts]⟩
  · intro j hj
    rw [hnodes] at hj
    simp at hj
    subst hj
    rw [hst0, hhelp start, if_pos rfl]
  · intro t
    unfold TriState
    by_cases hts : t = start
    · refine Or.inr (Or.inl ⟨0, ?_, ?_, ?_, ?_⟩)
      · rw [hhelp t, if_pos hts]
      · rw [hhelp t, if_pos hts]
      · rw [hhelp t, if_pos hts]
      · rw [hopen]; simp
    · refine Or.inl ⟨?_, ?_, ?_⟩
      · rw [hhelp t, if_neg hts]
      · rw [hhelp t, if_neg hts]
      · rw [hhelp t, if_neg hts]
  · intro j hj
    rw [hopen] at hj
    simp at hj
    subst hj
    rw [hnodes]
    simp
  · rw [hopen]; simp
  · intro j hj
    rw [hclosed] at hj
    simp at hj
  · rw [hclosed]; simp
  · intro j hj
    rw [hnodes] at hj
    simp at hj
    subst hj
    refine ⟨[0], ?_, by simp, ?_, by simp⟩
    · exact ChainL.root 0 (by rw [hnodes]; simp) rfl hst0 hg0
    · intro k hk
      simp at hk
      subst hk
      rw [hnodes]
      simp
  · intro t ht
    rw [hhelp t] at ht
    split_ifs at ht

theorem findPathLoop_spec (dc : S → S → Int) (gn : S → List (S × Int))
    (start goal : S) :
    ∀ (fuel : Nat) (st : AStarState S) (p : List S) (r : PathResult)
      (p' : List S) (stF : AStarState S),
    Inv dc gn start goal st →
    (st.m_helperlist goal).m_onclosed = false →
    FindPathLoop dc gn goal fuel st p = (r, p', stF) →
    Inv dc gn start goal stF ∧
    (∀ s j, (st.m_helperlist s).m_node = some j →
      (stF.m_helperlist s).m_node = some j) ∧
    (r = PATH_NOTFOUND → stF.m_openlist = [] ∧ p' = p ∧
      (stF.m_helperlist goal).m_onclosed = false) ∧
    (r = PATH_FOUND → ∃ (cur : Nat) (l : List Nat),
      cur < stF.nodes.length ∧ stAt stF.nodes cur = goal ∧
      ChainL dc gn start goal stF.nodes cur l ∧
      p' = l.map (stAt stF.nodes) ∧ stF.m_currentnode = none) ∧
    (r = PATH_SEARCHING →
      stF.m_closedlist.length = st.m_closedlist.length + fuel) := by
  intro fuel
  induction fuel with
  | zero =>
    intro st p r p' stF hInv hgf heq
    rw [FindPathLoop] at heq
    injection heq with h1 h23
    injection h23 with h2 h3
    subst h1
    subst h2
    subst h3
    refine ⟨hInv, fun _ _ h => h, ?_, ?_, ?_⟩
    · intro h; exact nomatch h
    · intro h; exact nomatch h
    · intro _; simp
  | succ fuel ih =>
    intro st p r p' stF hInv hgf heq
    rcases hs : stepBody dc gn goal st with ⟨r1, st1⟩
    have hsf := stepBody_spec dc gn start goal st r1 st1 hInv hs
    rw [FindPathLoop, hs] at heq
    cases r1 with
    | PATH_SEARCHING =>
      have heq2 : FindPathLoop dc gn goal fuel st1 p = (r, p', stF) := heq
      have hgf1 : (st1.m_helperlist goal).m_onclosed = false :=
        (hsf.searching rfl).2 hgf
      obtain ⟨hInvF, hdiscF, hnf, hfd, hse⟩ := ih st1 p r p' stF hsf.inv hgf1 heq2
      refine ⟨hInvF, ?_, hnf, hfd, ?_⟩
      · intro s j h
        exact hdiscF s j (hsf.disc_mono s j h)
      · intro hr
        have h1 := hse hr
        have h2 := (hsf.searching rfl).1
        omega
    | PATH_NOTFOUND =>
      obtain ⟨hst1, hopenE⟩ := hsf.notfound rfl
      subst hst1
      have heq2 : (PATH_NOTFOUND, p, st1) = (r, p', stF) := heq
      injection heq2 with h1 h23
      injection h23 with h2 h3
      subst h1
      subst h2
      subst h3
      refine ⟨hInv, fun _ _ h => h, ?_, ?_, ?_⟩
      · intro _; exact ⟨hopenE, rfl, hgf⟩
      · intro h; exact nomatch h
      · intro h; exact nomatch h
    | PATH_FOUND =>
      obtain ⟨cur, hcur, hlt, hgl⟩ := hsf.found rfl
      obtain ⟨l, hch, hndl, hltl, htl⟩ := hsf.inv.core.hChain cur hlt
      have hllen : l.length ≤ st1.nodes.length := nodup_lt_length_le l _ hltl hndl
      have hwalk : walkChain st1.nodes st1.nodes.length st1.m_currentnode =
          (l.map (stAt st1.nodes), none) := by
        rw [hcur]
        exact walkChain_of_chainL dc gn start goal st1.nodes cur l hch _ hllen
      have heq2 : (PATH_FOUND,
          (walkChain st1.nodes st1.nodes.length st1.m_currentnode).1,
          ({ st1 with m_currentnode :=
            (walkChain st1.nodes st1.nodes.length st1.m_currentnode).2 } :
            AStarState S)) = (r, p', stF) := heq
      injection heq2 with h1 h23
      injection h23 with h2 h3
      subst h1
      subst h2
      subst h3
      refine ⟨⟨⟨hsf.inv.core.hNode, hsf.inv.core.hArena, hsf.inv.core.hTri,
        hsf.inv.core.hOpenLt, hsf.inv.core.hOpenNodup, hsf.inv.core.hClosed,
        hsf.inv.core.hClosedNodup, hsf.inv.core.hChain⟩, hsf.inv.hExp⟩,
        hsf.disc_mono, ?_, ?_, ?_⟩
      · intro h; exact nomatch h
      · intro _
        refine ⟨cur, l, hlt, hgl, hch, ?_, ?_⟩
        · rw [hwalk]
        · rw [hwalk]
      · intro h; exact nomatch h

theorem inv_closed_not_open (dc : S → S → Int) (gn : S → List (S × Int))
    (start goal : S) (st : AStarState S) (hInv : InvCore dc gn start goal st)
    (s : S) (j : Nat) (hcl : (st.m_helperlist s).m_onclosed = true)
    (hnd : (st.m_helperlist s).m_node = some j) : j ∉ st.m_openlist := by
  rcases hInv.hTri s with ⟨h1, _, _⟩ | ⟨j', _, _, h3, _⟩ | ⟨j', h1, _, _, h4, _⟩
  · rw [hnd] at h1; exact Option.noConfusion h1
  · rw [hcl] at h3; exact Bool.noConfusion h3
  · rw [hnd] at h1
    injection h1 with hj
    subst hj
    exact h4

theorem initState_helper_start (dc : S → S → Int) (start goal : S) :
    ((initState dc start goal (S := S)).m_helperlist start).m_node = some 0 := by
  have h : (initState dc start goal).m_helperlist start =
      { m_node := some 0, m_onopen := true } :=
    setHelper_self (fun _ => default) start _
  rw [h]

theorem initState_goal_notclosed (dc : S → S → Int) (start goal : S) :
    ((initState dc start goal (S := S)).m_helperlist goal).m_onclosed = false := by
  by_cases h : goal = start
  · have he : (initState dc start goal).m_helperlist goal =
        { m_node := some 0, m_onopen := true } := by
      rw [h]; exact setHelper_self (fun _ => default) start _
    rw [he]
  · have he : (initState dc start goal).m_helperlist goal = default :=
      setHelper_ne (fun _ => default) start _ goal h
    rw [he]
    rfl

theorem runState_frozen (dc : S → S → Int) (gn : S → List (S × Int))
    (start goal : S) : ∀ (k : Nat) (st : AStarState S),
    Inv dc gn start goal st →
    Inv dc gn start goal (runState dc gn goal k st) ∧
    (∀ s, (st.m_helperlist s).m_onclosed = true →
      ((runState dc gn goal k st).m_helperlist s).m_onclosed = true) ∧
    (∀ s j, (st.m_helperlist s).m_onclosed = true →
      (st.m_helperlist s).m_node = some j →
      (runState dc gn goal k st).m_helperlist s = st.m_helperlist s ∧
      (runState dc gn goal k st).nodes.getD j dfltNode =
        st.nodes.getD j dfltNode ∧
      j ∉ (runState dc gn goal k st).m_openlist) := by
  intro k
  induction k with
  | zero =>
    intro st hInv
    refine ⟨hInv, fun _ h => h, ?_⟩
    intro s j hcl hnd
    exact ⟨rfl, rfl, inv_closed_not_open dc gn start goal st hInv.core s j hcl hnd⟩
  | succ k ih =>
    intro st hInv
    rcases hs : stepBody dc gn goal st with ⟨r1, st1⟩
    have hsf := stepBody_spec dc gn start goal st r1 st1 hInv hs
    have hred : runState dc gn goal (k + 1) st =
        (match (r1, st1) with
         | (PATH_SEARCHING, st') => runState dc gn goal k st'
         | (_, st') => st') := by
      rw [runState, hs]
    cases r1 with
    | PATH_SEARCHING =>
      have hred2 : runState dc gn goal (k + 1) st = runState dc gn goal k st1 := hred
      rw [hred2]
      obtain ⟨hInvF, hclF, hfzF⟩ := ih st1 hsf.inv
      refine ⟨hInvF, ?_, ?_⟩
      · intro s hcl
        exact hclF s (hsf.closed_mono s hcl)
      · intro s j hcl hnd
        obtain ⟨e1, e2, e3⟩ := hsf.frozen s j hcl hnd
        have hcl1 : (st1.m_helperlist s).m_onclosed = true := by
          rw [e1]; exact hcl
        have hnd1 : (st1.m_helperlist s).m_node = some j := by
          rw [e1]; exact hnd
        obtain ⟨f1, f2, f3⟩ := hfzF s j hcl1 hnd1
        exact ⟨f1.trans e1, f2.trans e2, f3⟩
    | PATH_NOTFOUND =>
      have hred2 : runState dc gn goal (k + 1) st = st1 := hred
      rw [hred2]
      refine ⟨hsf.inv, hsf.closed_mono, ?_⟩
      intro s j hcl hnd
      exact hsf.frozen s j hcl hnd
    | PATH_FOUND =>
      have hred2 : runState dc gn goal (k + 1) st = st1 := hred
      rw [hred2]
      refine ⟨hsf.inv, hsf.closed_mono, ?_⟩
      intro s j hcl hnd
      exact hsf.frozen s j hcl hnd

theorem runState_step_frozen (dc : S → S → Int) (gn : S → List (S × Int))
    (start goal : S) : ∀ (k : Nat) (st : AStarState S),
    Inv dc gn start goal st →
    ∀ s j, ((runState dc gn goal k st).m_helperlist s).m_onclosed = true →
      ((runState dc gn goal k st).m_helperlist s).m_node = some j →
      (runState dc gn goal (k + 1) st).m_helperlist s =
        (runState dc gn goal k st).m_helperlist s ∧
      (runState dc gn goal (k + 1) st).nodes.getD j dfltNode =
        (runState dc gn goal k st).nodes.getD j dfltNode ∧
      j ∉ (runState dc gn goal (k + 1) st).m_openlist := by
  intro k
  induction k with
  | zero =>
    intro st hInv s j hcl hnd
    rcases hs : stepBody dc gn goal st with ⟨r1, st1⟩
    have hsf := stepBody_spec dc gn start goal st r1 st1 hInv hs
    have hred : runState dc gn goal 1 st =
        (match (r1, st1) with
         | (PATH_SEARCHING, st') => runState dc gn goal 0 st'
         | (_, st') => st') := by
      rw [runState, hs]
    have hred2 : runState dc gn goal 1 st = st1 := by
      cases r1 <;> exact hred
    rw [hred2]
    exact hsf.frozen s j hcl hnd
  | succ k ih =>
    intro st hInv s j hcl hnd
    rcases hs : stepBody dc gn goal st with ⟨r1, st1⟩
    have hsf := stepBody_spec dc gn start goal st r1 st1 hInv hs
    have hredk : runState dc gn goal (k + 1) st =
        (match (r1, st1) with
         | (PATH_SEARCHING, st') => runState dc gn goal k st'
         | (_, st') => st') := by
      rw [runState, hs]
    have hredk1 : runState dc gn goal (k + 2) st =
        (match (r1, st1) with
         | (PATH_SEARCHING, st') => runState dc gn goal (k + 1) st'
         | (_, st') => st') := by
      rw [runState, hs]
    cases r1 with
    | PATH_SEARCHING =>
      have e1 : runState dc gn goal (k + 1) st = runState dc gn goal k st1 := hredk
      have e2 : runState dc gn goal (k + 2) st = runState dc gn goal (k + 1) st1 :=
        hredk1
      rw [e1] at hcl hnd
      rw [e1, e2]
      exact ih st1 hsf.inv s j hcl hnd
    | PATH_NOTFOUND =>
      have e1 : runState dc gn goal (k + 1) st = st1 := hredk
      have e2 : runState dc gn goal (k + 2) st = st1 := hredk1
      rw [e1] at hcl hnd
      rw [e1, e2]
      exact ⟨rfl, rfl,
        inv_closed_not_open dc gn start goal st1 hsf.inv.core s j hcl hnd⟩
    | PATH_FOUND =>
      have e1 : runState dc gn goal (k + 1) st = st1 := hredk
      have e2 : runState dc gn goal (k + 2) st = st1 := hredk1
      rw [e1] at hcl hnd
      rw [e1, e2]
      exact ⟨rfl, rfl,
        inv_closed_not_open dc gn start goal st1 hsf.inv.core s j hcl hnd⟩

theorem findPath_facts [Fintype S] (dc : S → S → Int) (gn : S → List (S × Int))
    (start goal : S) (p₀ : List S) (fuel : Nat)
    (hfuel : Fintype.card S + 1 ≤ fuel) :
    ((FindPath start goal p₀ dc gn fuel).1 = PATH_FOUND ↔
      ReachableG gn start goal) ∧
    ((FindPath start goal p₀ dc gn fuel).1 = PATH_FOUND →
      ∃ c, PathTo gn start goal ((FindPath start goal p₀ dc gn fuel).2.1).reverse c ∧
        (FindPath start goal p₀ dc gn fuel).2.1.head? = some goal ∧
        (FindPath start goal p₀ dc gn fuel).2.1.getLast? = some start) := by
  have hinit := initState_inv dc gn start goal
  have hgoal0 := initState_goal_notclosed dc start goal
  rcases heq : FindPathLoop dc gn goal fuel (initState dc start goal) p₀ with
    ⟨r, p', stF⟩
  obtain ⟨hInvF, hdiscF, hnf, hfd, hse⟩ := findPathLoop_spec dc gn start goal fuel
    (initState dc start goal) p₀ r p' stF hinit hgoal0 heq
  have hfp : FindPath start goal p₀ dc gn fuel = (r, p', stF) := heq
  rw [hfp]
  have hterm : r ≠ PATH_SEARCHING := by
    intro hrs
    have hlen := hse hrs
    have hinitc : (initState dc start goal (S := S)).m_closedlist = [] := rfl
    rw [hinitc] at hlen
    simp at hlen
    have hble := nodup_length_le_card (stF.m_closedlist.map (stAt stF.nodes))
      hInvF.core.hClosedNodup
    rw [List.length_map] at hble
    omega
  have hfound : r = PATH_FOUND → ∃ c, PathTo gn start goal p'.reverse c ∧
      p'.head? = some goal ∧ p'.getLast? = some start := by
    intro hr
    obtain ⟨cur, l, hlt, hgl, hch, hp', hcurn⟩ := hfd hr
    refine ⟨gAt stF.nodes cur - dc start goal, ?_, ?_, ?_⟩
    · have hpt := chainL_pathTo dc gn start goal stF.nodes cur l hch
      rw [hgl] at hpt
      rw [hp']
      exact hpt
    · rw [hp']
      have hhd := chainL_head dc gn start goal stF.nodes cur l hch
      rw [hgl] at hhd
      exact hhd
    · rw [hp']
      exact chainL_getLast dc gn start goal stF.nodes cur l hch
  have hreach : r = PATH_FOUND → ReachableG gn start goal := by
    intro hr
    obtain ⟨c, hp, _, _⟩ := hfound hr
    exact ⟨_, c, hp⟩
  have hnoreach : r = PATH_NOTFOUND → ¬ ReachableG gn start goal := by
    intro hr hre
    obtain ⟨p, c, hp⟩ := hre
    obtain ⟨hopenE, _, hgfF⟩ := hnf hr
    have hdc2 : ∀ s, (stF.m_helperlist s).m_node ≠ none →
        (stF.m_helperlist s).m_onclosed = true := by
      intro s hs
      rcases hInvF.core.hTri s with ⟨h1, _, _⟩ | ⟨j, _, _, _, hm⟩ | ⟨j, _, _, h3, _, _⟩
      · exact absurd h1 hs
      · rw [hopenE] at hm; simp at hm
      · exact h3
    have hstart : (stF.m_helperlist start).m_node ≠ none := by
      have h0 := hdiscF start 0 (initState_helper_start dc start goal)
      rw [h0]
      simp
    have hwalk : ∀ (s t : S) (q : List S) (c' : Int), PathTo gn s t q c' →
        (stF.m_helperlist s).m_node ≠ none → t = goal →
        (stF.m_helperlist goal).m_node ≠ none := by
      intro s t q c' hq
      induction hq with
      | refl u =>
        intro hs ht
        rw [ht] at hs
        exact hs
      | cons s n t c₀ q k hmem hrest ih =>
        intro hs ht
        rcases hInvF.hExp s (hdc2 s hs) with hg | hexp
        · rw [hg] at hs
          exact hs
        · exact ih (hexp (n, c₀) hmem) ht
    have hgdisc := hwalk start goal p c hp hstart rfl
    have hgcl := hdc2 goal hgdisc
    rw [hgfF] at hgcl
    exact Bool.noConfusion hgcl
  refine ⟨⟨hreach, ?_⟩, hfound⟩
  intro hre
  cases r with
  | PATH_FOUND => rfl
  | PATH_NOTFOUND => exact absurd hre (hnoreach rfl)
  | PATH_SEARCHING => exact absurd rfl hterm

end InvariantMachinery

section CachedMachinery

variable {S : Type} [DecidableEq S] [Inhabited S]

theorem withCache_nodes (st : AStarCachedState S) (X : Int → cacheelement S) :
    (withCache st X).nodes = st.nodes := rfl

theorem withCache_cur (st : AStarCachedState S) (X : Int → cacheelement S) :
    (withCache st X).m_currentnode = st.m_currentnode := rfl

theorem withCache_open (st : AStarCachedState S) (X : Int → cacheelement S) :
    (withCache st X).m_openlist = st.m_openlist := rfl

theorem withCache_closedl (st : AStarCachedState S) (X : Int → cacheelement S) :
    (withCache st X).m_closedlist = st.m_closedlist := rfl

theorem withCache_helper (st : AStarCachedState S) (X : Int → cacheelement S) :
    (withCache st X).m_helperlist = st.m_helperlist := rfl

theorem withCache_cache (st : AStarCachedState S) (X : Int → cacheelement S) :
    (withCache st X).m_cache = X := rfl

theorem withCache_withCache (st : AStarCachedState S)
    (X Y : Int → cacheelement S) :
    withCache (withCache st Y) X = withCache st X := rfl

theorem withCache_self (st : AStarCachedState S) :
    withCache st st.m_cache = st := rfl

theorem setIntMap_self {A : Type} (h : Int → A) (i : Int) (e : A) :
    setIntMap h i e i = e := by simp [setIntMap]

theorem setIntMap_ne {A : Type} (h : Int → A) (i : Int) (e : A) (k : Int)
    (hk : k ≠ i) : setIntMap h i e k = h k := by simp [setIntMap, hk]

theorem setIntMap_setIntMap_self {A : Type} (h : Int → A) (i : Int) (e e' : A) :
    setIntMap (setIntMap h i e) i e' = setIntMap h i e' := by
  funext k
  by_cases hk : k = i
  · subst hk
    rw [setIntMap_self, setIntMap_self]
  · rw [setIntMap_ne _ _ _ _ hk, setIntMap_ne _ _ _ _ hk, setIntMap_ne _ _ _ _ hk]

theorem relaxCached_eq_closed (dc : S → S → Int) (goal : S)
    (st : AStarCachedState S) (n : S) (ni mc : Int)
    (hcl : ¬ (st.m_helperlist ni).m_onclosed = false) :
    relaxCached dc goal st n ni mc = st := by
  rw [relaxCached, if_neg hcl]

theorem relaxCached_eq_nocur (dc : S → S → Int) (goal : S)
    (st : AStarCachedState S) (n : S) (ni mc : Int)
    (hc : st.m_currentnode = none) :
    relaxCached dc goal st n ni mc = st := by
  rw [relaxCached]
  split_ifs with hcl
  · rcases hn : (st.m_helperlist ni).m_node with _ | j <;> rw [hc]
  · rfl

theorem relaxCached_eq_known (dc : S → S → Int) (goal : S)
    (st : AStarCachedState S) (n : S) (ni mc : Int) (j cur : Nat)
    (hcl : (st.m_helperlist ni).m_onclosed = false)
    (hn : (st.m_helperlist ni).m_node = some j)
    (hc : st.m_currentnode = some cur) :
    relaxCached dc goal st n ni mc =
      (if gAtC st.nodes cur + mc < gAtC st.nodes j then
        { st with
          nodes := st.nodes.set j (relaxedNodeC st mc j cur)
          m_openlist := makeHeap (fAtC (st.nodes.set j (relaxedNodeC st mc j cur)))
            st.m_openlist }
      else st) := by
  rw [relaxCached, if_pos hcl, hn, hc]
  rfl

theorem relaxCached_eq_create (dc : S → S → Int) (goal : S)
    (st : AStarCachedState S) (n : S) (ni mc : Int) (cur : Nat)
    (hcl : (st.m_helperlist ni).m_onclosed = false)
    (hn : (st.m_helperlist ni).m_node = none)
    (hc : st.m_currentnode = some cur) :
    relaxCached dc goal st n ni mc =
      { st with
        nodes := st.nodes ++ [createdNodeC dc goal st n ni mc cur]
        m_openlist := pushHeap
          (fAtC (st.nodes ++ [createdNodeC dc goal st n ni mc cur]))
          st.m_openlist st.nodes.length
        m_helperlist := setIntMap st.m_helperlist ni
          { m_node := some st.nodes.length
            m_onopen := true
            m_onclosed := (st.m_helperlist ni).m_onclosed } } := by
  rw [relaxCached, if_pos hcl, hn, hc]
  rfl

theorem relaxCached_withCache (dc : S → S → Int) (goal : S)
    (st : AStarCachedState S) (X : Int → cacheelement S)
    (n : S) (ni mc : Int) :
    relaxCached dc goal (withCache st X) n ni mc =
      withCache (relaxCached dc goal st n ni mc) X := by
  by_cases hcl : (st.m_helperlist ni).m_onclosed = false
  · rcases hn : (st.m_helperlist ni).m_node with _ | j
    · rcases hc : st.m_currentnode with _ | cur
      · rw [relaxCached_eq_nocur dc goal st n ni mc hc,
          relaxCached_eq_nocur dc goal (withCache st X) n ni mc hc]
      · rw [relaxCached_eq_create dc goal st n ni mc cur hcl hn hc,
          relaxCached_eq_create dc goal (withCache st X) n ni mc cur hcl hn hc]
        rfl
    · rcases hc : st.m_currentnode with _ | cur
      · rw [relaxCached_eq_nocur dc goal st n ni mc hc,
          relaxCached_eq_nocur dc goal (withCache st X) n ni mc hc]
      · rw [relaxCached_eq_known dc goal st n ni mc j cur hcl hn hc,
          relaxCached_eq_known dc goal (withCache st X) n ni mc j cur hcl hn hc]
        have hknodes : (withCache st X).nodes = st.nodes := rfl
        rw [hknodes]
        split_ifs with hg
        · rfl
        · rfl
  · rw [relaxCached_eq_closed dc goal st n ni mc hcl,
      relaxCached_eq_closed dc goal (withCache st X) n ni mc hcl]

theorem stAtC_set (nodes : List (astarnodeCached S)) (nd : astarnodeCached S)
    (i : Nat) (hpres : nd.m_node = (nodes.getD i dfltNodeC).m_node) (k : Nat) :
    stAtC (nodes.set i nd) k = stAtC nodes k := by
  rcases Nat.lt_or_ge i nodes.length with hi | hi
  · by_cases hik : i = k
    · subst hik
      rw [stAtC, stAtC, getD_set_self _ _ _ _ hi, hpres]
    · rw [stAtC, stAtC, getD_set_ne _ _ _ _ _ hik]
  · rw [List.set_eq_of_length_le hi]

theorem ixAtC_set (nodes : List (astarnodeCached S)) (nd : astarnodeCached S)
    (i : Nat) (hpres : nd.m_index = (nodes.getD i dfltNodeC).m_index) (k : Nat) :
    ixAtC (nodes.set i nd) k = ixAtC nodes k := by
  rcases Nat.lt_or_ge i nodes.length with hi | hi
  · by_cases hik : i = k
    · subst hik
      rw [ixAtC, ixAtC, getD_set_self _ _ _ _ hi, hpres]
    · rw [ixAtC, ixAtC, getD_set_ne _ _ _ _ _ hik]
  · rw [List.set_eq_of_length_le hi]

theorem relaxCached_facts (dc : S → S → Int) (goal : S) (ix : S → Int)
    (st : AStarCachedState S) (n : S) (ni mc : Int) :
    (relaxCached dc goal st n ni mc).m_currentnode = st.m_currentnode ∧
    st.nodes.length ≤ (relaxCached dc goal st n ni mc).nodes.length ∧
    (∀ j, j < st.nodes.length →
      stAtC (relaxCached dc goal st n ni mc).nodes j = stAtC st.nodes j ∧
      ixAtC (relaxCached dc goal st n ni mc).nodes j = ixAtC st.nodes j) ∧
    (OpenLtC st → OpenLtC (relaxCached dc goal st n ni mc)) ∧
    (ni = ix n → IxInvC ix st → IxInvC ix (relaxCached dc goal st n ni mc)) ∧
    (relaxCached dc goal st n ni mc).m_cache = st.m_cache := by
  by_cases hcl : (st.m_helperlist ni).m_onclosed = false
  · rcases hn : (st.m_helperlist ni).m_node with _ | j
    · rcases hc : st.m_currentnode with _ | cur
      · rw [relaxCached_eq_nocur dc goal st n ni mc hc]
        exact ⟨hc, le_refl _, fun j hj => ⟨rfl, rfl⟩, fun h => h,
          fun _ h => h, rfl⟩
      · rw [relaxCached_eq_create dc goal st n ni mc cur hcl hn hc]
        dsimp only
        have hlen : (st.nodes ++ [createdNodeC dc goal st n ni mc cur]).length =
            st.nodes.length + 1 := by simp
        refine ⟨hc, by simp, ?_, ?_, ?_, rfl⟩
        · intro k hk
          constructor
          · rw [stAtC, stAtC, getD_append_lt _ _ _ _ hk]
          · rw [ixAtC, ixAtC, getD_append_lt _ _ _ _ hk]
        · intro h k hk
          rw [pushHeap_mem] at hk
          rcases hk with rfl | hk
          · rw [hlen]
            omega
          · rw [hlen]
            have := h k hk
            omega
        · intro hni h k hk
          rw [hlen] at hk
          rcases Nat.lt_or_ge k st.nodes.length with hk' | hk'
          · rw [stAtC, ixAtC, getD_append_lt _ _ _ _ hk']
            exact h k hk'
          · have hke : k = st.nodes.length := by omega
            subst hke
            rw [stAtC, ixAtC, getD_append_self]
            exact hni
    · rcases hc : st.m_currentnode with _ | cur
      · rw [relaxCached_eq_nocur dc goal st n ni mc hc]
        exact ⟨hc, le_refl _, fun j hj => ⟨rfl, rfl⟩, fun h => h,
          fun _ h => h, rfl⟩
      · rw [relaxCached_eq_known dc goal st n ni mc j cur hcl hn hc]
        split_ifs with hg
        · dsimp only
          have h1 : ∀ k, stAtC (st.nodes.set j (relaxedNodeC st mc j cur)) k =
              stAtC st.nodes k :=
            stAtC_set st.nodes (relaxedNodeC st mc j cur) j rfl
          have h2 : ∀ k, ixAtC (st.nodes.set j (relaxedNodeC st mc j cur)) k =
              ixAtC st.nodes k :=
            ixAtC_set st.nodes (relaxedNodeC st mc j cur) j rfl
          refine ⟨hc, by simp, ?_, ?_, ?_, rfl⟩
          · intro k hk
            exact ⟨h1 k, h2 k⟩
          · intro h k hk
            rw [makeHeap_mem] at hk
            have := h k hk
            simpa using this
          · intro hni h k hk
            simp only [List.length_set] at hk
            rw [h1 k, h2 k]
            exact h k hk
        · exact ⟨hc, le_refl _, fun k hk => ⟨rfl, rfl⟩, fun h => h,
            fun _ h => h, rfl⟩
  · rw [relaxCached_eq_closed dc goal st n ni mc hcl]
    exact ⟨rfl, le_refl _, fun j hj => ⟨rfl, rfl⟩, fun h => h, fun _ h => h, rfl⟩

theorem foldRelax_withCache (dc : S → S → Int) (goal : S) :
    ∀ (L : List (S × Int × Int)) (st : AStarCachedState S)
      (X : Int → cacheelement S),
    L.foldl (fun acc t => relaxCached dc goal acc t.1 t.2.1 t.2.2)
        (withCache st X) =
      withCache
        (L.foldl (fun acc t => relaxCached dc goal acc t.1 t.2.1 t.2.2) st) X := by
  intro L
  induction L with
  | nil => intro st X; rfl
  | cons t L' ih =>
    intro st X
    have h1 : (t :: L').foldl
        (fun acc t => relaxCached dc goal acc t.1 t.2.1 t.2.2) (withCache st X) =
        L'.foldl (fun acc t => relaxCached dc goal acc t.1 t.2.1 t.2.2)
          (relaxCached dc goal (withCache st X) t.1 t.2.1 t.2.2) := by
      rw [List.foldl_cons]
    have h2 : (t :: L').foldl
        (fun acc t => relaxCached dc goal acc t.1 t.2.1 t.2.2) st =
        L'.foldl (fun acc t => relaxCached dc goal acc t.1 t.2.1 t.2.2)
          (relaxCached dc goal st t.1 t.2.1 t.2.2) := by
      rw [List.foldl_cons]
    rw [h1, h2, relaxCached_withCache]
    exact ih (relaxCached dc goal st t.1 t.2.1 t.2.2) X

theorem foldRelax_facts (dc : S → S → Int) (goal : S) (ix : S → Int) :
    ∀ (L : List (S × Int × Int)) (st : AStarCachedState S),
    ((L.foldl (fun acc t => relaxCached dc goal acc t.1 t.2.1 t.2.2)
        st).m_currentnode = st.m_currentnode) ∧
    st.nodes.length ≤
      (L.foldl (fun acc t => relaxCached dc goal acc t.1 t.2.1 t.2.2)
        st).nodes.length ∧
    (∀ j, j < st.nodes.length →
      stAtC (L.foldl (fun acc t => relaxCached dc goal acc t.1 t.2.1 t.2.2)
        st).nodes j = stAtC st.nodes j ∧
      ixAtC (L.foldl (fun acc t => relaxCached dc goal acc t.1 t.2.1 t.2.2)
        st).nodes j = ixAtC st.nodes j) ∧
    (OpenLtC st →
      OpenLtC (L.foldl (fun acc t => relaxCached dc goal acc t.1 t.2.1 t.2.2) st)) ∧
    ((∀ t ∈ L, t.2.1 = ix t.1) → IxInvC ix st →
      IxInvC ix (L.foldl (fun acc t => relaxCached dc goal acc t.1 t.2.1 t.2.2) st)) ∧
    (L.foldl (fun acc t => relaxCached dc goal acc t.1 t.2.1 t.2.2) st).m_cache =
      st.m_cache := by
  intro L
  induction L with
  | nil =>
    intro st
    exact ⟨rfl, le_refl _, fun j hj => ⟨rfl, rfl⟩, fun h => h, fun _ h => h, rfl⟩
  | cons t L' ih =>
    intro st
    obtain ⟨c1, c2, c3, c4, c5, c6⟩ :=
      relaxCached_facts dc goal ix st t.1 t.2.1 t.2.2
    obtain ⟨d1, d2, d3, d4, d5, d6⟩ := ih (relaxCached dc goal st t.1 t.2.1 t.2.2)
    have hfold : (t :: L').foldl
        (fun acc t => relaxCached dc goal acc t.1 t.2.1 t.2.2) st =
        L'.foldl (fun acc t => relaxCached dc goal acc t.1 t.2.1 t.2.2)
          (relaxCached dc goal st t.1 t.2.1 t.2.2) := by
      rw [List.foldl_cons]
    rw [hfold]
    refine ⟨d1.trans c1, le_trans c2 d2, ?_, fun h => d4 (c4 h), ?_, d6.trans c6⟩
    · intro j hj
      obtain ⟨s1, s2⟩ := c3 j hj
      obtain ⟨u1, u2⟩ := d3 j (lt_of_lt_of_le hj c2)
      exact ⟨u1.trans s1, u2.trans s2⟩
    · intro hL h
      exact d5 (fun x hx => hL x (by simp [hx])) (c5 (hL t (by simp)) h)

theorem recordCache_withCache (st : AStarCachedState S)
    (X : Int → cacheelement S) (ci : Int) (n : S) (ni mc : Int) :
    recordCache (withCache st X) ci n ni mc =
      withCache st (setIntMap X ci
        { m_hascache := true
          m_neighbors := (X ci).m_neighbors ++ [(n, ni, mc)] }) := rfl

theorem addNeighborCached_withCache (dc : S → S → Int) (goal : S)
    (st : AStarCachedState S) (X : Int → cacheelement S)
    (n : S) (ni mc : Int) (cur : Nat)
    (hc : st.m_currentnode = some cur) :
    AddNeighborCached dc goal (withCache st X) n ni mc =
      withCache (relaxCached dc goal st n ni mc)
        (setIntMap X (ixAtC (relaxCached dc goal st n ni mc).nodes cur)
          { m_hascache := true
            m_neighbors :=
              (X (ixAtC (relaxCached dc goal st n ni mc).nodes cur)).m_neighbors
                ++ [(n, ni, mc)] }) := by
  have hcur1 : (relaxCached dc goal st n ni mc).m_currentnode = some cur := by
    rw [(relaxCached_facts dc goal (fun _ => (0 : Int)) st n ni mc).1, hc]
  have e : AddNeighborCached dc goal (withCache st X) n ni mc =
      (match (relaxCached dc goal (withCache st X) n ni mc).m_currentnode with
       | some cur' => recordCache (relaxCached dc goal (withCache st X) n ni mc)
           (ixAtC (relaxCached dc goal (withCache st X) n ni mc).nodes cur') n ni mc
       | none => relaxCached dc goal (withCache st X) n ni mc) := rfl
  rw [e, relaxCached_withCache]
  have e3 : (withCache (relaxCached dc goal st n ni mc) X).m_currentnode =
      some cur := hcur1
  rw [e3]
  exact recordCache_withCache (relaxCached dc goal st n ni mc) X
    (ixAtC (withCache (relaxCached dc goal st n ni mc) X).nodes cur) n ni mc

theorem foldAddCached (dc : S → S → Int) (goal : S) :
    ∀ (L : List (S × Int × Int)) (st : AStarCachedState S)
      (X : Int → cacheelement S) (cur : Nat),
    st.m_currentnode = some cur →
    cur < st.nodes.length →
    L.foldl (fun acc t => AddNeighborCached dc goal acc t.1 t.2.1 t.2.2)
        (withCache st X) =
      withCache
        (L.foldl (fun acc t => relaxCached dc goal acc t.1 t.2.1 t.2.2) st)
        (if L.isEmpty = true then X
         else setIntMap X (ixAtC st.nodes cur)
           { m_hascache := true
             m_neighbors := (X (ixAtC st.nodes cur)).m_neighbors ++ L }) := by
  intro L
  induction L with
  | nil =>
    intro st X cur hc hlt
    rfl
  | cons t L' ih =>
    intro st X cur hc hlt
    obtain ⟨c1, c2, c3, _, _, _⟩ :=
      relaxCached_facts dc goal (fun _ => (0 : Int)) st t.1 t.2.1 t.2.2
    have hc1 : (relaxCached dc goal st t.1 t.2.1 t.2.2).m_currentnode = some cur := by
      rw [c1, hc]
    have hlt1 : cur < (relaxCached dc goal st t.1 t.2.1 t.2.2).nodes.length :=
      lt_of_lt_of_le hlt c2
    have hixstable : ixAtC (relaxCached dc goal st t.1 t.2.1 t.2.2).nodes cur =
        ixAtC st.nodes cur := (c3 cur hlt).2
    have hfoldW : (t :: L').foldl
        (fun acc t => AddNeighborCached dc goal acc t.1 t.2.1 t.2.2)
        (withCache st X) =
        L'.foldl (fun acc t => AddNeighborCached dc goal acc t.1 t.2.1 t.2.2)
          (AddNeighborCached dc goal (withCache st X) t.1 t.2.1 t.2.2) := by
      rw [List.foldl_cons]
    have hfoldR : (t :: L').foldl
        (fun acc t => relaxCached dc goal acc t.1 t.2.1 t.2.2) st =
        L'.foldl (fun acc t => relaxCached dc goal acc t.1 t.2.1 t.2.2)
          (relaxCached dc goal st t.1 t.2.1 t.2.2) := by
      rw [List.foldl_cons]
    rw [hfoldW, hfoldR,
      addNeighborCached_withCache dc goal st X t.1 t.2.1 t.2.2 cur hc, hixstable,
      ih (relaxCached dc goal st t.1 t.2.1 t.2.2) _ cur hc1 hlt1]
    rw [if_neg (by simp : ¬((t :: L').isEmpty = true))]
    rcases L' with _ | ⟨t', L''⟩
    · rfl
    · rw [if_neg (by simp : ¬((t' :: L'').isEmpty = true)), hixstable,
        setIntMap_self, setIntMap_setIntMap_self, List.append_assoc,
        List.singleton_append]

theorem closeStateC_withCache (st : AStarCachedState S)
    (X : Int → cacheelement S) (cur : Nat) (o2 : List Nat) :
    closeStateC (withCache st X) cur o2 =
      withCache (closeStateC st cur o2) X := rfl

theorem closeStateC_nodes (st : AStarCachedState S) (cur : Nat) (o2 : List Nat) :
    (closeStateC st cur o2).nodes = st.nodes := rfl

theorem closeStateC_cur (st : AStarCachedState S) (cur : Nat) (o2 : List Nat) :
    (closeStateC st cur o2).m_currentnode = some cur := rfl

theorem closeStateC_open (st : AStarCachedState S) (cur : Nat) (o2 : List Nat) :
    (closeStateC st cur o2).m_openlist = o2 := rfl

theorem closeStateC_cache (st : AStarCachedState S) (cur : Nat) (o2 : List Nat) :
    (closeStateC st cur o2).m_cache = st.m_cache := rfl

theorem stepBodyCached_char (dc : S → S → Int) (gn : S → List (S × Int × Int))
    (goal : S) (st : AStarCachedState S) (cur : Nat) (open2 : List Nat)
    (hlen : st.m_openlist.length > 0)
    (hpop : popHeap (fAtC st.nodes) st.m_openlist = (some cur, open2)) :
    stepBodyCached dc gn goal st =
      (if stAtC st.nodes cur = goal then (PATH_FOUND, closeStateC st cur open2)
       else (PATH_SEARCHING,
         expandCached dc gn goal (closeStateC st cur open2) cur)) := by
  rw [stepBodyCached, if_pos hlen, hpop]
  rfl

theorem expandCached_hit (dc : S → S → Int) (gn : S → List (S × Int × Int))
    (goal : S) (st : AStarCachedState S) (cur : Nat)
    (h : (st.m_cache (ixAtC st.nodes cur)).m_hascache = true) :
    expandCached dc gn goal st cur =
      (st.m_cache (ixAtC st.nodes cur)).m_neighbors.foldl
        (fun acc t => relaxCached dc goal acc t.1 t.2.1 t.2.2) st := by
  rw [expandCached, if_pos h]

theorem expandCached_miss (dc : S → S → Int) (gn : S → List (S × Int × Int))
    (goal : S) (st : AStarCachedState S) (cur : Nat)
    (h : ¬ (st.m_cache (ixAtC st.nodes cur)).m_hascache = true) :
    expandCached dc gn goal st cur =
      (gn (stAtC st.nodes cur)).foldl
        (fun acc t => AddNeighborCached dc goal acc t.1 t.2.1 t.2.2) st := by
  rw [expandCached, if_neg h]

theorem cacheOk_set (gn : S → List (S × Int × Int)) (ix : S → Int)
    (hinj : Function.Injective ix) (X : Int → cacheelement S)
    (hX : CacheOk gn ix X) (s : S) :
    CacheOk gn ix (setIntMap X (ix s)
      { m_hascache := true, m_neighbors := gn s }) := by
  intro t
  by_cases ht : ix t = ix s
  · have hts : t = s := hinj ht
    subst hts
    rw [setIntMap_self]
    exact ⟨fun _ => rfl, fun h => absurd h (by simp)⟩
  · rw [setIntMap_ne _ _ _ _ ht]
    exact hX t

theorem cachedLoop_bisim (dc : S → S → Int) (gn : S → List (S × Int × Int))
    (ix : S → Int) (goal : S)
    (hix : ∀ s, ∀ t ∈ gn s, t.2.1 = ix t.1)
    (hinj : Function.Injective ix) :
    ∀ (fuel : Nat) (C : AStarCachedState S) (X : Int → cacheelement S)
      (p : List S),
    OpenLtC C → IxInvC ix C → CacheOk gn ix C.m_cache → CacheOk gn ix X →
    (FindPathCachedLoop dc gn goal fuel (withCache C X) p).1 =
      (FindPathCachedLoop dc gn goal fuel C p).1 ∧
    (FindPathCachedLoop dc gn goal fuel (withCache C X) p).2.1 =
      (FindPathCachedLoop dc gn goal fuel C p).2.1 := by
  intro fuel
  induction fuel with
  | zero => intro C X p _ _ _ _; exact ⟨rfl, rfl⟩
  | succ fuel ih =>
    intro C X p hol hiv hCok hXok
    by_cases hlen : C.m_openlist.length > 0
    case neg =>
      have hlenW : ¬ ((withCache C X).m_openlist.length > 0) := hlen
      have hW : stepBodyCached dc gn goal (withCache C X) =
          (PATH_NOTFOUND, withCache C X) := by
        rw [stepBodyCached, if_neg hlenW]
      have hC : stepBodyCached dc gn goal C = (PATH_NOTFOUND, C) := by
        rw [stepBodyCached, if_neg hlen]
      have eW : FindPathCachedLoop dc gn goal (fuel + 1) (withCache C X) p =
          (PATH_NOTFOUND, p, withCache C X) := by
        rw [FindPathCachedLoop, hW]
      have eC : FindPathCachedLoop dc gn goal (fuel + 1) C p =
          (PATH_NOTFOUND, p, C) := by
        rw [FindPathCachedLoop, hC]
      rw [eW, eC]
      exact ⟨rfl, rfl⟩
    case pos =>
      have hne : C.m_openlist ≠ [] := by
        intro h0
        rw [h0] at hlen
        exact absurd hlen (by simp)
      obtain ⟨cur, open2, hpop, hperm⟩ :=
        popHeap_spec (fAtC C.nodes) C.m_openlist hne
      have hcurlt : cur < C.nodes.length :=
        hol cur (hperm.mem_iff.mpr (List.mem_cons_self cur open2))
      have hpopW : popHeap (fAtC (withCache C X).nodes)
          (withCache C X).m_openlist = (some cur, open2) := hpop
      have hlenW : (withCache C X).m_openlist.length > 0 := hlen
      have hcharW := stepBodyCached_char dc gn goal (withCache C X) cur open2
        hlenW hpopW
      have hcharC := stepBodyCached_char dc gn goal C cur open2 hlen hpop
      rw [closeStateC_withCache] at hcharW
      by_cases hgoal : stAtC C.nodes cur = goal
      · have hgoalW : stAtC (withCache C X).nodes cur = goal := hgoal
        rw [if_pos hgoalW] at hcharW
        rw [if_pos hgoal] at hcharC
        constructor
        · have e1 : (FindPathCachedLoop dc gn goal (fuel + 1)
              (withCache C X) p).1 = PATH_FOUND := by
            rw [FindPathCachedLoop, hcharW]
          have e2 : (FindPathCachedLoop dc gn goal (fuel + 1) C p).1 =
              PATH_FOUND := by
            rw [FindPathCachedLoop, hcharC]
          rw [e1, e2]
        · have e1 : (FindPathCachedLoop dc gn goal (fuel + 1)
              (withCache C X) p).2.1 =
              (walkChainC (closeStateC C cur open2).nodes
                (closeStateC C cur open2).nodes.length
                (closeStateC C cur open2).m_currentnode).1 := by
            rw [FindPathCachedLoop, hcharW]
            rfl
          have e2 : (FindPathCachedLoop dc gn goal (fuel + 1) C p).2.1 =
              (walkChainC (closeStateC C cur open2).nodes
                (closeStateC C cur open2).nodes.length
                (closeStateC C cur open2).m_currentnode).1 := by
            rw [FindPathCachedLoop, hcharC]
          rw [e1, e2]
      · have hgoalW : ¬ stAtC (withCache C X).nodes cur = goal := hgoal
        rw [if_neg hgoalW] at hcharW
        rw [if_neg hgoal] at hcharC
        have hol1 : OpenLtC (closeStateC C cur open2) := by
          intro j hj
          rw [closeStateC_open] at hj
          rw [closeStateC_nodes]
          exact hol j (hperm.mem_iff.mpr (List.mem_cons_of_mem cur hj))
        have hiv1 : IxInvC ix (closeStateC C cur open2) := hiv
        have hcur1 : (closeStateC C cur open2).m_currentnode = some cur :=
          closeStateC_cur C cur open2
        have hlt1 : cur < (closeStateC C cur open2).nodes.length := hcurlt
        have hixcur : ixAtC C.nodes cur = ix (stAtC C.nodes cur) := hiv cur hcurlt
        obtain ⟨r1, r2, r3, r4, r5, r6⟩ := foldRelax_facts dc goal ix
          (gn (stAtC C.nodes cur)) (closeStateC C cur open2)
        set R := (gn (stAtC C.nodes cur)).foldl
          (fun acc t => relaxCached dc goal acc t.1 t.2.1 t.2.2)
          (closeStateC C cur open2) with hRdef
        obtain ⟨MW, hWexp, hMWok⟩ : ∃ M,
            expandCached dc gn goal
              (withCache (closeStateC C cur open2) X) cur =
            withCache R M ∧
            CacheOk gn ix M := by
          by_cases hX : (X (ixAtC C.nodes cur)).m_hascache = true
          · refine ⟨X, ?_, hXok⟩
            have hhit : ((withCache (closeStateC C cur open2) X).m_cache
                (ixAtC (withCache (closeStateC C cur open2) X).nodes
                  cur)).m_hascache = true := hX
            rw [expandCached_hit dc gn goal _ cur hhit]
            have hentry : ((withCache (closeStateC C cur open2) X).m_cache
                (ixAtC (withCache (closeStateC C cur open2) X).nodes
                  cur)).m_neighbors = gn (stAtC C.nodes cur) := by
              show (X (ixAtC C.nodes cur)).m_neighbors = _
              rw [hixcur]
              exact (hXok (stAtC C.nodes cur)).1 (by rw [← hixcur]; exact hX)
            rw [hentry, foldRelax_withCache]
          · refine ⟨if (gn (stAtC C.nodes cur)).isEmpty = true then X
              else setIntMap X (ixAtC C.nodes cur)
                { m_hascache := true
                  m_neighbors := (X (ixAtC C.nodes cur)).m_neighbors
                    ++ gn (stAtC C.nodes cur) }, ?_, ?_⟩
            · have hmiss : ¬ ((withCache (closeStateC C cur open2) X).m_cache
                  (ixAtC (withCache (closeStateC C cur open2) X).nodes
                    cur)).m_hascache = true := hX
              rw [expandCached_miss dc gn goal _ cur hmiss]
              have hst : stAtC (withCache (closeStateC C cur open2) X).nodes cur =
                  stAtC C.nodes cur := rfl
              rw [hst, foldAddCached dc goal (gn (stAtC C.nodes cur))
                (closeStateC C cur open2) X cur hcur1 hlt1]
              have hkey : ixAtC (closeStateC C cur open2).nodes cur =
                  ixAtC C.nodes cur := rfl
              rw [hkey]
            · split_ifs with hemp
              · exact hXok
              · have hfalse : (X (ixAtC C.nodes cur)).m_hascache = false := by
                  rcases hb : (X (ixAtC C.nodes cur)).m_hascache
                  · rfl
                  · exact absurd hb hX
                have hnb : (X (ixAtC C.nodes cur)).m_neighbors = [] := by
                  rw [hixcur] at hfalse ⊢
                  exact (hXok (stAtC C.nodes cur)).2 hfalse
                rw [hnb, hixcur]
                have hcons : ([] : List (S × Int × Int)) ++
                    gn (stAtC C.nodes cur) = gn (stAtC C.nodes cur) := by simp
                rw [hcons]
                exact cacheOk_set gn ix hinj X hXok (stAtC C.nodes cur)
        obtain ⟨MC, hCexp, hMCok⟩ : ∃ M,
            expandCached dc gn goal (closeStateC C cur open2) cur =
            withCache R M ∧
            CacheOk gn ix M := by
          by_cases hY : (C.m_cache (ixAtC C.nodes cur)).m_hascache = true
          · refine ⟨C.m_cache, ?_, hCok⟩
            have hhit : ((closeStateC C cur open2).m_cache
                (ixAtC (closeStateC C cur open2).nodes cur)).m_hascache =
                true := hY
            rw [expandCached_hit dc gn goal _ cur hhit]
            have hentry : ((closeStateC C cur open2).m_cache
                (ixAtC (closeStateC C cur open2).nodes cur)).m_neighbors =
                gn (stAtC C.nodes cur) := by
              show (C.m_cache (ixAtC C.nodes cur)).m_neighbors = _
              rw [hixcur]
              exact (hCok (stAtC C.nodes cur)).1 (by rw [← hixcur]; exact hY)
            rw [hentry]
            have hc6 : C.m_cache = R.m_cache := r6.symm
            rw [hc6]
            exact (withCache_self _).symm
          · refine ⟨if (gn (stAtC C.nodes cur)).isEmpty = true then C.m_cache
              else setIntMap C.m_cache (ixAtC C.nodes cur)
                { m_hascache := true
                  m_neighbors := (C.m_cache (ixAtC C.nodes cur)).m_neighbors
                    ++ gn (stAtC C.nodes cur) }, ?_, ?_⟩
            · have hmiss : ¬ ((closeStateC C cur open2).m_cache
                  (ixAtC (closeStateC C cur open2).nodes cur)).m_hascache =
                  true := hY
              rw [expandCached_miss dc gn goal _ cur hmiss]
              have hst : stAtC (closeStateC C cur open2).nodes cur =
                  stAtC C.nodes cur := rfl
              rw [hst]
              have hstart : (gn (stAtC C.nodes cur)).foldl
                  (fun acc t => AddNeighborCached dc goal acc t.1 t.2.1 t.2.2)
                  (closeStateC C cur open2) =
                  (gn (stAtC C.nodes cur)).foldl
                    (fun acc t => AddNeighborCached dc goal acc t.1 t.2.1 t.2.2)
                    (withCache (closeStateC C cur open2) C.m_cache) := rfl
              rw [hstart, foldAddCached dc goal (gn (stAtC C.nodes cur))
                (closeStateC C cur open2) C.m_cache cur hcur1 hlt1]
              have hkey : ixAtC (closeStateC C cur open2).nodes cur =
                  ixAtC C.nodes cur := rfl
              rw [hkey]
            · split_ifs with hemp
              · exact hCok
              · have hfalse : (C.m_cache (ixAtC C.nodes cur)).m_hascache =
                    false := by
                  rcases hb : (C.m_cache (ixAtC C.nodes cur)).m_hascache
                  · rfl
                  · exact absurd hb hY
                have hnb : (C.m_cache (ixAtC C.nodes cur)).m_neighbors = [] := by
                  rw [hixcur] at hfalse ⊢
                  exact (hCok (stAtC C.nodes cur)).2 hfalse
                rw [hnb, hixcur]
                have hcons : ([] : List (S × Int × Int)) ++
                    gn (stAtC C.nodes cur) = gn (stAtC C.nodes cur) := by simp
                rw [hcons]
                exact cacheOk_set gn ix hinj C.m_cache hCok (stAtC C.nodes cur)
        have holR : OpenLtC R := r4 hol1
        have hivR : IxInvC ix R :=
          r5 (fun t ht => hix (stAtC C.nodes cur) t ht) hiv1
        have eW : FindPathCachedLoop dc gn goal (fuel + 1) (withCache C X) p =
            FindPathCachedLoop dc gn goal fuel (withCache R MW) p := by
          rw [FindPathCachedLoop, hcharW, hWexp]
        have eC : FindPathCachedLoop dc gn goal (fuel + 1) C p =
            FindPathCachedLoop dc gn goal fuel (withCache R MC) p := by
          rw [FindPathCachedLoop, hcharC, hCexp]
        rw [eW, eC]
        exact ih (withCache R MC) MW p holR hivR hMCok hMWok

end CachedMachinery

section ClaimMain

variable {S : Type} [DecidableEq S] [Inhabited S]

/-- C1 (amended): on every finite graph with enough fuel for the always
terminating search, `FindPath` reports `PATH_FOUND` exactly for goals
reachable from the start, and on `PATH_FOUND` the returned `finalpath`
(reversed into start-to-goal order) traces a genuine path of emitted edges;
its accumulated cost is however not in general the true shortest-path cost,
even with non-negative costs and an admissible heuristic (the closed check in
`AddNeighbor` never re-opens a node, so optimality needs a consistent
heuristic — refuted separately on a 4-state graph). -/
theorem findpath_found_iff_reachable (n : Nat)
    (gn : Fin (n + 1) → List (Fin (n + 1) × Int))
    (dc : Fin (n + 1) → Fin (n + 1) → Int) (start goal : Fin (n + 1))
    (p₀ : List (Fin (n + 1))) (fuel : Nat) (hfuel : n + 2 ≤ fuel) :
    ((FindPath start goal p₀ dc gn fuel).1 = PATH_FOUND ↔
      ReachableG gn start goal) ∧
    ((FindPath start goal p₀ dc gn fuel).1 = PATH_FOUND →
      ∃ c, PathTo gn start goal
        ((FindPath start goal p₀ dc gn fuel).2.1).reverse c) := by
  have h := findPath_facts dc gn start goal p₀ fuel (by simpa using hfuel)
  exact ⟨h.1, fun hf => (h.2 hf).imp fun c hc => hc.1⟩

theorem findpath_found_iff_reachable_witness :
    (2 : Nat) + 2 ≤ 5 ∧
    (((FindPath (0 : Fin 3) 2 [] lineDc lineGn 5).1 = PATH_FOUND ↔
        ReachableG lineGn 0 2) ∧
     ((FindPath (0 : Fin 3) 2 [] lineDc lineGn 5).1 = PATH_FOUND →
       ∃ c, PathTo lineGn 0 2
         ((FindPath (0 : Fin 3) 2 [] lineDc lineGn 5).2.1).reverse c)) :=
  ⟨by decide, findpath_found_iff_reachable 2 lineGn lineDc 0 2 [] 5 (by decide)⟩

/-- C4: on `PATH_FOUND` the produced path lists states in goal-to-start order
— the goal first (walk starts at the popped goal node), each parent next, the
start state last — and is never reversed; concretely, on the 3-state line
graph A(0)–B(1)–C(2) with unit costs and zero heuristic, `FindPath A C`
returns `PATH_FOUND` with path [C, B, A] and accumulated g = 2 at C. -/
theorem found_path_goal_to_start (dc : S → S → Int) (gn : S → List (S × Int))
    (start goal : S) (p₀ : List S) (fuel : Nat)
    (hfound : (FindPath start goal p₀ dc gn fuel).1 = PATH_FOUND) :
    ((FindPath start goal p₀ dc gn fuel).2.1.head? = some goal ∧
     (FindPath start goal p₀ dc gn fuel).2.1.getLast? = some start) ∧
    ((FindPath (0 : Fin 3) 2 [] lineDc lineGn 5).1 = PATH_FOUND ∧
     (FindPath (0 : Fin 3) 2 [] lineDc lineGn 5).2.1 = [2, 1, 0] ∧
     gAt (FindPath (0 : Fin 3) 2 [] lineDc lineGn 5).2.2.nodes 2 = 2) := by
  constructor
  · rcases heq : FindPathLoop dc gn goal fuel (initState dc start goal) p₀ with
      ⟨r, p', stF⟩
    have hfp : FindPath start goal p₀ dc gn fuel = (r, p', stF) := heq
    rw [hfp] at hfound ⊢
    obtain ⟨_, _, _, hfd, _⟩ := findPathLoop_spec dc gn start goal fuel
      (initState dc start goal) p₀ r p' stF (initState_inv dc gn start goal)
      (initState_goal_notclosed dc start goal) heq
    obtain ⟨cur, l, hlt, hgl, hch, hp', hcn⟩ := hfd hfound
    constructor
    · show p'.head? = some goal
      rw [hp']
      have hhd := chainL_head dc gn start goal stF.nodes cur l hch
      rw [hgl] at hhd
      exact hhd
    · show p'.getLast? = some start
      rw [hp']
      exact chainL_getLast dc gn start goal stF.nodes cur l hch
  · decide

theorem found_path_goal_to_start_witness :
    (FindPath (0 : Fin 3) 2 [] lineDc lineGn 5).1 = PATH_FOUND ∧
    (((FindPath (0 : Fin 3) 2 [] lineDc lineGn 5).2.1.head? = some 2 ∧
      (FindPath (0 : Fin 3) 2 [] lineDc lineGn 5).2.1.getLast? = some 0) ∧
     ((FindPath (0 : Fin 3) 2 [] lineDc lineGn 5).1 = PATH_FOUND ∧
      (FindPath (0 : Fin 3) 2 [] lineDc lineGn 5).2.1 = [2, 1, 0] ∧
      gAt (FindPath (0 : Fin 3) 2 [] lineDc lineGn 5).2.2.nodes 2 = 2)) :=
  ⟨by decide, found_path_goal_to_start lineDc lineGn 0 2 [] 5 (by decide)⟩

/-- C6: at every stage of a step-driven search, each state is in exactly one
of three conditions — undiscovered, open, or closed (the three flag patterns
are mutually exclusive, in particular never open and closed at once) — and a
closed state is never reopened by the next step: its helper record (arena
registration and flags) and its node's g, f and parent are unchanged, and its
node index is not on the open list. -/
theorem tristate_and_closed_never_reopened (dc : S → S → Int)
    (gn : S → List (S × Int)) (start goal : S) (k : Nat) :
    (∀ s,
      (((runState dc gn goal k (InitializeStep dc start goal)).m_helperlist
          s).m_node = none ∧
       ((runState dc gn goal k (InitializeStep dc start goal)).m_helperlist
          s).m_onopen = false ∧
       ((runState dc gn goal k (InitializeStep dc start goal)).m_helperlist
          s).m_onclosed = false) ∨
      (((runState dc gn goal k (InitializeStep dc start goal)).m_helperlist
          s).m_node ≠ none ∧
       ((runState dc gn goal k (InitializeStep dc start goal)).m_helperlist
          s).m_onopen = true ∧
       ((runState dc gn goal k (InitializeStep dc start goal)).m_helperlist
          s).m_onclosed = false) ∨
      (((runState dc gn goal k (InitializeStep dc start goal)).m_helperlist
          s).m_node ≠ none ∧
       ((runState dc gn goal k (InitializeStep dc start goal)).m_helperlist
          s).m_onopen = false ∧
       ((runState dc gn goal k (InitializeStep dc start goal)).m_helperlist
          s).m_onclosed = true)) ∧
    (∀ s, ¬(((runState dc gn goal k (InitializeStep dc start goal)).m_helperlist
        s).m_onopen = true ∧
      ((runState dc gn goal k (InitializeStep dc start goal)).m_helperlist
        s).m_onclosed = true)) ∧
    (∀ s j,
      ((runState dc gn goal k (InitializeStep dc start goal)).m_helperlist
        s).m_onclosed = true →
      ((runState dc gn goal k (InitializeStep dc start goal)).m_helperlist
        s).m_node = some j →
      (runState dc gn goal (k + 1) (InitializeStep dc start goal)).m_helperlist s =
        (runState dc gn goal k (InitializeStep dc start goal)).m_helperlist s ∧
      (runState dc gn goal (k + 1) (InitializeStep dc start goal)).nodes.getD j
          dfltNode =
        (runState dc gn goal k (InitializeStep dc start goal)).nodes.getD j
          dfltNode ∧
      j ∉ (runState dc gn goal (k + 1)
        (InitializeStep dc start goal)).m_openlist) := by
  have hInvK := (runState_frozen dc gn start goal k (InitializeStep dc start goal)
    (initState_inv dc gn start goal)).1
  refine ⟨?_, ?_, ?_⟩
  · intro s
    rcases hInvK.core.hTri s with ⟨h1, h2, h3⟩ | ⟨j, hn, ho, hc, _⟩ |
      ⟨j, hn, ho, hc, _, _⟩
    · exact Or.inl ⟨h1, h2, h3⟩
    · refine Or.inr (Or.inl ⟨?_, ho, hc⟩)
      rw [hn]
      simp
    · refine Or.inr (Or.inr ⟨?_, ho, hc⟩)
      rw [hn]
      simp
  · intro s hcontra
    rcases hInvK.core.hTri s with ⟨_, h2, _⟩ | ⟨j, _, _, h3, _⟩ |
      ⟨j, _, h2, _, _, _⟩
    · rw [h2] at hcontra
      exact Bool.noConfusion hcontra.1
    · rw [h3] at hcontra
      exact Bool.noConfusion hcontra.2
    · rw [h2] at hcontra
      exact Bool.noConfusion hcontra.1
  · exact runState_step_frozen dc gn start goal k (InitializeStep dc start goal)
      (initState_inv dc gn start goal)

/-- C10: after `FindPath` returns `PATH_FOUND`, the path reconstruction inside
`FindPath` has advanced `m_currentnode` along the parent chain to null, so a
subsequent `GetPath` (which clears its output and walks from `m_currentnode`)
produces the empty path. -/
theorem getpath_after_found_is_empty (dc : S → S → Int)
    (gn : S → List (S × Int)) (start goal : S) (p₀ : List S) (fuel : Nat)
    (hfound : (FindPath start goal p₀ dc gn fuel).1 = PATH_FOUND) :
    GetPath (FindPath start goal p₀ dc gn fuel).2.2 = [] := by
  rcases heq : FindPathLoop dc gn goal fuel (initState dc start goal) p₀ with
    ⟨r, p', stF⟩
  have hfp : FindPath start goal p₀ dc gn fuel = (r, p', stF) := heq
  rw [hfp] at hfound ⊢
  obtain ⟨_, _, _, hfd, _⟩ := findPathLoop_spec dc gn start goal fuel
    (initState dc start goal) p₀ r p' stF (initState_inv dc gn start goal)
    (initState_goal_notclosed dc start goal) heq
  obtain ⟨cur, l, _, _, _, _, hcn⟩ := hfd hfound
  show GetPath stF = []
  rw [GetPath, hcn, walkChain_none]

theorem getpath_after_found_is_empty_witness :
    (FindPath (0 : Fin 3) 2 [] lineDc lineGn 5).1 = PATH_FOUND ∧
    GetPath (FindPath (0 : Fin 3) 2 [] lineDc lineGn 5).2.2 = [] :=
  ⟨by decide, getpath_after_found_is_empty lineDc lineGn 0 2 [] 5 (by decide)⟩

/-- C2 (amended): for the generic cached variant `AStarGenericCached` — whose
`AddNeighborCached` records every emitted triple unconditionally — cache
transparency holds: under a consistent, injective caller indexing, `FindPath`
run with any faithful warm cache returns the same result code and the same
finalpath as `FindPath` run immediately after `ClearCache()`.  (For the tile8
variant the same property fails, because its expansion records only non-closed
neighbors — refuted separately.) -/
theorem cached_findpath_warm_equals_cleared (dc : S → S → Int)
    (gn : S → List (S × Int × Int)) (ix : S → Int)
    (hix : ∀ s, ∀ t ∈ gn s, t.2.1 = ix t.1)
    (hinj : Function.Injective ix)
    (start goal : S) (p₀ : List S) (Xw : Int → cacheelement S)
    (hW : CacheOk gn ix Xw) (fuel : Nat) :
    (FindPathCached start (ix start) goal p₀ dc gn Xw fuel).1 =
      (FindPathCached start (ix start) goal p₀ dc gn
        (ClearCache (FindPathCached start (ix start) goal p₀ dc gn Xw
          fuel).2.2).m_cache fuel).1 ∧
    (FindPathCached start (ix start) goal p₀ dc gn Xw fuel).2.1 =
      (FindPathCached start (ix start) goal p₀ dc gn
        (ClearCache (FindPathCached start (ix start) goal p₀ dc gn Xw
          fuel).2.2).m_cache fuel).2.1 := by
  have h1 : OpenLtC (initCachedState dc start (ix start) goal
      (fun _ => ({} : cacheelement S))) := by
    intro j hj
    have hop : (initCachedState dc start (ix start) goal
        (fun _ => ({} : cacheelement S))).m_openlist = [0] := rfl
    rw [hop] at hj
    simp at hj
    subst hj
    exact Nat.zero_lt_one
  have h2 : IxInvC ix (initCachedState dc start (ix start) goal
      (fun _ => ({} : cacheelement S))) := by
    intro j hj
    have hlen : (initCachedState dc start (ix start) goal
        (fun _ => ({} : cacheelement S))).nodes.length = 1 := rfl
    rw [hlen] at hj
    have hj0 : j = 0 := by omega
    subst hj0
    rfl
  have h3 : CacheOk gn ix (initCachedState dc start (ix start) goal
      (fun _ => ({} : cacheelement S))).m_cache := by
    intro s
    constructor
    · intro h
      have h0 : ((initCachedState dc start (ix start) goal
          (fun _ => ({} : cacheelement S))).m_cache (ix s)).m_hascache =
          false := rfl
      rw [h0] at h
      exact Bool.noConfusion h
    · intro _
      rfl
  exact cachedLoop_bisim dc gn ix goal hix hinj fuel
    (initCachedState dc start (ix start) goal (fun _ => {})) Xw p₀ h1 h2 h3 hW

theorem cached_findpath_warm_equals_cleared_witness :
    ((∀ s, ∀ t ∈ gnW s, t.2.1 = ixW t.1) ∧ Function.Injective ixW ∧
      CacheOk gnW ixW cacheW) ∧
    ((FindPathCached (0 : Fin 2) (ixW 0) 1 [] dcW gnW cacheW 5).1 =
      (FindPathCached (0 : Fin 2) (ixW 0) 1 [] dcW gnW
        (ClearCache (FindPathCached (0 : Fin 2) (ixW 0) 1 [] dcW gnW cacheW
          5).2.2).m_cache 5).1 ∧
     (FindPathCached (0 : Fin 2) (ixW 0) 1 [] dcW gnW cacheW 5).2.1 =
      (FindPathCached (0 : Fin 2) (ixW 0) 1 [] dcW gnW
        (ClearCache (FindPathCached (0 : Fin 2) (ixW 0) 1 [] dcW gnW cacheW
          5).2.2).m_cache 5).2.1) :=
  ⟨⟨by decide, by decide, by unfold CacheOk; decide⟩,
   cached_findpath_warm_equals_cleared dcW gnW ixW (by decide) (by decide)
     0 1 [] cacheW (by unfold CacheOk; decide) 5⟩

/-- C8: after `ClearCacheIndex(i)` for the index `i` of the current node's
state, the next expansion of that state takes the live branch (the cleared
entry's has-cache flag is down), and — the edge data being the same `gn` the
faithful old entry recorded — it re-records neighbor data identical to the
cleared entry's: the same triple list, and (whenever the state has any
neighbors at all) the identical whole entry. -/
theorem clearcacheindex_reexpands_live_and_reproduces (dc : S → S → Int)
    (gn : S → List (S × Int × Int)) (goal : S) (st : AStarCachedState S)
    (cur : Nat)
    (hcur : st.m_currentnode = some cur)
    (hlt : cur < st.nodes.length)
    (hE : (st.m_cache (ixAtC st.nodes cur)).m_hascache = true)
    (hfaith : (st.m_cache (ixAtC st.nodes cur)).m_neighbors =
      gn (stAtC st.nodes cur)) :
    expandCached dc gn goal
        (ClearCacheIndex st (ixAtC st.nodes cur)) cur =
      (gn (stAtC st.nodes cur)).foldl
        (fun acc t => AddNeighborCached dc goal acc t.1 t.2.1 t.2.2)
        (ClearCacheIndex st (ixAtC st.nodes cur)) ∧
    ((expandCached dc gn goal (ClearCacheIndex st (ixAtC st.nodes cur))
        cur).m_cache (ixAtC st.nodes cur)).m_neighbors =
      (st.m_cache (ixAtC st.nodes cur)).m_neighbors ∧
    (gn (stAtC st.nodes cur) ≠ [] →
      (expandCached dc gn goal (ClearCacheIndex st (ixAtC st.nodes cur))
          cur).m_cache (ixAtC st.nodes cur) =
        st.m_cache (ixAtC st.nodes cur)) := by
  have hmiss : ¬ ((ClearCacheIndex st (ixAtC st.nodes cur)).m_cache
      (ixAtC (ClearCacheIndex st (ixAtC st.nodes cur)).nodes
        cur)).m_hascache = true := by
    have h0 : (ClearCacheIndex st (ixAtC st.nodes cur)).m_cache
        (ixAtC (ClearCacheIndex st (ixAtC st.nodes cur)).nodes cur) =
        ({} : cacheelement S) := setIntMap_self _ _ _
    rw [h0]
    simp
  have hlive := expandCached_miss dc gn goal
    (ClearCacheIndex st (ixAtC st.nodes cur)) cur hmiss
  have hst : stAtC (ClearCacheIndex st (ixAtC st.nodes cur)).nodes cur =
      stAtC st.nodes cur := rfl
  rw [hst] at hlive
  have hCC : ClearCacheIndex st (ixAtC st.nodes cur) =
      withCache st (setIntMap st.m_cache (ixAtC st.nodes cur) {}) := rfl
  have hfold := foldAddCached dc goal (gn (stAtC st.nodes cur)) st
    (setIntMap st.m_cache (ixAtC st.nodes cur) {}) cur hcur hlt
  have hafter : ((gn (stAtC st.nodes cur)).foldl
      (fun acc t => AddNeighborCached dc goal acc t.1 t.2.1 t.2.2)
      (ClearCacheIndex st (ixAtC st.nodes cur))).m_cache
        (ixAtC st.nodes cur) =
      (if (gn (stAtC st.nodes cur)).isEmpty = true
       then ({} : cacheelement S)
       else { m_hascache := true
              m_neighbors := ([] : List (S × Int × Int)) ++
                gn (stAtC st.nodes cur) }) := by
    rw [hCC, hfold, withCache_cache]
    split_ifs with hemp
    · exact setIntMap_self _ _ _
    · rw [setIntMap_self, setIntMap_self]
  have hentry : st.m_cache (ixAtC st.nodes cur) =
      { m_hascache := true, m_neighbors := gn (stAtC st.nodes cur) } := by
    rw [← hE, ← hfaith]
  refine ⟨hlive, ?_, ?_⟩
  · rw [hlive, hafter, hfaith]
    split_ifs with hemp
    · have hnil : gn (stAtC st.nodes cur) = [] := List.isEmpty_iff.mp hemp
      rw [hnil]
    · simp
  · intro hne
    rw [hlive, hafter,
      if_neg (by rw [List.isEmpty_iff]; exact hne), List.nil_append]
    exact hentry.symm

theorem clearcacheindex_reexpands_witness :
    (c8State.m_currentnode = some 0 ∧ 0 < c8State.nodes.length ∧
     (c8State.m_cache (ixAtC c8State.nodes 0)).m_hascache = true ∧
     (c8State.m_cache (ixAtC c8State.nodes 0)).m_neighbors =
       gnW (stAtC c8State.nodes 0)) ∧
    (expandCached dcW gnW 1
        (ClearCacheIndex c8State (ixAtC c8State.nodes 0)) 0 =
      (gnW (stAtC c8State.nodes 0)).foldl
        (fun acc t => AddNeighborCached dcW 1 acc t.1 t.2.1 t.2.2)
        (ClearCacheIndex c8State (ixAtC c8State.nodes 0)) ∧
     ((expandCached dcW gnW 1 (ClearCacheIndex c8State
        (ixAtC c8State.nodes 0)) 0).m_cache (ixAtC c8State.nodes 0)).m_neighbors =
      (c8State.m_cache (ixAtC c8State.nodes 0)).m_neighbors ∧
     (gnW (stAtC c8State.nodes 0) ≠ [] →
      (expandCached dcW gnW 1 (ClearCacheIndex c8State
          (ixAtC c8State.nodes 0)) 0).m_cache (ixAtC c8State.nodes 0) =
        c8State.m_cache (ixAtC c8State.nodes 0))) :=
  ⟨⟨by decide, by decide, by decide, by decide⟩,
   clearcacheindex_reexpands_live_and_reproduces dcW gnW 1 c8State 0
     (by decide) (by decide) (by decide) (by decide)⟩

end ClaimMain

end PathfinderModel
